import Mathlib

/-!
# Interface registry and multicast membership of `freebsd_network/if.c`

A shallow embedding of the index allocator (`gDevices`, `gDeviceCount`), the
interface constructor and destructor, and the reference-counted multicast
table of `src/libs/compat/freebsd_network/if.c`, followed by the properties
proved about them.

Conventions of the embedding:

* C functions that mutate global or pointed-to state take the state as an
  argument and return the new state next to their C return value.
* Locks (`IFNET_WLOCK`, `IF_ADDR_LOCK`, mutexes) and semaphores are not part of
  the state: every function body is one sequential execution.
* `panic` enters the kernel debugger and, as the `goto err2` after it in
  `if_alloc_inplace` shows, execution may continue after it; it is recorded in
  `Globals.panics` and the code after it runs.
-/

namespace NexusOS

/-! ## Data model -/

/-- A value of type `struct ifnet *` as stored in a slot of `gDevices`:
the null pointer, the placeholder `IFNET_HOLD` (the pointer value `-1`), or
the address of an interface object. -/
inductive ifnet_ptr where
  | NULL
  | IFNET_HOLD
  | obj (addr : Nat)
  deriving DecidableEq, Repr

/-- Modelled from the spec: the error numbers returned by the functions of
`if.c`. Their numeric values are set in `errno.h`, which is not among the
sources; the specification only tells them apart as different failure kinds.
`ENOERR` is the success value `0`. -/
inductive errno where
  | ENOERR
  | ENOSPC
  | ENOENT
  | ENOBUFS
  | ENOMEM
  | EOPNOTSUPP
  | EAFNOSUPPORT
  | EINVAL
  deriving DecidableEq, Repr

/-- Modelled from the spec: the request codes handed to the driver control
hook. Their numeric values are set in `sys/sockio.h`, which is not among the
sources; `other n` stands for every code without a name here. -/
inductive ioctl_cmd where
  | SIOCADDMULTI
  | SIOCDELMULTI
  | SIOCSIFMTU
  | other (n : Nat)
  deriving DecidableEq, Repr

/-- The status `B_OK`. -/
def B_OK : Int := 0

/-- Modelled from the spec: the default queue bound `IFQ_MAXLEN`, a constant
of a header that is not among the sources (50 in the BSD headers). -/
def IFQ_MAXLEN : Int := 50

/-- The link type `IFT_ETHER` of `net/if_types.h` (IANA ifType 6). -/
def IFT_ETHER : Nat := 6

/-- Number of address bytes compared by `if_findmulti`. -/
def ETHER_ADDR_LEN : Nat := 6

/-- A function pointer stored in one of the hooks of `struct ifnet`: a function
of the driver, named by its address, or one of the functions of `if.c`. -/
inductive fn_ptr where
  | driver (addr : Nat)
  | if_transmit_default
  | if_qflush
  | if_input_default
  | if_requestencap_default
  deriving DecidableEq, Repr

/-- The counter identifiers of `ift_counter`, in the order of the `switch`
statements of `if_get_counter_default` and `if_inc_counter`; `IFCOUNTERS` is
the bound that closes the enumeration. -/
inductive ift_counter where
  | IFCOUNTER_IPACKETS
  | IFCOUNTER_IERRORS
  | IFCOUNTER_OPACKETS
  | IFCOUNTER_OERRORS
  | IFCOUNTER_COLLISIONS
  | IFCOUNTER_IBYTES
  | IFCOUNTER_OBYTES
  | IFCOUNTER_IMCASTS
  | IFCOUNTER_OMCASTS
  | IFCOUNTER_IQDROPS
  | IFCOUNTER_OQDROPS
  | IFCOUNTER_NOPROTO
  | IFCOUNTERS
  deriving DecidableEq, Repr

/-- Modelled from the spec: the request types of an encapsulation request.
Their numeric values are set in a header that is not among the sources;
`other n` stands for every type that is not `IFENCAP_LL`. -/
inductive ifencap_type where
  | IFENCAP_LL
  | other (n : Nat)
  deriving DecidableEq, Repr

/-- Modelled from the spec: the address-family tags. Their numeric values are
set in `sys/socket.h`, which is not among the sources; `other n` stands for
every family that is neither `AF_INET` nor `AF_INET6`. -/
inductive sa_family where
  | AF_INET
  | AF_INET6
  | other (n : Nat)
  deriving DecidableEq, Repr

/-- The fields of `struct if_encap_req` that `if_requestencap_default` uses.
`buf` and `lladdr` are the bytes stored at the two pointers; sizes and lengths
are unsigned. -/
structure if_encap_req where
  buf : List Nat
  bufsize : Nat
  rtype : ifencap_type
  family : sa_family
  lladdr_off : Int
  lladdr_len : Nat
  lladdr : List Nat
  deriving DecidableEq, Repr

/-- The fields of `struct ifqueue` that `ifq_init` writes; packets are named by
their addresses. -/
structure ifqueue where
  ifq_head : Option Nat := none
  ifq_tail : Option Nat := none
  ifq_len : Int := 0
  ifq_maxlen : Int := 0
  ifq_drops : Int := 0
  deriving DecidableEq, Repr

/-- Modelled from the spec: a link-level socket address, represented by the
link-layer address bytes that `LLADDR` points at (`struct sockaddr_dl` and
`LLADDR` are declared in headers that are not among the sources). -/
structure sockaddr_dl where
  lladdr : List Nat
  deriving DecidableEq, Repr

/-- The back-pointer `ifma_ifp` of an entry linked in the multicast list of an
interface: `NULL` once the entry was disowned, otherwise that interface (the
KASSERT at the head of `if_delmulti_locked`). -/
inductive ifma_owner where
  | NULL
  | ifp
  deriving DecidableEq, Repr

/-- One `struct ifmultiaddr`. The declared type of `ifma_refcount` is in a
header that is not among the sources; it is an unbounded integer here, so the
development covers the executions in which the counter does not wrap. -/
structure ifmultiaddr where
  ifma_addr_storage : sockaddr_dl
  ifma_refcount : Int
  ifma_ifp : ifma_owner := ifma_owner.ifp
  deriving DecidableEq, Repr

/-- The fields of `struct ifnet` used by the functions embedded below. A value
with every field at its default is the zero-filled object `_kernel_malloc`
returns under `M_ZERO`. `if_multiaddrs` lists the entries of the TAILQ from head
to tail; a pointer to an entry is its position in that list. -/
structure ifnet where
  receive_sem : Int := 0
  link_state_sem : Int := 0
  open_count : Int := 0
  flags : Int := 0
  if_type : Nat := 0
  receive_queue : ifqueue := {}
  scan_done_sem : Int := 0
  if_index : Nat := 0
  if_ioctl : Option Nat := none
  if_multiaddrs : List ifmultiaddr := []
  if_snd : ifqueue := {}
  if_transmit : Option fn_ptr := none
  if_qflush : Option fn_ptr := none
  if_input : Option fn_ptr := none
  if_requestencap : Option fn_ptr := none
  if_mtu : Int := 0
  if_dname : Option String := none
  if_dunit : Int := 0
  if_xname : String := ""
  device_name : String := ""
  root_device : Option Nat := none
  if_ipackets : Nat := 0
  if_ierrors : Nat := 0
  if_opackets : Nat := 0
  if_oerrors : Nat := 0
  if_collisions : Nat := 0
  if_ibytes : Nat := 0
  if_obytes : Nat := 0
  if_imcasts : Nat := 0
  if_omcasts : Nat := 0
  if_iqdrops : Nat := 0
  if_oqdrops : Nat := 0
  if_noproto : Nat := 0
  deriving DecidableEq, Repr

/-- The global variables of the compatibility layer. `gDevices` has
`MAX_DEVICES` slots; an entry `some p` of `gDeviceNameList` is the pointer to
the `device_name` array of the interface object at address `p`. -/
structure Globals where
  gDevices : List ifnet_ptr
  gDeviceCount : Int
  gDeviceNameList : List (Option Nat) := []
  panics : List String := []
  gDriverName : String := ""
  deriving DecidableEq, Repr

/-- The array dimension `MAX_DEVICES`. -/
def MAX_DEVICES (g : Globals) : Nat := g.gDevices.length

/-- Number of non-empty slots of `gDevices`. -/
def occupied (g : Globals) : Nat := g.gDevices.countP (fun s => decide (s ≠ ifnet_ptr.NULL))

/-- The call `panic(msg)`. -/
def panic (g : Globals) (msg : String) : Globals :=
  { g with panics := g.panics ++ [msg] }

/-! ## Device name list -/

/-- The inner loop of `remove_from_device_name_list`:
`for (last = i + 1; last < MAX_DEVICES; last++) if (list[last] == NULL) break;`
with `todo = MAX_DEVICES - last` iterations left. -/
def name_list_last (l : List (Option Nat)) : Nat → Nat → Nat
  | 0, last => last
  | todo + 1, last =>
    if l.getD last none = none then last else name_list_last l todo (last + 1)

/-- The body of `remove_from_device_name_list` once index `i` matched. -/
def name_list_remove_at (l : List (Option Nat)) (maxDevices i : Nat) : List (Option Nat) :=
  let last := name_list_last l (maxDevices - (i + 1)) (i + 1) - 1
  if i = last then l.set i none
  else (l.set i (l.getD last none)).set last none

/-- The outer loop of `remove_from_device_name_list`, at index `i` with
`todo = MAX_DEVICES - i` iterations left; `p` is the address of `ifp`. -/
def name_list_remove_loop (l : List (Option Nat)) (maxDevices p : Nat) : Nat → Nat → List (Option Nat)
  | 0, _ => l
  | todo + 1, i =>
    if l.getD i none = some p then name_list_remove_at l maxDevices i
    else name_list_remove_loop l maxDevices p todo (i + 1)

/-- `remove_from_device_name_list(ifp)` for the interface at address `p`. -/
def remove_from_device_name_list (g : Globals) (p : Nat) : Globals :=
  { g with gDeviceNameList :=
      name_list_remove_loop g.gDeviceNameList (MAX_DEVICES g) p (MAX_DEVICES g) 0 }

/-! ## Index table -/

/-- `ifnet_byindex_locked(idx)`: the content of slot `idx`. -/
def ifnet_byindex_locked (g : Globals) (idx : Nat) : ifnet_ptr :=
  g.gDevices.getD idx ifnet_ptr.NULL

/-- `ifnet_byindex(idx)`. -/
def ifnet_byindex (g : Globals) (idx : Nat) : ifnet_ptr :=
  ifnet_byindex_locked g idx

/-- `ifnet_setbyindex_locked(idx, ifp)`. -/
def ifnet_setbyindex_locked (g : Globals) (idx : Nat) (ifp : ifnet_ptr) : Globals :=
  { g with gDevices := g.gDevices.set idx ifp }

/-- `ifnet_setbyindex(idx, ifp)`. -/
def ifnet_setbyindex (g : Globals) (idx : Nat) (ifp : ifnet_ptr) : Globals :=
  ifnet_setbyindex_locked g idx ifp

/-- The scanning loop of `ifindex_alloc_locked`:
`for (index = 0; index < MAX_DEVICES; index++) if (gDevices[index] == NULL) break;`
at `index` with `todo = MAX_DEVICES - index` iterations left. The value is
`index` when the loop is left. -/
def ifindex_scan (gDevices : List ifnet_ptr) : Nat → Nat → Nat
  | 0, index => index
  | todo + 1, index =>
    if gDevices.getD index ifnet_ptr.NULL = ifnet_ptr.NULL then index
    else ifindex_scan gDevices todo (index + 1)

/-- `ifindex_alloc_locked(idxp)`: the return value, the globals afterwards,
and the value stored to `*idxp` (`none` when nothing is stored). -/
def ifindex_alloc_locked (g : Globals) : errno × Globals × Option Nat :=
  let index := ifindex_scan g.gDevices (MAX_DEVICES g) 0
  if index = MAX_DEVICES g then (errno.ENOSPC, g, none)
  else (errno.ENOERR, { g with gDeviceCount := g.gDeviceCount + 1 }, some index)

/-- `ifindex_free_locked(idx)`. -/
def ifindex_free_locked (g : Globals) (idx : Nat) : Globals :=
  { g with gDevices := g.gDevices.set idx ifnet_ptr.NULL, gDeviceCount := g.gDeviceCount - 1 }

/-! ## Interface construction and destruction -/

/-- `ifq_init(ifq, name)`. -/
def ifq_init (ifq : ifqueue) : ifqueue :=
  { ifq with ifq_head := none, ifq_tail := none, ifq_len := 0,
             ifq_maxlen := IFQ_MAXLEN, ifq_drops := 0 }

/-- The first critical section of `if_alloc_inplace`, from `IFNET_WLOCK()` to
the `IFNET_WUNLOCK()` that follows `ifnet_setbyindex_locked(index, IFNET_HOLD)`:
`none` next to the globals when the code jumps to `err2`, otherwise the
reserved index. -/
def if_alloc_inplace_reserve (g : Globals) : Globals × Option Nat :=
  match ifindex_alloc_locked g with
  | (rc, g1, idxp) =>
    if rc ≠ errno.ENOERR then (panic g1 "too many devices", none)
    else
      let index := idxp.getD 0
      (ifnet_setbyindex_locked g1 index ifnet_ptr.IFNET_HOLD, some index)

/-- `if_alloc_inplace(ifp, type)` for the object `ifp` stored at address `p`;
`sem` is the value `create_sem` returns. The result is the return value, the
globals and the object afterwards. -/
def if_alloc_inplace (g : Globals) (p : Nat) (ifp : ifnet) (type : Nat) (sem : Int) :
    Int × Globals × ifnet :=
  let ifp1 := { ifp with receive_sem := sem }
  if ifp1.receive_sem < B_OK then (ifp1.receive_sem, g, ifp1)
  else
    let ifp2 := { ifp1 with link_state_sem := -1, open_count := 0, flags := 0, if_type := type,
                            receive_queue := ifq_init ifp1.receive_queue, scan_done_sem := -1 }
    match if_alloc_inplace_reserve g with
    | (g1, none) => (-1, g1, ifp2)
    | (g1, some index) =>
      let ifp3 := { ifp2 with if_index := index }
      (0, ifnet_setbyindex g1 ifp3.if_index (ifnet_ptr.obj p), ifp3)

/-- `if_alloc(type)`: `m` is the address `_kernel_malloc` returns (`none` for
NULL), `sem` the value `create_sem` returns. The result is the returned
pointer, the globals, and the content of the new object when one is returned. -/
def if_alloc (g : Globals) (m : Option Nat) (type : Nat) (sem : Int) :
    Option Nat × Globals × Option ifnet :=
  match m with
  | none => (none, g, none)
  | some p =>
    match if_alloc_inplace g p {} type sem with
    | (rc, g1, ifp) => if rc ≠ 0 then (none, g1, none) else (some p, g1, some ifp)

/-- `if_free_inplace(ifp)` for the object `ifp` stored at address `p`. -/
def if_free_inplace (g : Globals) (p : Nat) (ifp : ifnet) : Globals :=
  let g1 := if ifp.if_type = IFT_ETHER then remove_from_device_name_list g p else g
  ifindex_free_locked g1 ifp.if_index

/-! ## Multicast membership -/

/-- The test `memcmp(a, b, n) == 0`. -/
def memcmp_eq (a b : List Nat) (n : Nat) : Bool :=
  decide (a.take n = b.take n)

/-- The test of `if_findmulti` on one entry. -/
def ifma_matches (address : sockaddr_dl) (ifma : ifmultiaddr) : Bool :=
  memcmp_eq address.lladdr ifma.ifma_addr_storage.lladdr ETHER_ADDR_LEN

/-- The `TAILQ_FOREACH` of `if_findmulti` over a list of entries: the position
of the first entry whose address bytes compare equal, `none` for NULL. -/
def findmulti (address : sockaddr_dl) : List ifmultiaddr → Option Nat
  | [] => none
  | ifma :: rest =>
    if ifma_matches address ifma then some 0
    else (findmulti address rest).map (fun i => i + 1)

/-- `if_findmulti(ifp, address)`. -/
def if_findmulti (ifp : ifnet) (address : sockaddr_dl) : Option Nat :=
  findmulti address ifp.if_multiaddrs

/-- Assignment through a pointer to an entry: the entry at position `i` becomes
`f` of itself. -/
def ifma_update (f : ifmultiaddr → ifmultiaddr) : List ifmultiaddr → Nat → List ifmultiaddr
  | [], _ => []
  | e :: es, 0 => f e :: es
  | e :: es, i + 1 => e :: ifma_update f es i

/-- `_if_addmulti(ifp, address)`: `m` tells whether `malloc` returns memory. The
result is the returned pointer (`none` for NULL) and the interface afterwards. -/
def _if_addmulti (ifp : ifnet) (address : sockaddr_dl) (m : Bool) : Option Nat × ifnet :=
  match if_findmulti ifp address with
  | some addr =>
    let l := ifma_update (fun e => { e with ifma_refcount := e.ifma_refcount + 1 })
      ifp.if_multiaddrs addr
    (some addr, { ifp with if_multiaddrs := l })
  | none =>
    if m = false then (none, ifp)
    else
      let addr : ifmultiaddr :=
        { ifma_addr_storage := address, ifma_refcount := 1, ifma_ifp := ifma_owner.ifp }
      (some 0, { ifp with if_multiaddrs := addr :: ifp.if_multiaddrs })

/-- `if_addmulti(ifp, address, out)`: `m` tells whether `malloc` returns
memory. The result is the return value, the interface afterwards, the pointer
stored to `*out` when `out` is not NULL, and the calls of the driver hook
`if_ioctl` in the order made. The driver hook is an external collaborator: a
call of it is recorded, its effect on the interface is not part of this
function. -/
def if_addmulti (ifp : ifnet) (address : sockaddr_dl) (m : Bool) :
    errno × ifnet × Option Nat × List ioctl_cmd :=
  match _if_addmulti ifp address m with
  | (none, ifp1) => (errno.ENOBUFS, ifp1, none, [])
  | (some result, ifp1) =>
    let refcount : Int :=
      match ifp1.if_multiaddrs[result]? with
      | some e => e.ifma_refcount
      | none => 0
    (errno.ENOERR, ifp1, some result,
      if refcount = 1 ∧ ifp1.if_ioctl ≠ none then [ioctl_cmd.SIOCADDMULTI] else [])

/-- `if_delmulti_locked(ifp, ifma, detaching)` as compiled for `__HAIKU__`;
`ifma` is the position of the entry in the list of `ifp`. The result is the
return value and the interface afterwards. Freed memory is not part of the
state: an entry that is freed without being unlinked (back-pointer NULL) stays
in the list. A pointer that names no entry is outside the contract of the
function (its callers pass what `if_findmulti` or the list traversal gave
them); the interface is then returned as it was. -/
def if_delmulti_locked (ifp : ifnet) (ifma : Nat) (detaching : Bool) : Int × ifnet :=
  match ifp.if_multiaddrs[ifma]? with
  | none => (0, ifp)
  | some e =>
    let owner := e.ifma_ifp
    let e1 : ifmultiaddr :=
      if detaching = true ∧ owner ≠ ifma_owner.NULL then { e with ifma_ifp := ifma_owner.NULL } else e
    let e2 : ifmultiaddr := { e1 with ifma_refcount := e1.ifma_refcount - 1 }
    if e2.ifma_refcount > 0 then
      (0, { ifp with if_multiaddrs := ifma_update (fun _ => e2) ifp.if_multiaddrs ifma })
    else if owner ≠ ifma_owner.NULL then
      (1, { ifp with if_multiaddrs := ifp.if_multiaddrs.eraseIdx ifma })
    else
      (1, { ifp with if_multiaddrs := ifma_update (fun _ => e2) ifp.if_multiaddrs ifma })

/-- `if_delmulti(ifp, sa)`; `ifp = none` is the NULL interface. The result is
the return value, the interface afterwards, and the calls of the driver hook
`if_ioctl` in the order made. -/
def if_delmulti (ifp : Option ifnet) (sa : sockaddr_dl) :
    errno × Option ifnet × List ioctl_cmd :=
  match ifp with
  | none => (errno.ENOENT, none, [])
  | some ifp0 =>
    match if_findmulti ifp0 sa with
    | none => (errno.ENOENT, some ifp0, [])
    | some ifma =>
      match if_delmulti_locked ifp0 ifma false with
      | (lastref, ifp1) =>
        (errno.ENOERR, some ifp1,
          if lastref ≠ 0 ∧ ifp1.if_ioctl ≠ none then [ioctl_cmd.SIOCDELMULTI] else [])

/-! ## Call sequences -/

/-- The registry together with the storage of the interface objects, by
address. -/
structure System where
  g : Globals
  mem : Nat → ifnet

/-- A call of the constructor or of the destructor on the object at address
`p`. -/
inductive Call where
  | if_alloc_inplace (p type : Nat) (sem : Int)
  | if_free_inplace (p : Nat)
  deriving DecidableEq, Repr

/-- A system state together with the addresses of the interfaces that are
live: created (the constructor returned 0) and not released since. -/
structure Run where
  sys : System
  live : List Nat

/-- The table with `n` empty slots and no live interface. -/
def Run.init (n : Nat) (mem : Nat → ifnet) : Run :=
  { sys := { g := { gDevices := List.replicate n ifnet_ptr.NULL, gDeviceCount := 0 }, mem := mem },
    live := [] }

/-- Effect of one call. -/
def Run.step (r : Run) : Call → Run
  | Call.if_alloc_inplace p type sem =>
    match NexusOS.if_alloc_inplace r.sys.g p (r.sys.mem p) type sem with
    | (rc, g1, ifp1) =>
      { sys := { g := g1, mem := fun q => if q = p then ifp1 else r.sys.mem q },
        live := if rc = 0 then p :: r.live.filter (fun q => decide (q ≠ p)) else r.live }
  | Call.if_free_inplace p =>
    { sys := { g := NexusOS.if_free_inplace r.sys.g p (r.sys.mem p), mem := r.sys.mem },
      live := r.live.filter (fun q => decide (q ≠ p)) }

/-- Effect of a sequence of calls. -/
def Run.exec (r : Run) (cs : List Call) : Run :=
  cs.foldl Run.step r

/-- The calling discipline of the destructor: every `if_free_inplace` in the
sequence is applied to an interface that is live when the call is made. -/
def Run.disciplined : Run → List Call → Bool
  | _, [] => true
  | r, Call.if_alloc_inplace p type sem :: cs =>
    Run.disciplined (r.step (Call.if_alloc_inplace p type sem)) cs
  | r, Call.if_free_inplace p :: cs =>
    decide (p ∈ r.live) && Run.disciplined (r.step (Call.if_free_inplace p)) cs

/-- A call on the index table alone: `allocate p` is `ifindex_alloc_locked`
followed, when it returned `ENOERR`, by the installation of the object at
address `p` into the returned slot; `release idx` is
`ifindex_free_locked(idx)`. -/
inductive SlotCall where
  | allocate (p : Nat)
  | release (idx : Nat)
  deriving DecidableEq, Repr

/-- Effect of one call on the index table. -/
def slot_step (g : Globals) : SlotCall → Globals
  | SlotCall.allocate p =>
    match ifindex_alloc_locked g with
    | (rc, g1, idxp) =>
      if rc = errno.ENOERR then ifnet_setbyindex_locked g1 (idxp.getD 0) (ifnet_ptr.obj p) else g1
  | SlotCall.release idx => ifindex_free_locked g idx

/-- Effect of a sequence of calls on the index table. -/
def slot_exec (g : Globals) (cs : List SlotCall) : Globals :=
  cs.foldl slot_step g

/-- Number of allocations in the sequence run from `g`: the `allocate` calls in
which `ifindex_alloc_locked` returned a slot. -/
def allocations : Globals → List SlotCall → Nat
  | _, [] => 0
  | g, SlotCall.allocate p :: cs =>
    (if (ifindex_alloc_locked g).1 = errno.ENOERR then 1 else 0)
      + allocations (slot_step g (SlotCall.allocate p)) cs
  | g, SlotCall.release idx :: cs => allocations (slot_step g (SlotCall.release idx)) cs

/-- Number of `release` calls in the sequence. -/
def releases : List SlotCall → Nat
  | [] => 0
  | SlotCall.allocate _ :: cs => releases cs
  | SlotCall.release _ :: cs => releases cs + 1

/-- The calling discipline of `ifindex_free_locked`: every `release idx` in the
sequence run from `g` finds slot `idx` non-empty. -/
def releases_occupied : Globals → List SlotCall → Bool
  | _, [] => true
  | g, SlotCall.allocate p :: cs => releases_occupied (slot_step g (SlotCall.allocate p)) cs
  | g, SlotCall.release idx :: cs =>
    decide (idx < MAX_DEVICES g ∧ g.gDevices.getD idx ifnet_ptr.NULL ≠ ifnet_ptr.NULL)
      && releases_occupied (slot_step g (SlotCall.release idx)) cs

/-- The empty table of capacity `n`. -/
def empty_table (n : Nat) : Globals :=
  { gDevices := List.replicate n ifnet_ptr.NULL, gDeviceCount := 0 }

/-- Calls of `if_alloc_inplace` on zero-filled objects at the addresses `ps`,
one after another: the globals afterwards and, for each call, its return value
and the `if_index` of the object afterwards. -/
def create_each (type : Nat) (sem : Int) : Globals → List Nat → Globals × List (Int × Nat)
  | g, [] => (g, [])
  | g, p :: ps =>
    match if_alloc_inplace g p {} type sem with
    | (rc, g1, ifp) =>
      match create_each type sem g1 ps with
      | (g2, rs) => (g2, (rc, ifp.if_index) :: rs)

/-- Run of `k` calls of `if_addmulti` for the same address, memory being
available: the return values, the interface afterwards, and the driver calls in
the order made. -/
def addmulti_times (address : sockaddr_dl) : Nat → ifnet → List errno × ifnet × List ioctl_cmd
  | 0, ifp => ([], ifp, [])
  | k + 1, ifp =>
    match if_addmulti ifp address true with
    | (rc, ifp1, _, calls) =>
      match addmulti_times address k ifp1 with
      | (rcs, ifp2, calls2) => (rc :: rcs, ifp2, calls ++ calls2)

/-- Run of `k` calls of `if_delmulti` for the same address on an interface. -/
def delmulti_times (sa : sockaddr_dl) : Nat → ifnet → List errno × ifnet × List ioctl_cmd
  | 0, ifp => ([], ifp, [])
  | k + 1, ifp =>
    match if_delmulti (some ifp) sa with
    | (rc, ifp1, calls) =>
      match delmulti_times sa k (ifp1.getD ifp) with
      | (rcs, ifp2, calls2) => (rc :: rcs, ifp2, calls ++ calls2)

/-! ## Removal of all memberships -/

/-- The traversal `TAILQ_FOREACH_SAFE(ifma, &ifp->if_multiaddrs, ifma_link, next)
if_delmulti_locked(ifp, ifma, 0);` at the entry in position `ifma`, with `todo`
entries still to visit. The successor was saved before the call: it is found
at the same position when the call unlinked the entry, at the next position
otherwise. -/
def if_delallmulti_loop : Nat → ifnet → Nat → ifnet
  | 0, ifp, _ => ifp
  | todo + 1, ifp, ifma =>
    match if_delmulti_locked ifp ifma false with
    | (_, ifp1) =>
      if ifp1.if_multiaddrs.length < ifp.if_multiaddrs.length then
        if_delallmulti_loop todo ifp1 ifma
      else if_delallmulti_loop todo ifp1 (ifma + 1)

/-- `if_delallmulti(ifp)`. -/
def if_delallmulti (ifp : ifnet) : ifnet :=
  if_delallmulti_loop ifp.if_multiaddrs.length ifp 0

/-- A call on the multicast table of one interface; `m` tells whether `malloc`
returns memory during the join. -/
inductive McastCall where
  | join (a : sockaddr_dl) (m : Bool)
  | leave (a : sockaddr_dl)
  | leave_all
  deriving DecidableEq, Repr

/-- Effect of one call on the interface. -/
def mcast_step (ifp : ifnet) : McastCall → ifnet
  | McastCall.join a m => (if_addmulti ifp a m).2.1
  | McastCall.leave a => ((if_delmulti (some ifp) a).2.1).getD ifp
  | McastCall.leave_all => if_delallmulti ifp

/-- Effect of a sequence of calls on the interface. -/
def mcast_exec (ifp : ifnet) (cs : List McastCall) : ifnet :=
  cs.foldl mcast_step ifp

/-- Two addresses have the same bytes as `if_findmulti` compares them. -/
def same_lladdr (a b : sockaddr_dl) : Bool :=
  memcmp_eq a.lladdr b.lladdr ETHER_ADDR_LEN

/-- Number of joins of the address bytes of `a` that returned 0 in the sequence
run from `ifp`. -/
def joins_ok (a : sockaddr_dl) : ifnet → List McastCall → Nat
  | _, [] => 0
  | ifp, McastCall.join b m :: cs =>
    (if same_lladdr a b = true ∧ (if_addmulti ifp b m).1 = errno.ENOERR then 1 else 0)
      + joins_ok a (mcast_step ifp (McastCall.join b m)) cs
  | ifp, c :: cs => joins_ok a (mcast_step ifp c) cs

/-- Number of leaves of the address bytes of `a` that returned 0 in the
sequence run from `ifp`. -/
def leaves_ok (a : sockaddr_dl) : ifnet → List McastCall → Nat
  | _, [] => 0
  | ifp, McastCall.leave b :: cs =>
    (if same_lladdr a b = true ∧ (if_delmulti (some ifp) b).1 = errno.ENOERR then 1 else 0)
      + leaves_ok a (mcast_step ifp (McastCall.leave b)) cs
  | ifp, c :: cs => leaves_ok a (mcast_step ifp c) cs

/-- Number of joins of the address bytes of `a` in the sequence, whatever they
returned. -/
def joins_called (a : sockaddr_dl) : List McastCall → Nat
  | [] => 0
  | McastCall.join b _ :: cs => (if same_lladdr a b = true then 1 else 0) + joins_called a cs
  | _ :: cs => joins_called a cs

/-- Number of leaves of the address bytes of `a` in the sequence, whatever they
returned. -/
def leaves_called (a : sockaddr_dl) : List McastCall → Nat
  | [] => 0
  | McastCall.leave b :: cs => (if same_lladdr a b = true then 1 else 0) + leaves_called a cs
  | _ :: cs => leaves_called a cs

/-- The sequence holds no `if_delallmulti` call. -/
def no_leave_all : List McastCall → Bool
  | [] => true
  | McastCall.leave_all :: _ => false
  | _ :: cs => no_leave_all cs

/-- Refcount of the entry `if_findmulti` finds for `a` in a list of entries, 0
when it finds none. -/
def refcount_of (a : sockaddr_dl) : List ifmultiaddr → Int
  | [] => 0
  | e :: rest => if ifma_matches a e then e.ifma_refcount else refcount_of a rest

/-- What `if_delmulti_locked` without detaching leaves of an entry that is owned
by the interface: the entry with one reference less, or nothing when that was
its last reference. -/
def drop_reference (e : ifmultiaddr) : Option ifmultiaddr :=
  if e.ifma_refcount - 1 > 0 then some { e with ifma_refcount := e.ifma_refcount - 1 } else none

/-- The invariant of a multicast list: every entry has a refcount of at least
1 and is owned by the interface, and no two entries have the same address
bytes as `if_findmulti` compares them. -/
def mcast_inv (l : List ifmultiaddr) : Prop :=
  (∀ e, e ∈ l → 1 ≤ e.ifma_refcount ∧ e.ifma_ifp = ifma_owner.ifp) ∧
  l.Pairwise (fun x y => ifma_matches x.ifma_addr_storage y = false)

/-! ## Device name insertion and interface naming -/

/-- The loop of `insert_into_device_name_list` at index `i` with
`todo = MAX_DEVICES - i` iterations left: the list after the assignment, or
`none` when the loop ends without one. -/
def name_list_insert_loop (l : List (Option Nat)) (p : Nat) : Nat → Nat → Option (List (Option Nat))
  | 0, _ => none
  | todo + 1, i =>
    if l.getD i none = none then some (l.set i (some p))
    else name_list_insert_loop l p todo (i + 1)

/-- `insert_into_device_name_list(ifp)` for the interface at address `p`. -/
def insert_into_device_name_list (g : Globals) (p : Nat) : Globals :=
  match name_list_insert_loop g.gDeviceNameList p (MAX_DEVICES g) 0 with
  | some l => { g with gDeviceNameList := l }
  | none => panic g "too many devices"

/-- All non-empty entries of the name list precede all empty ones. -/
def contiguous (l : List (Option Nat)) : Prop :=
  ∀ j, j < l.length → ∀ i, i < j → l.getD j none ≠ none → l.getD i none ≠ none

/-- `strlcpy(dst, src, size)` into a character array of `size` bytes: the text
left in `dst`. It is also the text that `snprintf(dst, size, ...)` leaves in
`dst` when `src` is the formatted text. -/
def strlcpy (src : String) (size : Nat) : String :=
  src.take (size - 1)

/-- `if_initname(ifp, name, unit)` for the object `ifp` stored at address `p`.
`name = none` is the NULL pointer; `root` is the value `find_root_device`
returns; `xname_size` and `device_name_size` are `sizeof(ifp->if_xname)` and
`sizeof(ifp->device_name)`, set in a header that is not among the sources. The
result is the globals afterwards and the object afterwards; the object is
`none` when the function does not return: with a NULL name the statements that
follow the panic read through the null pointer. -/
def if_initname (g : Globals) (p : Nat) (ifp : ifnet) (name : Option String) (unit : Int)
    (root : Option Nat) (xname_size device_name_size : Nat) : Globals × Option ifnet :=
  let g1 := if name = none ∨ name = some "" then panic g "interface goes unnamed" else g
  match name with
  | none => (g1, none)
  | some s =>
    let ifp1 := { ifp with if_dname := name, if_dunit := unit,
                           if_xname := strlcpy s xname_size }
    let path := strlcpy ("net/" ++ g1.gDriverName ++ "/" ++ toString ifp1.if_index)
      device_name_size
    let ifp2 := { ifp1 with device_name := path }
    let g2 := insert_into_device_name_list g1 p
    (g2, some { ifp2 with root_device := root })

/-! ## Queues -/

/-- Modelled from the spec: the macro `_IF_ENQUEUE(ifq, m)`, defined in a
header that is not among the sources. The specification gives the enqueue
operation as: it "appends to the tail if `length < maxlen`; otherwise
increments the drop counter and discards the packet", in constant time "via
tail pointer". -/
def _IF_ENQUEUE (ifq : ifqueue) (m : Nat) : ifqueue :=
  if ifq.ifq_len < ifq.ifq_maxlen then
    { ifq with ifq_head := if ifq.ifq_tail = none then some m else ifq.ifq_head,
               ifq_tail := some m, ifq_len := ifq.ifq_len + 1 }
  else { ifq with ifq_drops := ifq.ifq_drops + 1 }

/-- Modelled from the spec: the macro `IFQ_HANDOFF(ifp, m, error)`, defined in
a header that is not among the sources. The specification gives the transmit
default as one that "simply enqueues onto an internal send queue", a full queue
being "not an error to the producer". The result is the interface afterwards
and the value stored to `error`. -/
def IFQ_HANDOFF (ifp : ifnet) (m : Nat) : ifnet × errno :=
  ({ ifp with if_snd := _IF_ENQUEUE ifp.if_snd m }, errno.ENOERR)

/-- `if_transmit_default(ifp, m)`. -/
def if_transmit_default (ifp : ifnet) (m : Nat) : errno × ifnet :=
  match IFQ_HANDOFF ifp m with
  | (ifp1, error) => (error, ifp1)

/-- The `while` loop of `ether_input` over the chain of packets linked by
`m_nextpkt`, listed from `m` on. -/
def ether_input_loop : ifqueue → Int → List Nat → ifqueue × Int
  | ifq, count, [] => (ifq, count)
  | ifq, count, m :: mn => ether_input_loop (_IF_ENQUEUE ifq m) (count + 1) mn

/-- `ether_input(ifp, m)` for the chain of packets `m`: the interface
afterwards and the count handed to `release_sem_etc`. -/
def ether_input (ifp : ifnet) (m : List Nat) : ifnet × Int :=
  match ether_input_loop ifp.receive_queue 0 m with
  | (ifq, count) => ({ ifp with receive_queue := ifq }, count)

/-- Calls of `if_transmit_default`, one for each packet of the list. -/
def transmit_each : ifnet → List Nat → ifnet
  | ifp, [] => ifp
  | ifp, m :: ms => transmit_each (if_transmit_default ifp m).2 ms

/-- The packets that the chain starting at `head` links through `m_nextpkt`,
up to the terminating NULL. -/
def chain (m_nextpkt : Nat → Option Nat) : Option Nat → List Nat → Bool
  | head, [] => decide (head = none)
  | head, m :: rest => decide (head = some m) && chain m_nextpkt (m_nextpkt m) rest

/-- The loop `while ((m = n) != NULL) { n = m->m_nextpkt; m_freem(m); }` of
`if_qflush`, run for at most `fuel` iterations from `n`: the packets handed to
`m_freem`, in order, or `none` when the loop has not ended by then. -/
def if_qflush_loop (m_nextpkt : Nat → Option Nat) : Nat → Option Nat → Option (List Nat)
  | _, none => some []
  | 0, some _ => none
  | fuel + 1, some m => (if_qflush_loop m_nextpkt fuel (m_nextpkt m)).map (fun freed => m :: freed)

/-- `if_qflush(ifp)` as compiled without `ALTQ`, the loop being given `fuel`
iterations; `m_nextpkt` gives the `m_nextpkt` field of the packet at an address.
The result is the interface afterwards and the packets released, in order. -/
def if_qflush (ifp : ifnet) (m_nextpkt : Nat → Option Nat) (fuel : Nat) :
    Option (ifnet × List Nat) :=
  match if_qflush_loop m_nextpkt fuel ifp.if_snd.ifq_head with
  | none => none
  | some freed =>
    some ({ ifp with if_snd := { ifp.if_snd with ifq_head := none, ifq_tail := none,
                                                 ifq_len := 0 } }, freed)

/-! ## Attach -/

/-- The part of `if_attach(ifp)` that ends with the installation of the hooks
(lines 336 to 354). The link-level address record that the function builds
afterwards is sized by the memory layout of `struct sockaddr_dl` and is written
to a fresh allocation and to `if_addr` only; it is not part of this state. -/
def if_attach (ifp : ifnet) : ifnet :=
  let ifp1 := { ifp with if_multiaddrs := [], if_snd := ifq_init ifp.if_snd }
  let ifp2 :=
    if ifp1.if_transmit = none then
      { ifp1 with if_transmit := some fn_ptr.if_transmit_default,
                  if_qflush := some fn_ptr.if_qflush }
    else ifp1
  let ifp3 :=
    if ifp2.if_input = none then { ifp2 with if_input := some fn_ptr.if_input_default }
    else ifp2
  if ifp3.if_requestencap = none then
    { ifp3 with if_requestencap := some fn_ptr.if_requestencap_default }
  else ifp3

/-! ## Encapsulation requests -/

/-- `memmove(dst, src, n)`: the bytes at `dst` afterwards. -/
def memmove (dst src : List Nat) (n : Nat) : List Nat :=
  src.take n ++ dst.drop n

/-- `if_requestencap_default(ifp, req)`: the return value and the request
afterwards. -/
def if_requestencap_default (req : if_encap_req) : errno × if_encap_req :=
  if req.rtype ≠ ifencap_type.IFENCAP_LL then (errno.EOPNOTSUPP, req)
  else if req.bufsize < req.lladdr_len then (errno.ENOMEM, req)
  else
    match req.family with
    | sa_family.AF_INET | sa_family.AF_INET6 =>
      (errno.ENOERR,
        { req with buf := memmove req.buf req.lladdr req.lladdr_len,
                   bufsize := req.lladdr_len, lladdr_off := 0 })
    | sa_family.other _ => (errno.EAFNOSUPPORT, req)

/-! ## Counters -/

/-- `atomic_add64(value, inc)` on a 64-bit counter: the counter afterwards. -/
def atomic_add64 (value : Nat) (inc : Int) : Nat :=
  (((value : Int) + inc) % (2 ^ 64 : Int)).toNat

/-- `atomic_get64(value)`, read as an unsigned 64-bit number. -/
def atomic_get64 (value : Nat) : Nat :=
  value % 2 ^ 64

/-- `if_get_counter_default(ifp, cnt)`. -/
def if_get_counter_default (ifp : ifnet) : ift_counter → Nat
  | ift_counter.IFCOUNTER_IPACKETS => atomic_get64 ifp.if_ipackets
  | ift_counter.IFCOUNTER_IERRORS => atomic_get64 ifp.if_ierrors
  | ift_counter.IFCOUNTER_OPACKETS => atomic_get64 ifp.if_opackets
  | ift_counter.IFCOUNTER_OERRORS => atomic_get64 ifp.if_oerrors
  | ift_counter.IFCOUNTER_COLLISIONS => atomic_get64 ifp.if_collisions
  | ift_counter.IFCOUNTER_IBYTES => atomic_get64 ifp.if_ibytes
  | ift_counter.IFCOUNTER_OBYTES => atomic_get64 ifp.if_obytes
  | ift_counter.IFCOUNTER_IMCASTS => atomic_get64 ifp.if_imcasts
  | ift_counter.IFCOUNTER_OMCASTS => atomic_get64 ifp.if_omcasts
  | ift_counter.IFCOUNTER_IQDROPS => atomic_get64 ifp.if_iqdrops
  | ift_counter.IFCOUNTER_OQDROPS => atomic_get64 ifp.if_oqdrops
  | ift_counter.IFCOUNTER_NOPROTO => atomic_get64 ifp.if_noproto
  | ift_counter.IFCOUNTERS => 0

/-- `if_inc_counter(ifp, cnt, inc)`. -/
def if_inc_counter (ifp : ifnet) (cnt : ift_counter) (inc : Int) : ifnet :=
  match cnt with
  | ift_counter.IFCOUNTER_IPACKETS => { ifp with if_ipackets := atomic_add64 ifp.if_ipackets inc }
  | ift_counter.IFCOUNTER_IERRORS => { ifp with if_ierrors := atomic_add64 ifp.if_ierrors inc }
  | ift_counter.IFCOUNTER_OPACKETS => { ifp with if_opackets := atomic_add64 ifp.if_opackets inc }
  | ift_counter.IFCOUNTER_OERRORS => { ifp with if_oerrors := atomic_add64 ifp.if_oerrors inc }
  | ift_counter.IFCOUNTER_COLLISIONS =>
    { ifp with if_collisions := atomic_add64 ifp.if_collisions inc }
  | ift_counter.IFCOUNTER_IBYTES => { ifp with if_ibytes := atomic_add64 ifp.if_ibytes inc }
  | ift_counter.IFCOUNTER_OBYTES => { ifp with if_obytes := atomic_add64 ifp.if_obytes inc }
  | ift_counter.IFCOUNTER_IMCASTS => { ifp with if_imcasts := atomic_add64 ifp.if_imcasts inc }
  | ift_counter.IFCOUNTER_OMCASTS => { ifp with if_omcasts := atomic_add64 ifp.if_omcasts inc }
  | ift_counter.IFCOUNTER_IQDROPS => { ifp with if_iqdrops := atomic_add64 ifp.if_iqdrops inc }
  | ift_counter.IFCOUNTER_OQDROPS => { ifp with if_oqdrops := atomic_add64 ifp.if_oqdrops inc }
  | ift_counter.IFCOUNTER_NOPROTO => { ifp with if_noproto := atomic_add64 ifp.if_noproto inc }
  | ift_counter.IFCOUNTERS => ifp

/-! ## Control requests -/

/-- The request structure `struct ifreq` that the `data` argument of
`ether_ioctl` points to; only the member `ifr_mtu` is read. -/
structure ifreq where
  ifr_mtu : Int
  deriving DecidableEq, Repr

/-- `ether_ioctl(ifp, command, data)` with `ifr` the request `data` points to.
`ETHERMIN` and `ETHERMTU` are constants of `net/ethernet.h`, which is not among
the sources, and are taken as parameters. The function refers to no global
variable; the result is the return value and the interface afterwards, with
`errno.ENOERR` for `return 0`. -/
def ether_ioctl (ETHERMIN ETHERMTU : Int) (ifp : ifnet) (command : ioctl_cmd) (ifr : ifreq) :
    errno × ifnet :=
  match command with
  | ioctl_cmd.SIOCSIFMTU =>
    if ifr.ifr_mtu < ETHERMIN ∨ ifr.ifr_mtu > ETHERMTU then (errno.EINVAL, ifp)
    else (errno.ENOERR, { ifp with if_mtu := ifr.ifr_mtu })
  | _ => (errno.EINVAL, ifp)

/-! ## Properties of the index scan -/

theorem ifindex_scan_ge (l : List ifnet_ptr) (todo index : Nat) :
    index ≤ ifindex_scan l todo index := by
  induction todo generalizing index with
  | zero => simp [ifindex_scan]
  | succ n ih =>
    unfold ifindex_scan
    split
    · exact Nat.le_refl _
    · exact Nat.le_trans (Nat.le_succ _) (ih (index + 1))

theorem ifindex_scan_le (l : List ifnet_ptr) (todo index : Nat) :
    ifindex_scan l todo index ≤ index + todo := by
  induction todo generalizing index with
  | zero => simp [ifindex_scan]
  | succ n ih =>
    unfold ifindex_scan
    split
    · omega
    · have := ih (index + 1); omega

theorem ifindex_scan_below (l : List ifnet_ptr) (todo index j : Nat)
    (h1 : index ≤ j) (h2 : j < ifindex_scan l todo index) :
    l.getD j ifnet_ptr.NULL ≠ ifnet_ptr.NULL := by
  induction todo generalizing index with
  | zero => simp [ifindex_scan] at h2; omega
  | succ n ih =>
    unfold ifindex_scan at h2
    split at h2
    · omega
    · rename_i hne
      rcases Nat.eq_or_lt_of_le h1 with h | h
      · subst h; exact hne
      · exact ih (index + 1) h h2

theorem ifindex_scan_empty (l : List ifnet_ptr) (todo index : Nat)
    (h : ifindex_scan l todo index < index + todo) :
    l.getD (ifindex_scan l todo index) ifnet_ptr.NULL = ifnet_ptr.NULL := by
  induction todo generalizing index with
  | zero => simp [ifindex_scan] at h
  | succ n ih =>
    unfold ifindex_scan at h ⊢
    split
    · assumption
    · rename_i hne
      simp only [hne, if_false] at h
      exact ih (index + 1) (by omega)

/-- The scan stops at `MAX_DEVICES` exactly when no slot is empty. -/
theorem ifindex_scan_full_iff (l : List ifnet_ptr) :
    ifindex_scan l l.length 0 = l.length ↔
      ∀ i, i < l.length → l.getD i ifnet_ptr.NULL ≠ ifnet_ptr.NULL := by
  constructor
  · intro h i hi
    exact ifindex_scan_below l l.length 0 i (Nat.zero_le _) (by omega)
  · intro h
    have hle := ifindex_scan_le l l.length 0
    rcases Nat.eq_or_lt_of_le hle with he | hlt
    · simpa using he
    · have := ifindex_scan_empty l l.length 0 hlt
      exact absurd this (h _ (by omega))

/-- The value of `ifindex_alloc_locked` when the scan stops before
`MAX_DEVICES`. -/
theorem ifindex_alloc_locked_ok (g : Globals)
    (h : ifindex_scan g.gDevices (MAX_DEVICES g) 0 ≠ MAX_DEVICES g) :
    ifindex_alloc_locked g =
      (errno.ENOERR, { g with gDeviceCount := g.gDeviceCount + 1 },
        some (ifindex_scan g.gDevices (MAX_DEVICES g) 0)) := by
  simp [ifindex_alloc_locked, h]

/-- The value of `ifindex_alloc_locked` when the scan reaches `MAX_DEVICES`. -/
theorem ifindex_alloc_locked_full (g : Globals)
    (h : ifindex_scan g.gDevices (MAX_DEVICES g) 0 = MAX_DEVICES g) :
    ifindex_alloc_locked g = (errno.ENOSPC, g, none) := by
  simp [ifindex_alloc_locked, h]

/-- The two outcomes of `ifindex_alloc_locked` as seen by `if_alloc_inplace`. -/
theorem alloc_reserve_cases (g : Globals) :
    ifindex_alloc_locked g = (errno.ENOSPC, g, none) ∨
    ∃ idx, idx < MAX_DEVICES g ∧ g.gDevices.getD idx ifnet_ptr.NULL = ifnet_ptr.NULL ∧
      if_alloc_inplace_reserve g =
        ({ g with gDevices := g.gDevices.set idx ifnet_ptr.IFNET_HOLD,
                  gDeviceCount := g.gDeviceCount + 1 }, some idx) := by
  by_cases hfull : ifindex_scan g.gDevices (MAX_DEVICES g) 0 = MAX_DEVICES g
  · exact Or.inl (ifindex_alloc_locked_full g hfull)
  · have hval := ifindex_alloc_locked_ok g hfull
    have hle := ifindex_scan_le g.gDevices (MAX_DEVICES g) 0
    refine Or.inr ⟨_, by omega, ifindex_scan_empty g.gDevices (MAX_DEVICES g) 0 (by omega), ?_⟩
    simp [if_alloc_inplace_reserve, hval, ifnet_setbyindex_locked]

/-- C1. `ifindex_alloc_locked` returns `ENOSPC` if and only if every one of the
`MAX_DEVICES` slots of `gDevices` is non-empty. Otherwise it returns `ENOERR`,
increments `gDeviceCount` and stores to `*idxp` the smallest index whose slot
is empty; `if_alloc_inplace` then holds, at the end of its first critical
section, a table that differs from the old one exactly in that slot, which is
`IFNET_HOLD`, and afterwards installs the object in that same slot. -/
theorem C1_ifindex_alloc_first_empty (g : Globals) :
    ((ifindex_alloc_locked g).1 = errno.ENOSPC ↔
        ∀ i, i < MAX_DEVICES g → g.gDevices.getD i ifnet_ptr.NULL ≠ ifnet_ptr.NULL) ∧
    ((ifindex_alloc_locked g).1 = errno.ENOSPC ∨
      ∃ idx, idx < MAX_DEVICES g ∧
        g.gDevices.getD idx ifnet_ptr.NULL = ifnet_ptr.NULL ∧
        (∀ j, j < idx → g.gDevices.getD j ifnet_ptr.NULL ≠ ifnet_ptr.NULL) ∧
        ifindex_alloc_locked g =
          (errno.ENOERR, { g with gDeviceCount := g.gDeviceCount + 1 }, some idx) ∧
        if_alloc_inplace_reserve g =
          ({ g with gDevices := g.gDevices.set idx ifnet_ptr.IFNET_HOLD,
                    gDeviceCount := g.gDeviceCount + 1 }, some idx) ∧
        ∀ (p : Nat) (ifp : ifnet) (type : Nat) (sem : Int), B_OK ≤ sem →
          (if_alloc_inplace g p ifp type sem).1 = 0 ∧
          (if_alloc_inplace g p ifp type sem).2.1 =
            { g with gDevices := g.gDevices.set idx (ifnet_ptr.obj p),
                     gDeviceCount := g.gDeviceCount + 1 } ∧
          (if_alloc_inplace g p ifp type sem).2.2.if_index = idx) := by
  have hiff := ifindex_scan_full_iff g.gDevices
  by_cases hfull : ifindex_scan g.gDevices (MAX_DEVICES g) 0 = MAX_DEVICES g
  · have hval := ifindex_alloc_locked_full g hfull
    refine ⟨?_, Or.inl (by rw [hval])⟩
    rw [hval]
    simp only [true_iff]
    exact hiff.mp hfull
  · have hval := ifindex_alloc_locked_ok g hfull
    have hle := ifindex_scan_le g.gDevices (MAX_DEVICES g) 0
    have hlt : ifindex_scan g.gDevices (MAX_DEVICES g) 0 < MAX_DEVICES g := by omega
    have hres : if_alloc_inplace_reserve g =
        ({ g with gDevices := g.gDevices.set (ifindex_scan g.gDevices (MAX_DEVICES g) 0)
                    ifnet_ptr.IFNET_HOLD,
                  gDeviceCount := g.gDeviceCount + 1 },
          some (ifindex_scan g.gDevices (MAX_DEVICES g) 0)) := by
      simp [if_alloc_inplace_reserve, hval, ifnet_setbyindex_locked]
    refine ⟨?_, Or.inr ⟨_, hlt, ?_, ?_, hval, hres, ?_⟩⟩
    · rw [hval]
      constructor
      · intro h; cases h
      · intro h; exact absurd (hiff.mpr h) hfull
    · exact ifindex_scan_empty g.gDevices (MAX_DEVICES g) 0 (by omega)
    · intro j hj
      exact ifindex_scan_below g.gDevices (MAX_DEVICES g) 0 j (Nat.zero_le _) hj
    · intro p ifp type sem hsem
      have hs : ¬ sem < B_OK := by omega
      simp [if_alloc_inplace, hs, hres, ifnet_setbyindex, ifnet_setbyindex_locked]

/-! ## Properties of slot assignment -/

theorem getD_set_slot (l : List ifnet_ptr) (i j : Nat) (v : ifnet_ptr) :
    (l.set i v).getD j ifnet_ptr.NULL =
      if i = j ∧ i < l.length then v else l.getD j ifnet_ptr.NULL := by
  simp only [List.getD_eq_getElem?_getD, List.getElem?_set]
  by_cases hij : i = j
  · by_cases hl : i < l.length
    · subst hij
      simp [hl]
    · subst hij
      simp [hl, List.getElem?_eq_none (Nat.le_of_not_lt hl)]
  · simp [hij]

theorem getD_lt_of_ne_null (l : List ifnet_ptr) (i : Nat)
    (h : l.getD i ifnet_ptr.NULL ≠ ifnet_ptr.NULL) : i < l.length := by
  by_contra hge
  apply h
  simp [List.getD_eq_getElem?_getD, List.getElem?_eq_none (Nat.le_of_not_lt hge)]

/-- The two outcomes of `if_alloc_inplace`: it fails and leaves the table, the
count, the name list and `if_index` alone, or it returns 0 after putting the
object into the first empty slot. -/
theorem if_alloc_inplace_cases (g : Globals) (p : Nat) (ifp : ifnet) (type : Nat) (sem : Int) :
    ((if_alloc_inplace g p ifp type sem).1 ≠ 0 ∧
      (if_alloc_inplace g p ifp type sem).2.1.gDevices = g.gDevices ∧
      (if_alloc_inplace g p ifp type sem).2.1.gDeviceCount = g.gDeviceCount ∧
      (if_alloc_inplace g p ifp type sem).2.1.gDeviceNameList = g.gDeviceNameList ∧
      (if_alloc_inplace g p ifp type sem).2.2.if_index = ifp.if_index) ∨
    ((if_alloc_inplace g p ifp type sem).1 = 0 ∧
      ∃ idx, idx < MAX_DEVICES g ∧
        g.gDevices.getD idx ifnet_ptr.NULL = ifnet_ptr.NULL ∧
        (if_alloc_inplace g p ifp type sem).2.1.gDevices =
          g.gDevices.set idx (ifnet_ptr.obj p) ∧
        (if_alloc_inplace g p ifp type sem).2.1.gDeviceCount = g.gDeviceCount + 1 ∧
        (if_alloc_inplace g p ifp type sem).2.2.if_index = idx) := by
  by_cases hs : sem < B_OK
  · left
    have hne : sem ≠ 0 := by unfold B_OK at hs; omega
    simp [if_alloc_inplace, hs, hne]
  · rcases (alloc_reserve_cases g) with hfull | ⟨idx, hlt, hnull, hres⟩
    · left
      simp [if_alloc_inplace, hs, if_alloc_inplace_reserve, hfull, panic]
    · right
      refine ⟨?_, idx, hlt, hnull, ?_, ?_, ?_⟩ <;>
        simp [if_alloc_inplace, hs, hres, ifnet_setbyindex, ifnet_setbyindex_locked]

theorem if_free_inplace_table (g : Globals) (p : Nat) (ifp : ifnet) :
    (if_free_inplace g p ifp).gDevices = g.gDevices.set ifp.if_index ifnet_ptr.NULL ∧
    (if_free_inplace g p ifp).gDeviceCount = g.gDeviceCount - 1 := by
  unfold if_free_inplace
  split <;> simp [ifindex_free_locked, remove_from_device_name_list]

/-- The constructor keeps every live interface in the slot named by its
`if_index`. -/
theorem Run.step_alloc_keeps (r : Run) (p type : Nat) (sem : Int)
    (hinv : ∀ a, a ∈ r.live →
      r.sys.g.gDevices.getD (r.sys.mem a).if_index ifnet_ptr.NULL = ifnet_ptr.obj a) :
    ∀ a, a ∈ (r.step (Call.if_alloc_inplace p type sem)).live →
      (r.step (Call.if_alloc_inplace p type sem)).sys.g.gDevices.getD
        ((r.step (Call.if_alloc_inplace p type sem)).sys.mem a).if_index ifnet_ptr.NULL
        = ifnet_ptr.obj a := by
  intro a ha
  have hstep : r.step (Call.if_alloc_inplace p type sem) =
      { sys := { g := (NexusOS.if_alloc_inplace r.sys.g p (r.sys.mem p) type sem).2.1,
                 mem := fun q => if q = p then
                   (NexusOS.if_alloc_inplace r.sys.g p (r.sys.mem p) type sem).2.2
                   else r.sys.mem q },
        live := if (NexusOS.if_alloc_inplace r.sys.g p (r.sys.mem p) type sem).1 = 0
          then p :: r.live.filter (fun q => decide (q ≠ p)) else r.live } := rfl
  rw [hstep] at ha ⊢
  rcases if_alloc_inplace_cases r.sys.g p (r.sys.mem p) type sem with
    ⟨hrc, hg, _, _, hidx⟩ | ⟨hrc, idx, hlt, hnull, hg, _, hidx⟩
  · simp only [hrc, if_false] at ha
    simp only [hg]
    by_cases hap : a = p
    · subst hap; simp only [if_true, hidx]; exact hinv a ha
    · simp only [hap, if_false]; exact hinv a ha
  · simp only [hrc, if_true, List.mem_cons, List.mem_filter, decide_eq_true_eq] at ha
    simp only [hg]
    rcases ha with hap | ⟨hal, hap⟩
    · subst hap
      simp only [if_true, hidx, getD_set_slot]
      rw [if_pos ⟨trivial, hlt⟩]
    · simp only [hap, if_false, getD_set_slot]
      have hold := hinv a hal
      have hne : idx ≠ (r.sys.mem a).if_index := by
        intro he; rw [← he, hnull] at hold; cases hold
      rw [if_neg (fun h => hne h.1)]
      exact hold

/-- The destructor, applied to a live interface, keeps every other live
interface in the slot named by its `if_index`. -/
theorem Run.step_free_keeps (r : Run) (p : Nat) (hp : p ∈ r.live)
    (hinv : ∀ a, a ∈ r.live →
      r.sys.g.gDevices.getD (r.sys.mem a).if_index ifnet_ptr.NULL = ifnet_ptr.obj a) :
    ∀ a, a ∈ (r.step (Call.if_free_inplace p)).live →
      (r.step (Call.if_free_inplace p)).sys.g.gDevices.getD
        ((r.step (Call.if_free_inplace p)).sys.mem a).if_index ifnet_ptr.NULL
        = ifnet_ptr.obj a := by
  intro a ha
  simp only [Run.step, List.mem_filter, decide_eq_true_eq] at ha ⊢
  rw [(if_free_inplace_table r.sys.g p (r.sys.mem p)).1, getD_set_slot]
  have holda := hinv a ha.1
  have holdp := hinv p hp
  have hne : (r.sys.mem p).if_index ≠ (r.sys.mem a).if_index := by
    intro he
    rw [he, holda] at holdp
    exact ha.2 (by cases holdp; rfl)
  rw [if_neg (fun h => hne h.1)]
  exact holda

theorem Run.exec_keeps (cs : List Call) (r : Run)
    (hd : Run.disciplined r cs = true)
    (hinv : ∀ a, a ∈ r.live →
      r.sys.g.gDevices.getD (r.sys.mem a).if_index ifnet_ptr.NULL = ifnet_ptr.obj a) :
    ∀ a, a ∈ (r.exec cs).live →
      (r.exec cs).sys.g.gDevices.getD ((r.exec cs).sys.mem a).if_index ifnet_ptr.NULL
        = ifnet_ptr.obj a := by
  induction cs generalizing r with
  | nil => simpa [Run.exec] using hinv
  | cons c cs ih =>
    cases c with
    | if_alloc_inplace p type sem =>
      simp only [Run.disciplined] at hd
      have := ih (r.step (Call.if_alloc_inplace p type sem)) hd
        (Run.step_alloc_keeps r p type sem hinv)
      simpa [Run.exec] using this
    | if_free_inplace p =>
      simp only [Run.disciplined, Bool.and_eq_true, decide_eq_true_eq] at hd
      have := ih (r.step (Call.if_free_inplace p)) hd.2
        (Run.step_free_keeps r p hd.1 hinv)
      simpa [Run.exec] using this

theorem Run.step_length (r : Run) (c : Call) :
    (r.step c).sys.g.gDevices.length = r.sys.g.gDevices.length := by
  cases c with
  | if_alloc_inplace p type sem =>
    have hstep : (r.step (Call.if_alloc_inplace p type sem)).sys.g =
        (NexusOS.if_alloc_inplace r.sys.g p (r.sys.mem p) type sem).2.1 := rfl
    rw [hstep]
    rcases if_alloc_inplace_cases r.sys.g p (r.sys.mem p) type sem with
      ⟨_, hg, _⟩ | ⟨_, idx, _, _, hg, _⟩
    · rw [hg]
    · rw [hg, List.length_set]
  | if_free_inplace p =>
    simp only [Run.step]
    rw [(if_free_inplace_table r.sys.g p (r.sys.mem p)).1, List.length_set]

theorem Run.exec_length (cs : List Call) (r : Run) :
    (r.exec cs).sys.g.gDevices.length = r.sys.g.gDevices.length := by
  induction cs generalizing r with
  | nil => rfl
  | cons c cs ih =>
    have := ih (r.step c)
    rw [Run.step_length] at this
    simpa [Run.exec] using this

/-- Counterexample to C2: on a table with one slot the object at address 10 is
created, the creation of the object at address 11 fails (the table is full and
its `if_index` stays 0), `if_free_inplace` is called on the object at address
11, which clears slot 0, and the object at address 12 is created. The objects
at 12 and 10 are then both live with `if_index` 0, and slot 0 holds the object
at 12, not the one at 10. -/
theorem C2_counterexample :
    ((Run.init 1 (fun _ => {})).exec
        [Call.if_alloc_inplace 10 6 1, Call.if_alloc_inplace 11 6 1,
         Call.if_free_inplace 11, Call.if_alloc_inplace 12 6 1]).live = [12, 10] ∧
    (((Run.init 1 (fun _ => {})).exec
        [Call.if_alloc_inplace 10 6 1, Call.if_alloc_inplace 11 6 1,
         Call.if_free_inplace 11, Call.if_alloc_inplace 12 6 1]).sys.mem 12).if_index = 0 ∧
    (((Run.init 1 (fun _ => {})).exec
        [Call.if_alloc_inplace 10 6 1, Call.if_alloc_inplace 11 6 1,
         Call.if_free_inplace 11, Call.if_alloc_inplace 12 6 1]).sys.mem 10).if_index = 0 ∧
    ifnet_byindex ((Run.init 1 (fun _ => {})).exec
        [Call.if_alloc_inplace 10 6 1, Call.if_alloc_inplace 11 6 1,
         Call.if_free_inplace 11, Call.if_alloc_inplace 12 6 1]).sys.g 0 = ifnet_ptr.obj 12 ∧
    (NexusOS.if_alloc_inplace
      ((Run.init 1 (fun _ => {})).exec [Call.if_alloc_inplace 10 6 1]).sys.g 11 {} 6 1).1 ≠ 0 := by
  decide

/-- C2, amended. Uniqueness: after every sequence of `if_alloc_inplace` and
`if_free_inplace` calls that starts from an empty slot table and applies
`if_free_inplace` only to interfaces that are live (created and not released
since), every live interface sits in the slot named by its `if_index`, and any
two distinct live interfaces have different `if_index` values. -/
theorem C2_live_interfaces_have_distinct_indices (n : Nat) (mem : Nat → ifnet) (cs : List Call)
    (hd : Run.disciplined (Run.init n mem) cs = true) :
    ∀ a, a ∈ ((Run.init n mem).exec cs).live →
      (((Run.init n mem).exec cs).sys.mem a).if_index < n ∧
      ifnet_byindex ((Run.init n mem).exec cs).sys.g
          (((Run.init n mem).exec cs).sys.mem a).if_index = ifnet_ptr.obj a ∧
      ∀ b, b ∈ ((Run.init n mem).exec cs).live → a ≠ b →
        (((Run.init n mem).exec cs).sys.mem a).if_index ≠
          (((Run.init n mem).exec cs).sys.mem b).if_index := by
  have hinv := Run.exec_keeps cs (Run.init n mem) hd (by simp [Run.init])
  intro a ha
  refine ⟨?_, hinv a ha, ?_⟩
  · have hlen := Run.exec_length cs (Run.init n mem)
    have hne : ((Run.init n mem).exec cs).sys.g.gDevices.getD
        (((Run.init n mem).exec cs).sys.mem a).if_index ifnet_ptr.NULL ≠ ifnet_ptr.NULL := by
      rw [hinv a ha]; intro h; cases h
    have := getD_lt_of_ne_null _ _ hne
    rw [hlen] at this
    simpa [Run.init] using this
  · intro b hb hab he
    have h1 := hinv a ha
    have h2 := hinv b hb
    rw [he, h2] at h1
    exact hab (by cases h1; rfl)

/-- Witness of C2: two slots, three creations around one release. -/
theorem C2_live_interfaces_have_distinct_indices_witness :
    ((Run.init 2 (fun _ => {})).exec
        [Call.if_alloc_inplace 10 6 1, Call.if_alloc_inplace 11 6 1,
         Call.if_free_inplace 10, Call.if_alloc_inplace 12 6 1]).live = [12, 11] ∧
    ∀ a, a ∈ ((Run.init 2 (fun _ => {})).exec
        [Call.if_alloc_inplace 10 6 1, Call.if_alloc_inplace 11 6 1,
         Call.if_free_inplace 10, Call.if_alloc_inplace 12 6 1]).live →
      (((Run.init 2 (fun _ => {})).exec
        [Call.if_alloc_inplace 10 6 1, Call.if_alloc_inplace 11 6 1,
         Call.if_free_inplace 10, Call.if_alloc_inplace 12 6 1]).sys.mem a).if_index < 2 ∧
      ifnet_byindex ((Run.init 2 (fun _ => {})).exec
        [Call.if_alloc_inplace 10 6 1, Call.if_alloc_inplace 11 6 1,
         Call.if_free_inplace 10, Call.if_alloc_inplace 12 6 1]).sys.g
          (((Run.init 2 (fun _ => {})).exec
        [Call.if_alloc_inplace 10 6 1, Call.if_alloc_inplace 11 6 1,
         Call.if_free_inplace 10, Call.if_alloc_inplace 12 6 1]).sys.mem a).if_index
        = ifnet_ptr.obj a ∧
      ∀ b, b ∈ ((Run.init 2 (fun _ => {})).exec
        [Call.if_alloc_inplace 10 6 1, Call.if_alloc_inplace 11 6 1,
         Call.if_free_inplace 10, Call.if_alloc_inplace 12 6 1]).live → a ≠ b →
        (((Run.init 2 (fun _ => {})).exec
        [Call.if_alloc_inplace 10 6 1, Call.if_alloc_inplace 11 6 1,
         Call.if_free_inplace 10, Call.if_alloc_inplace 12 6 1]).sys.mem a).if_index ≠
          (((Run.init 2 (fun _ => {})).exec
        [Call.if_alloc_inplace 10 6 1, Call.if_alloc_inplace 11 6 1,
         Call.if_free_inplace 10, Call.if_alloc_inplace 12 6 1]).sys.mem b).if_index :=
  ⟨by decide,
   C2_live_interfaces_have_distinct_indices 2 (fun _ => {})
     [Call.if_alloc_inplace 10 6 1, Call.if_alloc_inplace 11 6 1,
      Call.if_free_inplace 10, Call.if_alloc_inplace 12 6 1] (by decide)⟩

/-! ## Conservation of the device count -/

theorem countP_set_fill (l : List ifnet_ptr) (idx : Nat) (v : ifnet_ptr)
    (hlt : idx < l.length) (hnull : l.getD idx ifnet_ptr.NULL = ifnet_ptr.NULL)
    (hv : v ≠ ifnet_ptr.NULL) :
    (l.set idx v).countP (fun s => decide (s ≠ ifnet_ptr.NULL))
      = l.countP (fun s => decide (s ≠ ifnet_ptr.NULL)) + 1 := by
  induction l generalizing idx with
  | nil => simp at hlt
  | cons x xs ih =>
    cases idx with
    | zero =>
      simp only [List.getD_cons_zero] at hnull
      subst hnull
      simp [List.set, List.countP_cons, hv]
    | succ i =>
      simp only [List.getD_cons_succ] at hnull
      simp only [List.set, List.countP_cons]
      rw [ih i (by simpa using hlt) hnull]
      omega

theorem countP_set_clear (l : List ifnet_ptr) (idx : Nat)
    (hlt : idx < l.length) (hne : l.getD idx ifnet_ptr.NULL ≠ ifnet_ptr.NULL) :
    (l.set idx ifnet_ptr.NULL).countP (fun s => decide (s ≠ ifnet_ptr.NULL)) + 1
      = l.countP (fun s => decide (s ≠ ifnet_ptr.NULL)) := by
  induction l generalizing idx with
  | nil => simp at hlt
  | cons x xs ih =>
    cases idx with
    | zero =>
      simp only [List.getD_cons_zero] at hne
      simp [List.set, List.countP_cons, hne]
    | succ i =>
      simp only [List.getD_cons_succ] at hne
      simp only [List.set, List.countP_cons]
      have := ih i (by simpa using hlt) hne
      omega

/-- The two outcomes of an `allocate` call on the index table. -/
theorem slot_step_allocate_cases (g : Globals) (p : Nat) :
    ((ifindex_alloc_locked g).1 = errno.ENOSPC ∧ slot_step g (SlotCall.allocate p) = g) ∨
    ((ifindex_alloc_locked g).1 = errno.ENOERR ∧
      ∃ idx, idx < MAX_DEVICES g ∧ g.gDevices.getD idx ifnet_ptr.NULL = ifnet_ptr.NULL ∧
        slot_step g (SlotCall.allocate p) =
          { g with gDevices := g.gDevices.set idx (ifnet_ptr.obj p),
                   gDeviceCount := g.gDeviceCount + 1 }) := by
  by_cases hfull : ifindex_scan g.gDevices (MAX_DEVICES g) 0 = MAX_DEVICES g
  · left
    have hval := ifindex_alloc_locked_full g hfull
    simp [slot_step, hval]
  · right
    have hval := ifindex_alloc_locked_ok g hfull
    have hle := ifindex_scan_le g.gDevices (MAX_DEVICES g) 0
    refine ⟨by rw [hval], _, by omega,
      ifindex_scan_empty g.gDevices (MAX_DEVICES g) 0 (by omega), ?_⟩
    simp [slot_step, hval, ifnet_setbyindex_locked]

theorem slot_exec_conserves (cs : List SlotCall) (g : Globals)
    (hd : releases_occupied g cs = true)
    (hc : g.gDeviceCount = (occupied g : Int)) :
    (slot_exec g cs).gDeviceCount = (occupied (slot_exec g cs) : Int) ∧
    occupied (slot_exec g cs) + releases cs = occupied g + allocations g cs := by
  induction cs generalizing g with
  | nil => simpa [slot_exec, releases, allocations] using hc
  | cons c cs ih =>
    cases c with
    | allocate p =>
      simp only [releases_occupied] at hd
      have hrec := ih (slot_step g (SlotCall.allocate p)) hd
      simp only [slot_exec, List.foldl_cons, releases, allocations] at hrec ⊢
      rcases slot_step_allocate_cases g p with ⟨hrc, hst⟩ | ⟨hrc, idx, hlt, hnull, hst⟩
      · rw [hst] at hrec ⊢
        have := hrec hc
        simp only [hrc]
        simpa using this
      · have hocc : occupied (slot_step g (SlotCall.allocate p)) = occupied g + 1 := by
          rw [hst]
          exact countP_set_fill g.gDevices idx _ hlt hnull (by intro h; cases h)
        have hcnt : (slot_step g (SlotCall.allocate p)).gDeviceCount
            = (occupied (slot_step g (SlotCall.allocate p)) : Int) := by
          rw [hocc, hst]; simp [hc]
        have := hrec hcnt
        rw [hocc] at this
        simp only [hrc, if_true]
        refine ⟨this.1, ?_⟩
        omega
    | release idx =>
      simp only [releases_occupied, Bool.and_eq_true, decide_eq_true_eq] at hd
      have hrec := ih (slot_step g (SlotCall.release idx)) hd.2
      simp only [slot_exec, List.foldl_cons, releases, allocations] at hrec ⊢
      have hocc : occupied (slot_step g (SlotCall.release idx)) + 1 = occupied g :=
        countP_set_clear g.gDevices idx hd.1.1 hd.1.2
      have hcnt : (slot_step g (SlotCall.release idx)).gDeviceCount
          = (occupied (slot_step g (SlotCall.release idx)) : Int) := by
        have h1 : (slot_step g (SlotCall.release idx)).gDeviceCount = g.gDeviceCount - 1 := rfl
        have h2 : (occupied g : Int)
            = (occupied (slot_step g (SlotCall.release idx)) : Int) + 1 := by
          rw [← hocc]; push_cast; rfl
        rw [h1, hc, h2]
        omega
      have := hrec hcnt
      refine ⟨this.1, ?_⟩
      omega

/-- Counterexample to C3: on the empty table with two slots one allocation is
followed by `ifindex_free_locked(1)`, a release of a slot that is empty. One
allocation and one release have been made, `gDeviceCount` is 0, and one slot is
occupied. -/
theorem C3_counterexample :
    (slot_exec (empty_table 2) [SlotCall.allocate 10, SlotCall.release 1]).gDevices
      = [ifnet_ptr.obj 10, ifnet_ptr.NULL] ∧
    (slot_exec (empty_table 2) [SlotCall.allocate 10, SlotCall.release 1]).gDeviceCount = 0 ∧
    occupied (slot_exec (empty_table 2) [SlotCall.allocate 10, SlotCall.release 1]) = 1 ∧
    allocations (empty_table 2) [SlotCall.allocate 10, SlotCall.release 1] = 1 ∧
    releases [SlotCall.allocate 10, SlotCall.release 1] = 1 := by
  decide

/-- C3, amended. Conservation: after every sequence of allocations
(`ifindex_alloc_locked` followed by the installation of an object into the
returned slot) and releases (`ifindex_free_locked` of a non-empty slot) that
starts from the empty table with `gDeviceCount = 0`, `gDeviceCount` equals the
number of non-empty slots of `gDevices`; with `N` the number of allocations
that returned a slot and `M` the number of releases, `M ≤ N` and exactly
`N - M` slots are occupied. -/
theorem C3_device_count_conservation (n : Nat) (cs : List SlotCall)
    (hd : releases_occupied (empty_table n) cs = true) :
    (slot_exec (empty_table n) cs).gDeviceCount
        = (occupied (slot_exec (empty_table n) cs) : Int) ∧
    releases cs ≤ allocations (empty_table n) cs ∧
    occupied (slot_exec (empty_table n) cs)
        = allocations (empty_table n) cs - releases cs := by
  have hocc : occupied (empty_table n) = 0 := by
    simp [occupied, empty_table, List.countP_replicate]
  have h := slot_exec_conserves cs (empty_table n) hd (by rw [hocc]; rfl)
  rw [hocc] at h
  refine ⟨h.1, ?_, ?_⟩ <;> omega

/-- Witness of C3: capacity 2, three allocation calls (the third finds the
table full) and one release. -/
theorem C3_device_count_conservation_witness :
    allocations (empty_table 2)
        [SlotCall.allocate 10, SlotCall.allocate 11, SlotCall.allocate 12, SlotCall.release 0] = 2 ∧
    ((slot_exec (empty_table 2)
        [SlotCall.allocate 10, SlotCall.allocate 11, SlotCall.allocate 12,
         SlotCall.release 0]).gDeviceCount
      = (occupied (slot_exec (empty_table 2)
        [SlotCall.allocate 10, SlotCall.allocate 11, SlotCall.allocate 12,
         SlotCall.release 0]) : Int) ∧
    releases [SlotCall.allocate 10, SlotCall.allocate 11, SlotCall.allocate 12,
         SlotCall.release 0]
      ≤ allocations (empty_table 2)
        [SlotCall.allocate 10, SlotCall.allocate 11, SlotCall.allocate 12, SlotCall.release 0] ∧
    occupied (slot_exec (empty_table 2)
        [SlotCall.allocate 10, SlotCall.allocate 11, SlotCall.allocate 12, SlotCall.release 0])
      = allocations (empty_table 2)
        [SlotCall.allocate 10, SlotCall.allocate 11, SlotCall.allocate 12, SlotCall.release 0]
        - releases [SlotCall.allocate 10, SlotCall.allocate 11, SlotCall.allocate 12,
         SlotCall.release 0]) :=
  ⟨by decide,
   C3_device_count_conservation 2
     [SlotCall.allocate 10, SlotCall.allocate 11, SlotCall.allocate 12, SlotCall.release 0]
     (by decide)⟩

/-! ## Release and reuse -/

theorem ifindex_scan_after_clear (l : List ifnet_ptr) (i todo index : Nat)
    (hlen : i < l.length) (h1 : index ≤ i) (h2 : i < index + todo) :
    ifindex_scan (l.set i ifnet_ptr.NULL) todo index = min i (ifindex_scan l todo index) := by
  induction todo generalizing index with
  | zero => omega
  | succ n ih =>
    unfold ifindex_scan
    rcases Nat.eq_or_lt_of_le h1 with he | hlt
    · subst he
      have hA : (l.set index ifnet_ptr.NULL).getD index ifnet_ptr.NULL = ifnet_ptr.NULL := by
        rw [getD_set_slot, if_pos ⟨rfl, hlen⟩]
      rw [if_pos hA]
      by_cases hC : l.getD index ifnet_ptr.NULL = ifnet_ptr.NULL
      · rw [if_pos hC]; simp
      · rw [if_neg hC]
        have := ifindex_scan_ge l n (index + 1)
        exact (Nat.min_eq_left (by omega)).symm
    · have hB : (l.set i ifnet_ptr.NULL).getD index ifnet_ptr.NULL
          = l.getD index ifnet_ptr.NULL := by
        rw [getD_set_slot, if_neg (fun h => by omega)]
      rw [hB]
      by_cases hC : l.getD index ifnet_ptr.NULL = ifnet_ptr.NULL
      · rw [if_pos hC, if_pos hC]
        exact (Nat.min_eq_right (by omega)).symm
      · rw [if_neg hC, if_neg hC]
        exact ih (index + 1) (by omega) (by omega)

/-- C4. Release and reuse: for every occupied index `i`,
`ifindex_free_locked(i)` empties slot `i`, decrements `gDeviceCount` by one and
leaves every other slot unchanged, and the next `ifindex_alloc_locked` returns
`ENOERR` with the smaller of `i` and the previous first empty index (`i` when
the table was full). In particular, from the empty table of capacity 8, eight
creations return indices 0 to 7 in order, a ninth fails with exhaustion, and
after the release of index 3 the next creation returns index 3. -/
theorem C4_release_and_reuse :
    (∀ (g : Globals) (i : Nat), i < MAX_DEVICES g →
        g.gDevices.getD i ifnet_ptr.NULL ≠ ifnet_ptr.NULL →
      (ifindex_free_locked g i).gDevices = g.gDevices.set i ifnet_ptr.NULL ∧
      (ifindex_free_locked g i).gDevices.getD i ifnet_ptr.NULL = ifnet_ptr.NULL ∧
      (∀ j, j ≠ i → (ifindex_free_locked g i).gDevices.getD j ifnet_ptr.NULL
          = g.gDevices.getD j ifnet_ptr.NULL) ∧
      MAX_DEVICES (ifindex_free_locked g i) = MAX_DEVICES g ∧
      (ifindex_free_locked g i).gDeviceCount = g.gDeviceCount - 1 ∧
      (ifindex_alloc_locked (ifindex_free_locked g i)).1 = errno.ENOERR ∧
      ((ifindex_alloc_locked g).1 = errno.ENOSPC →
        (ifindex_alloc_locked (ifindex_free_locked g i)).2.2 = some i) ∧
      (∀ j, (ifindex_alloc_locked g).2.2 = some j →
        (ifindex_alloc_locked (ifindex_free_locked g i)).2.2 = some (min i j))) ∧
    ((create_each IFT_ETHER 1 (empty_table 8) [100, 101, 102, 103, 104, 105, 106, 107]).2
        = [(0, 0), (0, 1), (0, 2), (0, 3), (0, 4), (0, 5), (0, 6), (0, 7)] ∧
      (ifindex_alloc_locked
        (create_each IFT_ETHER 1 (empty_table 8) [100, 101, 102, 103, 104, 105, 106, 107]).1).1
        = errno.ENOSPC ∧
      (if_alloc_inplace
        (create_each IFT_ETHER 1 (empty_table 8) [100, 101, 102, 103, 104, 105, 106, 107]).1
        108 {} IFT_ETHER 1).1 = -1 ∧
      (create_each IFT_ETHER 1
        (ifindex_free_locked
          (if_alloc_inplace
            (create_each IFT_ETHER 1 (empty_table 8)
              [100, 101, 102, 103, 104, 105, 106, 107]).1
            108 {} IFT_ETHER 1).2.1 3) [109]).2 = [(0, 3)]) := by
  refine ⟨?_, by decide⟩
  intro g i hi hne
  have hset : (ifindex_free_locked g i).gDevices = g.gDevices.set i ifnet_ptr.NULL := rfl
  have hmax : MAX_DEVICES (ifindex_free_locked g i) = MAX_DEVICES g := by
    simp [MAX_DEVICES, hset]
  have hscan : ifindex_scan (ifindex_free_locked g i).gDevices
      (MAX_DEVICES (ifindex_free_locked g i)) 0
      = min i (ifindex_scan g.gDevices (MAX_DEVICES g) 0) := by
    rw [hmax, hset]
    exact ifindex_scan_after_clear g.gDevices i (MAX_DEVICES g) 0 hi (Nat.zero_le _) (by omega)
  have hnf : ifindex_scan (ifindex_free_locked g i).gDevices
      (MAX_DEVICES (ifindex_free_locked g i)) 0 ≠ MAX_DEVICES (ifindex_free_locked g i) := by
    rw [hscan, hmax]
    have : min i (ifindex_scan g.gDevices (MAX_DEVICES g) 0) ≤ i := Nat.min_le_left _ _
    omega
  have hval := ifindex_alloc_locked_ok (ifindex_free_locked g i) hnf
  refine ⟨hset, ?_, ?_, hmax, rfl, by rw [hval], ?_, ?_⟩
  · rw [hset, getD_set_slot, if_pos ⟨rfl, hi⟩]
  · intro j hj
    rw [hset, getD_set_slot, if_neg (fun h => hj h.1.symm)]
  · intro hfull
    rw [hval, hscan]
    by_cases hf : ifindex_scan g.gDevices (MAX_DEVICES g) 0 = MAX_DEVICES g
    · rw [hf]
      simp only [Option.some.injEq]
      exact Nat.min_eq_left (Nat.le_of_lt hi)
    · rw [ifindex_alloc_locked_ok g hf] at hfull
      cases hfull
  · intro j hj
    rw [hval, hscan]
    by_cases hf : ifindex_scan g.gDevices (MAX_DEVICES g) 0 = MAX_DEVICES g
    · rw [ifindex_alloc_locked_full g hf] at hj
      cases hj
    · rw [ifindex_alloc_locked_ok g hf] at hj
      simp only [Option.some.injEq] at hj
      rw [hj]

/-- Witness of C4: the full table of capacity 2, released at index 1. -/
theorem C4_release_and_reuse_witness :
    (ifindex_alloc_locked
      (ifindex_free_locked
        { gDevices := [ifnet_ptr.obj 10, ifnet_ptr.obj 11], gDeviceCount := 2 } 1)).2.2
      = some 1 :=
  (C4_release_and_reuse.1
    { gDevices := [ifnet_ptr.obj 10, ifnet_ptr.obj 11], gDeviceCount := 2 } 1
    (by decide) (by decide)).2.2.2.2.2.2.1 (by decide)

/-! ## Lookup -/

/-- C5. `ifnet_byindex` returns the content of the slot as it is, without a
test for the placeholder: at the end of the first critical section of
`if_alloc_inplace` on the empty table of capacity 1, slot 0 holds
`IFNET_HOLD`, and `ifnet_byindex(0)` returns `IFNET_HOLD`, not NULL. -/
theorem C5_ifnet_byindex_returns_placeholder :
    (∀ (g : Globals) (idx : Nat), ifnet_byindex g idx = g.gDevices.getD idx ifnet_ptr.NULL) ∧
    (if_alloc_inplace_reserve (empty_table 1)).1.gDevices = [ifnet_ptr.IFNET_HOLD] ∧
    ifnet_byindex (if_alloc_inplace_reserve (empty_table 1)).1 0 = ifnet_ptr.IFNET_HOLD ∧
    ifnet_byindex (if_alloc_inplace_reserve (empty_table 1)).1 0 ≠ ifnet_ptr.NULL :=
  ⟨fun _ _ => rfl, by decide, by decide, by decide⟩

/-! ## Exhaustion -/

/-- C6. When every slot of `gDevices` is non-empty, `if_alloc_inplace` on an
object that no slot refers to returns a non-zero value and leaves `gDevices`,
`gDeviceCount` and `gDeviceNameList` as they were, so that no slot refers to
the object afterwards; `if_alloc` then returns NULL, with the same table, and
keeps no object. -/
theorem C6_exhaustion_leaves_registry (g : Globals) (p : Nat) (ifp : ifnet) (type : Nat)
    (sem : Int)
    (hfull : ∀ i, i < MAX_DEVICES g → g.gDevices.getD i ifnet_ptr.NULL ≠ ifnet_ptr.NULL)
    (hfresh : ∀ i, g.gDevices.getD i ifnet_ptr.NULL ≠ ifnet_ptr.obj p) :
    (if_alloc_inplace g p ifp type sem).1 ≠ 0 ∧
    (B_OK ≤ sem → (if_alloc_inplace g p ifp type sem).1 = -1) ∧
    (if_alloc_inplace g p ifp type sem).2.1.gDevices = g.gDevices ∧
    (if_alloc_inplace g p ifp type sem).2.1.gDeviceCount = g.gDeviceCount ∧
    (if_alloc_inplace g p ifp type sem).2.1.gDeviceNameList = g.gDeviceNameList ∧
    (∀ i, (if_alloc_inplace g p ifp type sem).2.1.gDevices.getD i ifnet_ptr.NULL
        ≠ ifnet_ptr.obj p) ∧
    ∀ m : Option Nat,
      (if_alloc g m type sem).1 = none ∧
      (if_alloc g m type sem).2.2 = none ∧
      (if_alloc g m type sem).2.1.gDevices = g.gDevices ∧
      (if_alloc g m type sem).2.1.gDeviceCount = g.gDeviceCount ∧
      (if_alloc g m type sem).2.1.gDeviceNameList = g.gDeviceNameList := by
  have key : ∀ (q : Nat) (o : ifnet),
      (if_alloc_inplace g q o type sem).1 ≠ 0 ∧
      (B_OK ≤ sem → (if_alloc_inplace g q o type sem).1 = -1) ∧
      (if_alloc_inplace g q o type sem).2.1.gDevices = g.gDevices ∧
      (if_alloc_inplace g q o type sem).2.1.gDeviceCount = g.gDeviceCount ∧
      (if_alloc_inplace g q o type sem).2.1.gDeviceNameList = g.gDeviceNameList := by
    intro q o
    by_cases hs : sem < B_OK
    · have hne : sem ≠ 0 := by unfold B_OK at hs; omega
      have hnb : ¬ B_OK ≤ sem := by omega
      simp [if_alloc_inplace, hs, hne, hnb]
    · have hfl : ifindex_alloc_locked g = (errno.ENOSPC, g, none) := by
        rcases alloc_reserve_cases g with h | ⟨idx, hlt, hnull, _⟩
        · exact h
        · exact absurd hnull (hfull idx hlt)
      simp [if_alloc_inplace, hs, if_alloc_inplace_reserve, hfl, panic]
  obtain ⟨h1, h2, h3, h4, h5⟩ := key p ifp
  refine ⟨h1, h2, h3, h4, h5, ?_, ?_⟩
  · intro i; rw [h3]; exact hfresh i
  · intro m
    cases m with
    | none => simp [if_alloc]
    | some q =>
      obtain ⟨k1, _, k3, k4, k5⟩ := key q {}
      simp only [if_alloc, k1, ne_eq, not_false_eq_true, if_true]
      exact ⟨trivial, trivial, k3, k4, k5⟩

/-- Witness of C6: a table of capacity 2 holding one object and one
placeholder, and a new object at address 5. -/
theorem C6_exhaustion_leaves_registry_witness :
    (if_alloc_inplace
      { gDevices := [ifnet_ptr.obj 1, ifnet_ptr.IFNET_HOLD], gDeviceCount := 2 } 5 {} 6 1).1 = -1 ∧
    (if_alloc
      { gDevices := [ifnet_ptr.obj 1, ifnet_ptr.IFNET_HOLD], gDeviceCount := 2 }
      (some 5) 6 1).1 = none :=
  have h := C6_exhaustion_leaves_registry
    { gDevices := [ifnet_ptr.obj 1, ifnet_ptr.IFNET_HOLD], gDeviceCount := 2 } 5 {} 6 1
    (by
      intro i hi
      match i, hi with
      | 0, _ => decide
      | 1, _ => decide)
    (by
      intro i
      match i with
      | 0 => decide
      | 1 => decide
      | n + 2 => simp)
  ⟨h.2.1 (by decide), (h.2.2.2.2.2.2 (some 5)).1⟩

/-! ## Properties of the multicast list -/

theorem ifma_matches_self (a : sockaddr_dl) (r : Int) (o : ifma_owner) :
    ifma_matches a { ifma_addr_storage := a, ifma_refcount := r, ifma_ifp := o } = true := by
  simp [ifma_matches, memcmp_eq]

theorem findmulti_cons_match (a : sockaddr_dl) (x : ifmultiaddr) (xs : List ifmultiaddr)
    (hx : ifma_matches a x = true) : findmulti a (x :: xs) = some 0 := by
  simp [findmulti, hx]

theorem findmulti_cons_skip (a : sockaddr_dl) (x : ifmultiaddr) (xs : List ifmultiaddr)
    (hx : ifma_matches a x = false) :
    findmulti a (x :: xs) = (findmulti a xs).map (fun i => i + 1) := by
  simp [findmulti, hx]

theorem findmulti_none_iff (a : sockaddr_dl) (l : List ifmultiaddr) :
    findmulti a l = none ↔ ∀ e, e ∈ l → ifma_matches a e = false := by
  induction l with
  | nil => simp [findmulti]
  | cons x xs ih =>
    cases hx : ifma_matches a x with
    | true =>
      rw [findmulti_cons_match a x xs hx]
      constructor
      · intro h; cases h
      · intro h
        have := h x (List.mem_cons_self x xs)
        rw [hx] at this
        cases this
    | false =>
      rw [findmulti_cons_skip a x xs hx, Option.map_eq_none', ih]
      constructor
      · intro h e he
        rcases List.mem_cons.mp he with rfl | he
        · exact hx
        · exact h e he
      · intro h e he
        exact h e (List.mem_cons_of_mem x he)

/-- What `if_findmulti` returns is the first entry whose address bytes compare
equal. -/
theorem findmulti_some (a : sockaddr_dl) (l : List ifmultiaddr) (i : Nat)
    (h : findmulti a l = some i) :
    ∃ e, l[i]? = some e ∧ ifma_matches a e = true ∧
      ∀ j e2, j < i → l[j]? = some e2 → ifma_matches a e2 = false := by
  induction l generalizing i with
  | nil => simp [findmulti] at h
  | cons x xs ih =>
    cases hx : ifma_matches a x with
    | true =>
      rw [findmulti_cons_match a x xs hx, Option.some.injEq] at h
      subst h
      exact ⟨x, by simp, hx, fun j e2 hj _ => absurd hj (Nat.not_lt_zero j)⟩
    | false =>
      rw [findmulti_cons_skip a x xs hx, Option.map_eq_some'] at h
      obtain ⟨k, hk, hki⟩ := h
      subst hki
      obtain ⟨e, he, hm, hfirst⟩ := ih k hk
      refine ⟨e, by simpa using he, hm, ?_⟩
      intro j e2 hj hj2
      cases j with
      | zero =>
        simp only [List.getElem?_cons_zero, Option.some.injEq] at hj2
        subst hj2
        exact hx
      | succ j =>
        simp only [List.getElem?_cons_succ] at hj2
        exact hfirst j e2 (by omega) hj2

theorem ifma_update_length (f : ifmultiaddr → ifmultiaddr) (l : List ifmultiaddr) (i : Nat) :
    (ifma_update f l i).length = l.length := by
  induction l generalizing i with
  | nil => simp [ifma_update]
  | cons x xs ih =>
    cases i with
    | zero => simp [ifma_update]
    | succ i => simp [ifma_update, ih]

theorem ifma_update_getElem? (f : ifmultiaddr → ifmultiaddr) (l : List ifmultiaddr) (i j : Nat) :
    (ifma_update f l i)[j]? = if j = i then (l[j]?).map f else l[j]? := by
  induction l generalizing i j with
  | nil => simp [ifma_update]
  | cons x xs ih =>
    cases i with
    | zero =>
      cases j with
      | zero => simp [ifma_update]
      | succ j => simp [ifma_update]
    | succ i =>
      cases j with
      | zero => simp [ifma_update]
      | succ j => simp [ifma_update, ih]

/-! ## Join -/

/-- `if_addmulti` when `if_findmulti` finds the entry `e` at position `i`. -/
theorem if_addmulti_found (ifp : ifnet) (a : sockaddr_dl) (m : Bool) (i : Nat) (e : ifmultiaddr)
    (hfind : if_findmulti ifp a = some i) (he : ifp.if_multiaddrs[i]? = some e) :
    if_addmulti ifp a m =
      (errno.ENOERR,
        { ifp with if_multiaddrs :=
            (ifma_update (fun x => { x with ifma_refcount := x.ifma_refcount + 1 })
              ifp.if_multiaddrs i) },
        some i,
        if e.ifma_refcount + 1 = 1 ∧ ifp.if_ioctl ≠ none then [ioctl_cmd.SIOCADDMULTI] else []) := by
  simp only [if_addmulti, _if_addmulti, hfind, ifma_update_getElem?, if_true, he, Option.map_some']

/-- `if_addmulti` when `if_findmulti` finds nothing and `malloc` returns
memory. -/
theorem if_addmulti_new (ifp : ifnet) (a : sockaddr_dl) (hnone : if_findmulti ifp a = none) :
    if_addmulti ifp a true =
      (errno.ENOERR,
        { ifp with if_multiaddrs :=
            { ifma_addr_storage := a, ifma_refcount := 1, ifma_ifp := ifma_owner.ifp }
              :: ifp.if_multiaddrs },
        some 0,
        if ifp.if_ioctl ≠ none then [ioctl_cmd.SIOCADDMULTI] else []) := by
  simp [if_addmulti, _if_addmulti, hnone]

/-- C7. Join, for every interface whose entries for the address `a` have a
refcount of at least 1. If an entry whose 6 address bytes equal `a` exists,
`if_addmulti` (whether or not memory is available) returns 0, hands back the
first such entry, increments its refcount by one, keeps the number of entries
and every other entry, and makes no driver call. If no such entry exists and
memory is available, it returns 0, puts one new entry for `a` with refcount 1
at the head of the otherwise unchanged list, hands it back, and makes exactly
one `SIOCADDMULTI` driver call when `if_ioctl` is set (none otherwise). -/
theorem C7_join (ifp : ifnet) (a : sockaddr_dl)
    (hpos : ∀ e, e ∈ ifp.if_multiaddrs → ifma_matches a e = true → 1 ≤ e.ifma_refcount) :
    ((∃ e, e ∈ ifp.if_multiaddrs ∧ ifma_matches a e = true) →
      ∃ i e, ifp.if_multiaddrs[i]? = some e ∧ ifma_matches a e = true ∧
        ∀ m : Bool,
          (if_addmulti ifp a m).1 = errno.ENOERR ∧
          (if_addmulti ifp a m).2.2.1 = some i ∧
          (if_addmulti ifp a m).2.2.2 = [] ∧
          (if_addmulti ifp a m).2.1 =
            { ifp with if_multiaddrs := (if_addmulti ifp a m).2.1.if_multiaddrs } ∧
          (if_addmulti ifp a m).2.1.if_multiaddrs.length = ifp.if_multiaddrs.length ∧
          (if_addmulti ifp a m).2.1.if_multiaddrs[i]?
            = some { e with ifma_refcount := e.ifma_refcount + 1 } ∧
          ∀ j, j ≠ i →
            (if_addmulti ifp a m).2.1.if_multiaddrs[j]? = ifp.if_multiaddrs[j]?) ∧
    ((∀ e, e ∈ ifp.if_multiaddrs → ifma_matches a e = false) →
      if_addmulti ifp a true =
        (errno.ENOERR,
          { ifp with if_multiaddrs :=
              { ifma_addr_storage := a, ifma_refcount := 1, ifma_ifp := ifma_owner.ifp }
                :: ifp.if_multiaddrs },
          some 0,
          if ifp.if_ioctl ≠ none then [ioctl_cmd.SIOCADDMULTI] else []) ∧
      ifma_matches a
        { ifma_addr_storage := a, ifma_refcount := 1, ifma_ifp := ifma_owner.ifp } = true) := by
  constructor
  · rintro ⟨e0, he0, hm0⟩
    cases hfind : if_findmulti ifp a with
    | none =>
      have := (findmulti_none_iff a ifp.if_multiaddrs).mp hfind e0 he0
      rw [hm0] at this
      cases this
    | some i =>
      obtain ⟨e, he, hm, _⟩ := findmulti_some a ifp.if_multiaddrs i hfind
      have hr : 1 ≤ e.ifma_refcount := hpos e (List.getElem?_mem he) hm
      refine ⟨i, e, he, hm, ?_⟩
      intro m
      have hval := if_addmulti_found ifp a m i e hfind he
      have hno : ¬ (e.ifma_refcount + 1 = 1 ∧ ifp.if_ioctl ≠ none) := by
        intro h; omega
      rw [if_neg hno] at hval
      rw [hval]
      refine ⟨rfl, rfl, rfl, rfl, ifma_update_length _ _ _, ?_, ?_⟩
      · simp only [ifma_update_getElem?, if_true, he, Option.map_some']
      · intro j hj
        simp only [ifma_update_getElem?, if_neg hj]
  · intro hnone
    have hfind : if_findmulti ifp a = none :=
      (findmulti_none_iff a ifp.if_multiaddrs).mpr hnone
    exact ⟨if_addmulti_new ifp a hfind, ifma_matches_self a 1 ifma_owner.ifp⟩

/-- Witness of C7: a table with one entry of refcount 2 for the address
joined. -/
theorem C7_join_witness :
    (if_addmulti
      { if_ioctl := some 1,
        if_multiaddrs := [{ ifma_addr_storage := { lladdr := [1, 2, 3, 4, 5, 6] },
                            ifma_refcount := 2 }] }
      { lladdr := [1, 2, 3, 4, 5, 6] } true).2.2.2 = [] := by
  obtain ⟨i, e, _, _, h⟩ :=
    (C7_join
      { if_ioctl := some 1,
        if_multiaddrs := [{ ifma_addr_storage := { lladdr := [1, 2, 3, 4, 5, 6] },
                            ifma_refcount := 2 }] }
      { lladdr := [1, 2, 3, 4, 5, 6] }
      (by
        intro e he _
        simp only [List.mem_singleton] at he
        subst he
        decide)).1
      ⟨{ ifma_addr_storage := { lladdr := [1, 2, 3, 4, 5, 6] }, ifma_refcount := 2 },
        by simp, by decide⟩
  exact (h true).2.2.1

/-! ## Leave -/

/-- `if_delmulti_locked` without detaching on an entry that is owned by the
interface. -/
theorem if_delmulti_locked_owned (ifp : ifnet) (i : Nat) (e : ifmultiaddr)
    (he : ifp.if_multiaddrs[i]? = some e) (hown : e.ifma_ifp = ifma_owner.ifp) :
    if_delmulti_locked ifp i false =
      if e.ifma_refcount - 1 > 0 then
        (0, { ifp with if_multiaddrs :=
                (ifma_update (fun _ => { e with ifma_refcount := e.ifma_refcount - 1 })
                  ifp.if_multiaddrs i) })
      else (1, { ifp with if_multiaddrs := ifp.if_multiaddrs.eraseIdx i }) := by
  simp [if_delmulti_locked, he, hown]

/-- C8. Leave: when the entry that `if_findmulti` finds for address `a` (the
first entry with these address bytes) is owned by the interface and has
refcount `r ≥ 1`, `if_delmulti(ifp, a)` returns 0. For `r > 1` the entry stays
with refcount `r - 1`, every other entry and the number of entries are
unchanged, `if_delmulti_locked` returns 0 and no driver call is made. For
`r = 1` exactly that entry is removed from the list, `if_delmulti_locked`
returns 1, and exactly one `SIOCDELMULTI` driver call is made when `if_ioctl`
is set (none otherwise). -/
theorem C8_leave (ifp : ifnet) (a : sockaddr_dl) (i : Nat) (e : ifmultiaddr)
    (hfind : if_findmulti ifp a = some i) (he : ifp.if_multiaddrs[i]? = some e)
    (hown : e.ifma_ifp = ifma_owner.ifp) (hr : 1 ≤ e.ifma_refcount) :
    (if_delmulti (some ifp) a).1 = errno.ENOERR ∧
    (1 < e.ifma_refcount →
      (if_delmulti_locked ifp i false).1 = 0 ∧
      (if_delmulti (some ifp) a).2.2 = [] ∧
      ∃ ifp1, (if_delmulti (some ifp) a).2.1 = some ifp1 ∧
        (if_delmulti_locked ifp i false).2 = ifp1 ∧
        ifp1 = { ifp with if_multiaddrs := ifp1.if_multiaddrs } ∧
        ifp1.if_multiaddrs.length = ifp.if_multiaddrs.length ∧
        ifp1.if_multiaddrs[i]? = some { e with ifma_refcount := e.ifma_refcount - 1 } ∧
        ∀ j, j ≠ i → ifp1.if_multiaddrs[j]? = ifp.if_multiaddrs[j]?) ∧
    (e.ifma_refcount = 1 →
      (if_delmulti_locked ifp i false).1 = 1 ∧
      (if_delmulti_locked ifp i false).2 =
        { ifp with if_multiaddrs := ifp.if_multiaddrs.eraseIdx i } ∧
      (if_delmulti (some ifp) a).2.1 =
        some { ifp with if_multiaddrs := ifp.if_multiaddrs.eraseIdx i } ∧
      (if_delmulti (some ifp) a).2.2 =
        if ifp.if_ioctl ≠ none then [ioctl_cmd.SIOCDELMULTI] else []) ∧
    ((if_delmulti_locked ifp i false).1 = 1 ↔ e.ifma_refcount = 1) ∧
    ((if_delmulti_locked ifp i false).1 = 0 ↔ e.ifma_refcount ≠ 1) := by
  have hloc := if_delmulti_locked_owned ifp i e he hown
  by_cases hgt : e.ifma_refcount - 1 > 0
  · rw [if_pos hgt] at hloc
    have hdel : if_delmulti (some ifp) a =
        (errno.ENOERR, some (if_delmulti_locked ifp i false).2, []) := by
      simp [if_delmulti, hfind, hloc]
    rw [hdel, hloc]
    refine ⟨rfl, ?_, ?_, ?_, ?_⟩
    · intro _
      refine ⟨rfl, rfl, _, rfl, rfl, rfl, ifma_update_length _ _ _, ?_, ?_⟩
      · simp only [ifma_update_getElem?, if_true, he, Option.map_some']
      · intro j hj
        simp only [ifma_update_getElem?, if_neg hj]
    · intro h1; omega
    · constructor
      · intro h; simp at h
      · intro h; omega
    · constructor
      · intro _; omega
      · intro _; rfl
  · rw [if_neg hgt] at hloc
    have h1 : e.ifma_refcount = 1 := by omega
    have hdel : if_delmulti (some ifp) a =
        (errno.ENOERR, some { ifp with if_multiaddrs := ifp.if_multiaddrs.eraseIdx i },
          if ifp.if_ioctl ≠ none then [ioctl_cmd.SIOCDELMULTI] else []) := by
      simp [if_delmulti, hfind, hloc]
    rw [hdel, hloc]
    refine ⟨rfl, ?_, ?_, ?_, ?_⟩
    · intro h; omega
    · intro _; exact ⟨rfl, rfl, rfl, rfl⟩
    · constructor
      · intro _; exact h1
      · intro _; rfl
    · constructor
      · intro h; simp at h
      · intro h; exact absurd h1 h

/-- Witness of C8: the last reference to the only entry is dropped. -/
theorem C8_leave_witness :
    (if_delmulti
      (some { if_ioctl := some 1,
              if_multiaddrs := [{ ifma_addr_storage := { lladdr := [1, 2, 3, 4, 5, 6] },
                                  ifma_refcount := 1 }] })
      { lladdr := [1, 2, 3, 4, 5, 6] }).2.2 = [ioctl_cmd.SIOCDELMULTI] :=
  ((C8_leave
    { if_ioctl := some 1,
      if_multiaddrs := [{ ifma_addr_storage := { lladdr := [1, 2, 3, 4, 5, 6] },
                          ifma_refcount := 1 }] }
    { lladdr := [1, 2, 3, 4, 5, 6] } 0
    { ifma_addr_storage := { lladdr := [1, 2, 3, 4, 5, 6] }, ifma_refcount := 1 }
    (by decide) (by rfl) (by rfl) (by decide)).2.2.1 (by rfl)).2.2.2

/-! ## Repeated join and leave -/

/-- A join of the address of the head entry increments the head entry. -/
theorem if_addmulti_head (ifp0 : ifnet) (a : sockaddr_dl) (r : Int) (l0 : List ifmultiaddr)
    (m : Bool) (hr : 1 ≤ r) :
    if_addmulti
      { ifp0 with if_multiaddrs :=
          { ifma_addr_storage := a, ifma_refcount := r, ifma_ifp := ifma_owner.ifp } :: l0 } a m
      = (errno.ENOERR,
          { ifp0 with if_multiaddrs :=
              { ifma_addr_storage := a, ifma_refcount := r + 1, ifma_ifp := ifma_owner.ifp } :: l0 },
          some 0, []) := by
  have hfind : if_findmulti
      { ifp0 with if_multiaddrs :=
          { ifma_addr_storage := a, ifma_refcount := r, ifma_ifp := ifma_owner.ifp } :: l0 } a
      = some 0 :=
    findmulti_cons_match a _ l0 (ifma_matches_self a r ifma_owner.ifp)
  rw [if_addmulti_found _ a m 0
    { ifma_addr_storage := a, ifma_refcount := r, ifma_ifp := ifma_owner.ifp } hfind
    (List.getElem?_cons_zero)]
  have hno : ¬ (r + 1 = 1 ∧ ifp0.if_ioctl ≠ none) := by
    intro h; omega
  simp only [hno, if_false, ifma_update]

theorem addmulti_times_head (a : sockaddr_dl) (k : Nat) (ifp0 : ifnet) (r : Int)
    (l0 : List ifmultiaddr) (hr : 1 ≤ r) :
    addmulti_times a k
      { ifp0 with if_multiaddrs :=
          { ifma_addr_storage := a, ifma_refcount := r, ifma_ifp := ifma_owner.ifp } :: l0 }
      = (List.replicate k errno.ENOERR,
          { ifp0 with if_multiaddrs :=
              { ifma_addr_storage := a, ifma_refcount := r + k, ifma_ifp := ifma_owner.ifp } :: l0 },
          []) := by
  induction k generalizing r with
  | zero => simp [addmulti_times]
  | succ k ih =>
    unfold addmulti_times
    rw [if_addmulti_head ifp0 a r l0 true hr]
    simp only [ih (r + 1) (by omega), List.replicate_succ, List.nil_append]
    have : r + 1 + (k : Int) = r + ((k + 1 : Nat) : Int) := by push_cast; omega
    rw [this]

/-- A leave of the address of the head entry, the head entry being owned by
the interface: the refcount drops, or the entry goes with one driver call. -/
theorem if_delmulti_head (ifp0 : ifnet) (a : sockaddr_dl) (r : Int) (l0 : List ifmultiaddr)
    (hr : 1 ≤ r) :
    if_delmulti
      (some { ifp0 with if_multiaddrs :=
          { ifma_addr_storage := a, ifma_refcount := r, ifma_ifp := ifma_owner.ifp } :: l0 }) a
      = if 1 < r then
          (errno.ENOERR,
            some { ifp0 with if_multiaddrs :=
              { ifma_addr_storage := a, ifma_refcount := r - 1, ifma_ifp := ifma_owner.ifp }
                :: l0 },
            [])
        else
          (errno.ENOERR, some { ifp0 with if_multiaddrs := l0 },
            if ifp0.if_ioctl ≠ none then [ioctl_cmd.SIOCDELMULTI] else []) := by
  have hfind : if_findmulti
      { ifp0 with if_multiaddrs :=
          { ifma_addr_storage := a, ifma_refcount := r, ifma_ifp := ifma_owner.ifp } :: l0 } a
      = some 0 :=
    findmulti_cons_match a _ l0 (ifma_matches_self a r ifma_owner.ifp)
  have hloc := if_delmulti_locked_owned
    { ifp0 with if_multiaddrs :=
        { ifma_addr_storage := a, ifma_refcount := r, ifma_ifp := ifma_owner.ifp } :: l0 }
    0 { ifma_addr_storage := a, ifma_refcount := r, ifma_ifp := ifma_owner.ifp }
    (List.getElem?_cons_zero) rfl
  by_cases h1 : 1 < r
  · have hgt : r - 1 > 0 := by omega
    simp only [hgt, if_true] at hloc
    simp [if_delmulti, hfind, hloc, h1, ifma_update]
  · have hgt : ¬ r - 1 > 0 := by omega
    simp only [hgt, if_false] at hloc
    simp [if_delmulti, hfind, hloc, h1]

theorem delmulti_times_head (a : sockaddr_dl) (k : Nat) (ifp0 : ifnet) (l0 : List ifmultiaddr) :
    delmulti_times a (k + 1)
      { ifp0 with if_multiaddrs :=
          { ifma_addr_storage := a, ifma_refcount := ((k + 1 : Nat) : Int),
            ifma_ifp := ifma_owner.ifp } :: l0 }
      = (List.replicate (k + 1) errno.ENOERR,
          { ifp0 with if_multiaddrs := l0 },
          if ifp0.if_ioctl ≠ none then [ioctl_cmd.SIOCDELMULTI] else []) := by
  induction k with
  | zero =>
    unfold delmulti_times
    rw [if_delmulti_head ifp0 a _ l0 (by simp)]
    simp [delmulti_times]
  | succ k ih =>
    unfold delmulti_times
    rw [if_delmulti_head ifp0 a _ l0 (by push_cast; omega)]
    have h1 : (1 : Int) < ((k + 1 + 1 : Nat) : Int) := by push_cast; omega
    have h2 : ((k + 1 + 1 : Nat) : Int) - 1 = ((k + 1 : Nat) : Int) := by push_cast; omega
    simp only [h1, if_true, h2, Option.getD_some, ih, List.nil_append]
    rfl

/-- C9. Refcount correctness: for every `K ≥ 1`, every interface with a driver
`if_ioctl` hook and every address `a` without an entry in its multicast list,
`K` calls of `if_addmulti(a)` (memory being available) all return 0, leave
exactly one entry for `a`, with refcount `K`, in front of the initial entries,
and make exactly one driver call, `SIOCADDMULTI`; `K` calls of
`if_delmulti(a)` after them all return 0, give back the initial interface
(no entry for `a`), and make exactly one driver call, `SIOCDELMULTI`. -/
theorem C9_join_leave_refcount (K : Nat) (ifp : ifnet) (a : sockaddr_dl)
    (hK : 1 ≤ K) (hio : ifp.if_ioctl ≠ none)
    (hnone : ∀ e, e ∈ ifp.if_multiaddrs → ifma_matches a e = false) :
    (addmulti_times a K ifp).1 = List.replicate K errno.ENOERR ∧
    (addmulti_times a K ifp).2.1 =
      { ifp with if_multiaddrs :=
          { ifma_addr_storage := a, ifma_refcount := (K : Int), ifma_ifp := ifma_owner.ifp }
            :: ifp.if_multiaddrs } ∧
    (addmulti_times a K ifp).2.1.if_multiaddrs.countP (ifma_matches a) = 1 ∧
    (addmulti_times a K ifp).2.2 = [ioctl_cmd.SIOCADDMULTI] ∧
    (delmulti_times a K (addmulti_times a K ifp).2.1).1 = List.replicate K errno.ENOERR ∧
    (delmulti_times a K (addmulti_times a K ifp).2.1).2.1 = ifp ∧
    (delmulti_times a K (addmulti_times a K ifp).2.1).2.2 = [ioctl_cmd.SIOCDELMULTI] := by
  obtain ⟨k, rfl⟩ : ∃ k, K = k + 1 := ⟨K - 1, by omega⟩
  have hfind : if_findmulti ifp a = none := (findmulti_none_iff a ifp.if_multiaddrs).mpr hnone
  have hjoin : addmulti_times a (k + 1) ifp =
      (List.replicate (k + 1) errno.ENOERR,
        { ifp with if_multiaddrs :=
            { ifma_addr_storage := a, ifma_refcount := ((k + 1 : Nat) : Int),
              ifma_ifp := ifma_owner.ifp } :: ifp.if_multiaddrs },
        [ioctl_cmd.SIOCADDMULTI]) := by
    unfold addmulti_times
    rw [if_addmulti_new ifp a hfind]
    simp only [addmulti_times_head a k ifp 1 ifp.if_multiaddrs (Int.le_refl 1), hio, ne_eq,
      not_false_eq_true, if_true, List.replicate_succ, List.append_nil]
    have : (1 : Int) + (k : Int) = ((k + 1 : Nat) : Int) := by push_cast; omega
    rw [this]
  have hleave := delmulti_times_head a k ifp ifp.if_multiaddrs
  rw [hjoin]
  refine ⟨rfl, rfl, ?_, rfl, ?_, ?_, ?_⟩
  · have hz : List.countP (ifma_matches a) ifp.if_multiaddrs = 0 := by
      rw [List.countP_eq_zero]
      intro e he
      rw [hnone e he]
      simp
    simp only [List.countP_cons, ifma_matches_self, if_true, hz]
  · simp only [hleave]
  · simp only [hleave]
  · simp only [hleave, hio, ne_eq, not_false_eq_true, if_true]

/-- Witness of C9: three joins and three leaves of `AA:BB:CC:DD:EE:FF` on an
interface that holds one entry for another address. -/
theorem C9_join_leave_refcount_witness :
    (addmulti_times { lladdr := [170, 187, 204, 221, 238, 255] } 3
      { if_ioctl := some 1,
        if_multiaddrs := [{ ifma_addr_storage := { lladdr := [1, 0, 94, 0, 0, 1] },
                            ifma_refcount := 1 }] }).2.2 = [ioctl_cmd.SIOCADDMULTI] ∧
    (delmulti_times { lladdr := [170, 187, 204, 221, 238, 255] } 3
      (addmulti_times { lladdr := [170, 187, 204, 221, 238, 255] } 3
        { if_ioctl := some 1,
          if_multiaddrs := [{ ifma_addr_storage := { lladdr := [1, 0, 94, 0, 0, 1] },
                              ifma_refcount := 1 }] }).2.1).2.1
      = { if_ioctl := some 1,
          if_multiaddrs := [{ ifma_addr_storage := { lladdr := [1, 0, 94, 0, 0, 1] },
                              ifma_refcount := 1 }] } :=
  have h := C9_join_leave_refcount 3
    { if_ioctl := some 1,
      if_multiaddrs := [{ ifma_addr_storage := { lladdr := [1, 0, 94, 0, 0, 1] },
                          ifma_refcount := 1 }] }
    { lladdr := [170, 187, 204, 221, 238, 255] }
    (by decide) (by decide)
    (by
      intro e he
      simp only [List.mem_singleton] at he
      subst he
      decide)
  ⟨h.2.2.2.1, h.2.2.2.2.2.1⟩

/-! ## Leave of an address without entry -/

/-- C10. `if_delmulti` on the NULL interface, and on an interface without an
entry for the address, returns `ENOENT`, gives back the interface as it was
(multicast list and refcounts included) and makes no driver call; and it
returns `ENOENT` in these cases only. -/
theorem C10_leave_not_found :
    (∀ a : sockaddr_dl, if_delmulti none a = (errno.ENOENT, none, [])) ∧
    (∀ (ifp : ifnet) (a : sockaddr_dl),
      (∀ e, e ∈ ifp.if_multiaddrs → ifma_matches a e = false) →
        if_delmulti (some ifp) a = (errno.ENOENT, some ifp, [])) ∧
    (∀ (ifp : Option ifnet) (a : sockaddr_dl),
      (if_delmulti ifp a).1 = errno.ENOENT →
        ifp = none ∨
        ∃ ifp0, ifp = some ifp0 ∧ ∀ e, e ∈ ifp0.if_multiaddrs → ifma_matches a e = false) := by
  refine ⟨fun _ => rfl, ?_, ?_⟩
  · intro ifp a hnone
    have hfind : if_findmulti ifp a = none := (findmulti_none_iff a ifp.if_multiaddrs).mpr hnone
    simp [if_delmulti, hfind]
  · intro ifp a h
    cases ifp with
    | none => exact Or.inl rfl
    | some ifp0 =>
      right
      refine ⟨ifp0, rfl, ?_⟩
      cases hfind : if_findmulti ifp0 a with
      | none => exact (findmulti_none_iff a ifp0.if_multiaddrs).mp hfind
      | some i =>
        simp [if_delmulti, hfind] at h

/-- Witness of C10: a leave of an address that was never joined. -/
theorem C10_leave_not_found_witness :
    if_delmulti
      (some { if_multiaddrs := [{ ifma_addr_storage := { lladdr := [1, 0, 94, 0, 0, 1] },
                                  ifma_refcount := 2 }] })
      { lladdr := [170, 187, 204, 221, 238, 255] }
      = (errno.ENOENT,
          some { if_multiaddrs := [{ ifma_addr_storage := { lladdr := [1, 0, 94, 0, 0, 1] },
                                     ifma_refcount := 2 }] },
          []) :=
  C10_leave_not_found.2.1 _ _
    (by
      intro e he
      simp only [List.mem_singleton] at he
      subst he
      decide)

/-! ## Encapsulation requests -/

/-- Counterexample to C14: a link-layer request for a family that is neither
`AF_INET` nor `AF_INET6`, with a buffer smaller than the address, fails with
`ENOMEM`, not with `EAFNOSUPPORT`: the size test comes first. -/
theorem C14_counterexample :
    (if_requestencap_default
      { buf := [], bufsize := 0, rtype := ifencap_type.IFENCAP_LL,
        family := sa_family.other 0, lladdr_off := 0, lladdr_len := 6,
        lladdr := [1, 2, 3, 4, 5, 6] }).1 = errno.ENOMEM ∧
    (if_requestencap_default
      { buf := [], bufsize := 0, rtype := ifencap_type.IFENCAP_LL,
        family := sa_family.other 0, lladdr_off := 0, lladdr_len := 6,
        lladdr := [1, 2, 3, 4, 5, 6] }).1 ≠ errno.EAFNOSUPPORT := by
  decide

/-- C14, amended. For every link-layer request (`rtype = IFENCAP_LL`),
`if_requestencap_default` fails with `ENOMEM` when `bufsize < lladdr_len`,
whatever the family, and fails with `EAFNOSUPPORT` for every family other than
`AF_INET` and `AF_INET6` when `bufsize ≥ lladdr_len`; for another `rtype` it
fails with `EOPNOTSUPP`; and whenever it fails, the request (`buf`, `bufsize`
and `lladdr_off` included) is unchanged. -/
theorem C14_encap_failures (req : if_encap_req) :
    (req.rtype = ifencap_type.IFENCAP_LL → req.bufsize < req.lladdr_len →
      (if_requestencap_default req).1 = errno.ENOMEM) ∧
    (req.rtype = ifencap_type.IFENCAP_LL → req.lladdr_len ≤ req.bufsize →
      ∀ n, req.family = sa_family.other n →
        (if_requestencap_default req).1 = errno.EAFNOSUPPORT) ∧
    (req.rtype ≠ ifencap_type.IFENCAP_LL →
      (if_requestencap_default req).1 = errno.EOPNOTSUPP) ∧
    ((if_requestencap_default req).1 ≠ errno.ENOERR →
      (if_requestencap_default req).2 = req) := by
  unfold if_requestencap_default
  refine ⟨?_, ?_, ?_, ?_⟩
  · intro h1 h2
    simp [h1, h2]
  · intro h1 h2 n hn
    have h3 : ¬ req.bufsize < req.lladdr_len := by omega
    simp [h1, h3, hn]
  · intro h1
    simp [h1]
  · intro h
    by_cases h1 : req.rtype = ifencap_type.IFENCAP_LL
    · by_cases h2 : req.bufsize < req.lladdr_len
      · simp [h1, h2]
      · cases hf : req.family <;> simp [h1, h2, hf] at h ⊢
    · simp [h1]

/-- C15. `if_requestencap_default` returns 0 if and only if
`rtype = IFENCAP_LL`, `bufsize ≥ lladdr_len` and the family is `AF_INET` or
`AF_INET6`. In that case `bufsize` becomes `lladdr_len`, `lladdr_off` becomes
0, the first `lladdr_len` bytes of `buf` are the `lladdr_len` bytes of the
supplied link address (which holds at least that many), the bytes of `buf`
behind them are unchanged, and no other field of the request changes. -/
theorem C15_encap_success (req : if_encap_req) :
    ((if_requestencap_default req).1 = errno.ENOERR ↔
      req.rtype = ifencap_type.IFENCAP_LL ∧ req.lladdr_len ≤ req.bufsize ∧
        (req.family = sa_family.AF_INET ∨ req.family = sa_family.AF_INET6)) ∧
    ((if_requestencap_default req).1 = errno.ENOERR →
      (if_requestencap_default req).2.bufsize = req.lladdr_len ∧
      (if_requestencap_default req).2.lladdr_off = 0 ∧
      (req.lladdr_len ≤ req.lladdr.length →
        (if_requestencap_default req).2.buf.take req.lladdr_len
          = req.lladdr.take req.lladdr_len) ∧
      (req.lladdr_len ≤ req.lladdr.length →
        (if_requestencap_default req).2.buf.drop req.lladdr_len
          = req.buf.drop req.lladdr_len) ∧
      (if_requestencap_default req).2 =
        { req with buf := (if_requestencap_default req).2.buf,
                   bufsize := req.lladdr_len, lladdr_off := 0 }) := by
  unfold if_requestencap_default
  by_cases h1 : req.rtype = ifencap_type.IFENCAP_LL
  · by_cases h2 : req.bufsize < req.lladdr_len
    · have h3 : ¬ req.lladdr_len ≤ req.bufsize := by omega
      simp [h1, h2, h3]
    · have h3 : req.lladdr_len ≤ req.bufsize := by omega
      cases hf : req.family with
      | AF_INET =>
        simp only [h1, h2, hf, ne_eq, not_true_eq_false, if_false, true_and, h3, true_or,
          true_implies, memmove]
        refine ⟨?_, ?_, trivial⟩
        · intro hl
          rw [List.take_append_of_le_length (by simp [hl]), List.take_take, Nat.min_self]
        · intro hl
          rw [List.drop_append_eq_append_drop]
          simp [hl]
      | AF_INET6 =>
        simp only [h1, h2, hf, ne_eq, not_true_eq_false, if_false, true_and, h3, or_true,
          true_implies, memmove]
        refine ⟨?_, ?_, trivial⟩
        · intro hl
          rw [List.take_append_of_le_length (by simp [hl]), List.take_take, Nat.min_self]
        · intro hl
          rw [List.drop_append_eq_append_drop]
          simp [hl]
      | other n => simp [h1, h2, hf]
  · simp [h1]

/-! ## Hooks installed by attach -/

/-- Counterexample to C16: a flush hook installed by the driver without a
transmit hook is replaced by `if_qflush`, and a driver that installed a
transmit hook but no flush hook is left without flush hook. -/
theorem C16_counterexample :
    (if_attach { if_qflush := some (fn_ptr.driver 7) }).if_qflush = some fn_ptr.if_qflush ∧
    (if_attach { if_qflush := some (fn_ptr.driver 7) }).if_qflush ≠ some (fn_ptr.driver 7) ∧
    (if_attach { if_transmit := some (fn_ptr.driver 8) }).if_qflush = none := by
  decide

/-- C16, amended. After `if_attach`, each of `if_transmit`, `if_input` and
`if_requestencap` is the hook the driver installed before the call if there was
one and the built-in default otherwise. `if_qflush` follows `if_transmit`: it
is the built-in `if_qflush` when the driver installed no `if_transmit`
(whatever flush hook it installed), and is left as the driver set it
otherwise. -/
theorem C16_attach_hooks (ifp : ifnet) :
    (if_attach ifp).if_transmit
      = some (ifp.if_transmit.getD fn_ptr.if_transmit_default) ∧
    (if_attach ifp).if_input = some (ifp.if_input.getD fn_ptr.if_input_default) ∧
    (if_attach ifp).if_requestencap
      = some (ifp.if_requestencap.getD fn_ptr.if_requestencap_default) ∧
    (if_attach ifp).if_qflush
      = (if ifp.if_transmit = none then some fn_ptr.if_qflush else ifp.if_qflush) ∧
    (∀ d, ifp.if_transmit = some d → (if_attach ifp).if_transmit = some d) ∧
    (∀ d, ifp.if_input = some d → (if_attach ifp).if_input = some d) ∧
    (∀ d, ifp.if_requestencap = some d → (if_attach ifp).if_requestencap = some d) := by
  unfold if_attach
  cases ht : ifp.if_transmit <;> cases hi : ifp.if_input <;>
    cases hr : ifp.if_requestencap <;> simp [ht, hi, hr]

/-! ## Flush -/

theorem chain_suffix (m_nextpkt : Nat → Option Nat) (pre : List Nat) (m : Nat) (suf : List Nat)
    (head : Option Nat) (h : chain m_nextpkt head (pre ++ m :: suf) = true) :
    chain m_nextpkt (m_nextpkt m) suf = true := by
  induction pre generalizing head with
  | nil =>
    simp only [List.nil_append, chain, Bool.and_eq_true] at h
    exact h.2
  | cons x xs ih =>
    simp only [List.cons_append, chain, Bool.and_eq_true] at h
    exact ih _ h.2

theorem chain_length_unique (m_nextpkt : Nat → Option Nat) (l1 l2 : List Nat)
    (head : Option Nat) (h1 : chain m_nextpkt head l1 = true)
    (h2 : chain m_nextpkt head l2 = true) : l1.length = l2.length := by
  induction l1 generalizing head l2 with
  | nil =>
    cases l2 with
    | nil => rfl
    | cons y ys =>
      simp only [chain, decide_eq_true_eq, Bool.and_eq_true] at h1 h2
      rw [h1] at h2
      cases h2.1
  | cons x xs ih =>
    cases l2 with
    | nil =>
      simp only [chain, decide_eq_true_eq, Bool.and_eq_true] at h1 h2
      rw [h2] at h1
      cases h1.1
    | cons y ys =>
      simp only [chain, decide_eq_true_eq, Bool.and_eq_true] at h1 h2
      have hxy : x = y := by
        have := h1.1.symm.trans h2.1
        exact Option.some.inj this
      subst hxy
      simp only [List.length_cons]
      rw [ih ys _ h1.2 h2.2]

/-- A chain that ends in NULL visits no packet twice. -/
theorem chain_nodup (m_nextpkt : Nat → Option Nat) (l : List Nat) (head : Option Nat)
    (h : chain m_nextpkt head l = true) : l.Nodup := by
  induction l generalizing head with
  | nil => exact List.nodup_nil
  | cons x xs ih =>
    have h' := h
    simp only [chain, decide_eq_true_eq, Bool.and_eq_true] at h'
    refine List.nodup_cons.mpr ⟨?_, ih _ h'.2⟩
    intro hx
    obtain ⟨pre, suf, hsplit⟩ := List.append_of_mem hx
    have hs : chain m_nextpkt (m_nextpkt x) suf = true := by
      apply chain_suffix m_nextpkt pre x suf (m_nextpkt x)
      rw [← hsplit]; exact h'.2
    have := chain_length_unique m_nextpkt xs suf _ h'.2 hs
    rw [hsplit] at this
    simp at this
    omega

/-- With as many iterations as the chain has packets, the loop of `if_qflush`
ends, and it has released the packets of the chain, in order. -/
theorem if_qflush_loop_chain (m_nextpkt : Nat → Option Nat) (l : List Nat) (head : Option Nat)
    (fuel : Nat) (h : chain m_nextpkt head l = true) (hf : l.length ≤ fuel) :
    if_qflush_loop m_nextpkt fuel head = some l := by
  induction l generalizing head fuel with
  | nil =>
    simp only [chain, decide_eq_true_eq] at h
    subst h
    cases fuel <;> rfl
  | cons x xs ih =>
    simp only [chain, decide_eq_true_eq, Bool.and_eq_true] at h
    obtain ⟨hh, ht⟩ := h
    subst hh
    cases fuel with
    | zero => simp at hf
    | succ n =>
      simp only [if_qflush_loop]
      rw [ih _ n ht (by simpa using hf)]
      rfl

/-- C17. Idempotent drain: for every send queue whose chain holds the packets
`pkts` (any number of them), `if_qflush`, its loop being given at least that
many iterations, returns; it leaves the queue with length 0 and null head and
tail, all other fields of the interface unchanged, and has released exactly
the packets of the chain, each once. A second `if_qflush` right after it
returns with the same state and releases nothing. -/
theorem C17_idempotent_drain (ifp : ifnet) (m_nextpkt : Nat → Option Nat) (pkts : List Nat)
    (fuel : Nat) (hc : chain m_nextpkt ifp.if_snd.ifq_head pkts = true)
    (hf : pkts.length ≤ fuel) :
    if_qflush ifp m_nextpkt fuel =
      some ({ ifp with if_snd := { ifp.if_snd with ifq_head := none, ifq_tail := none,
                                                   ifq_len := 0 } }, pkts) ∧
    pkts.Nodup ∧
    ∀ (next2 : Nat → Option Nat) (fuel2 : Nat),
      if_qflush { ifp with if_snd := { ifp.if_snd with ifq_head := none, ifq_tail := none,
                                                       ifq_len := 0 } } next2 fuel2 =
        some ({ ifp with if_snd := { ifp.if_snd with ifq_head := none, ifq_tail := none,
                                                     ifq_len := 0 } }, []) := by
  refine ⟨?_, chain_nodup m_nextpkt pkts _ hc, ?_⟩
  · simp only [if_qflush, if_qflush_loop_chain m_nextpkt pkts _ fuel hc hf]
  · intro next2 fuel2
    cases fuel2 <;> simp [if_qflush, if_qflush_loop]

/-- Witness of C17: a send queue of three packets. -/
theorem C17_idempotent_drain_witness :
    if_qflush
      { if_snd := { ifq_head := some 10, ifq_tail := some 30, ifq_len := 3, ifq_maxlen := 50 } }
      (fun m => if m = 10 then some 20 else if m = 20 then some 30 else none) 3
      = some ({ if_snd := { ifq_head := none, ifq_tail := none, ifq_len := 0, ifq_maxlen := 50 } },
          [10, 20, 30]) :=
  (C17_idempotent_drain
    { if_snd := { ifq_head := some 10, ifq_tail := some 30, ifq_len := 3, ifq_maxlen := 50 } }
    (fun m => if m = 10 then some 20 else if m = 20 then some 30 else none) [10, 20, 30] 3
    (by decide) (by decide)).1

/-! ## Counters -/

theorem atomic_get64_add64 (value : Nat) (inc : Int) :
    atomic_get64 (atomic_add64 value inc)
      = ((((atomic_get64 value : Nat) : Int) + inc) % (2 ^ 64 : Int)).toNat := by
  unfold atomic_get64 atomic_add64
  have h1 : (((value % 2 ^ 64 : Nat) : Int) + inc) % (2 ^ 64 : Int)
      = ((value : Int) + inc) % (2 ^ 64 : Int) := by
    push_cast
    omega
  rw [h1]
  have h2 : 0 ≤ ((value : Int) + inc) % (2 ^ 64 : Int) := Int.emod_nonneg _ (by norm_num)
  have h3 : ((value : Int) + inc) % (2 ^ 64 : Int) < 2 ^ 64 := Int.emod_lt_of_pos _ (by norm_num)
  omega

/-- C19. Counter bank: for every counter identifier `c` below `IFCOUNTERS`,
every interface state and every delta `d`, after `if_inc_counter(ifp, c, d)`
the value `if_get_counter_default(ifp, c)` is the previous value plus `d`
modulo 2^64, and `if_get_counter_default(ifp, c2)` is unchanged for every other
identifier `c2`. -/
theorem C19_counter_bank (ifp : ifnet) (c : ift_counter) (d : Int)
    (hc : c ≠ ift_counter.IFCOUNTERS) :
    if_get_counter_default (if_inc_counter ifp c d) c
      = ((((if_get_counter_default ifp c : Nat) : Int) + d) % (2 ^ 64 : Int)).toNat ∧
    ∀ c2, c2 ≠ c →
      if_get_counter_default (if_inc_counter ifp c d) c2 = if_get_counter_default ifp c2 := by
  constructor
  · cases c <;>
      first
        | exact absurd rfl hc
        | simp only [if_inc_counter, if_get_counter_default, atomic_get64_add64]
  · intro c2 h2
    cases c <;> cases c2 <;>
      first
        | exact absurd rfl h2
        | exact absurd rfl hc
        | rfl

/-- Witness of C19: 5 is added to the input byte counter standing at
2^64 - 2. -/
theorem C19_counter_bank_witness :
    if_get_counter_default
      (if_inc_counter { if_ibytes := 18446744073709551614 } ift_counter.IFCOUNTER_IBYTES 5)
      ift_counter.IFCOUNTER_IBYTES
      = ((((if_get_counter_default { if_ibytes := 18446744073709551614 }
            ift_counter.IFCOUNTER_IBYTES : Nat) : Int) + 5) % (2 ^ 64 : Int)).toNat :=
  (C19_counter_bank { if_ibytes := 18446744073709551614 } ift_counter.IFCOUNTER_IBYTES 5
    (by decide)).1

/-! ## Drop accounting -/

/-- One enqueue on a queue within its bound: the length grows by one below the
bound, the drop counter grows by one at the bound. -/
theorem _IF_ENQUEUE_counts (ifq : ifqueue) (m : Nat) (h : ifq.ifq_len ≤ ifq.ifq_maxlen) :
    (_IF_ENQUEUE ifq m).ifq_maxlen = ifq.ifq_maxlen ∧
    (_IF_ENQUEUE ifq m).ifq_len ≤ ifq.ifq_maxlen ∧
    (_IF_ENQUEUE ifq m).ifq_len = ifq.ifq_len + min 1 (ifq.ifq_maxlen - ifq.ifq_len) ∧
    (_IF_ENQUEUE ifq m).ifq_drops
      = ifq.ifq_drops + (1 - min 1 (ifq.ifq_maxlen - ifq.ifq_len)) := by
  unfold _IF_ENQUEUE
  by_cases hlt : ifq.ifq_len < ifq.ifq_maxlen
  · have hmin : min (1 : Int) (ifq.ifq_maxlen - ifq.ifq_len) = 1 := min_eq_left (by omega)
    simp only [hlt, if_true, hmin]
    refine ⟨trivial, ?_, trivial, ?_⟩ <;> omega
  · have hmin : min (1 : Int) (ifq.ifq_maxlen - ifq.ifq_len) = 0 := by
      have : ifq.ifq_maxlen - ifq.ifq_len = 0 := by omega
      rw [this]; exact min_eq_right (by omega)
    simp only [hlt, if_false, hmin]
    refine ⟨trivial, h, ?_, ?_⟩ <;> omega

/-- A run of enqueues, one for each packet of a list, on a queue within its
bound. -/
theorem enqueue_run_counts (step : ifqueue → List Nat → ifqueue)
    (hnil : ∀ q, step q [] = q)
    (hcons : ∀ q m ms, step q (m :: ms) = step (_IF_ENQUEUE q m) ms)
    (pkts : List Nat) (ifq : ifqueue) (h : ifq.ifq_len ≤ ifq.ifq_maxlen) :
    (step ifq pkts).ifq_maxlen = ifq.ifq_maxlen ∧
    (step ifq pkts).ifq_len ≤ ifq.ifq_maxlen ∧
    (step ifq pkts).ifq_len
      = ifq.ifq_len + min (pkts.length : Int) (ifq.ifq_maxlen - ifq.ifq_len) ∧
    (step ifq pkts).ifq_drops
      = ifq.ifq_drops
        + ((pkts.length : Int) - min (pkts.length : Int) (ifq.ifq_maxlen - ifq.ifq_len)) := by
  induction pkts generalizing ifq with
  | nil =>
    rw [hnil]
    have hmin : min ((([] : List Nat).length : Nat) : Int) (ifq.ifq_maxlen - ifq.ifq_len) = 0 := by
      simp only [List.length_nil, Nat.cast_zero]
      exact min_eq_left (by omega)
    rw [hmin]
    simp [h]
  | cons m ms ih =>
    rw [hcons]
    obtain ⟨e1, e2, e3, e4⟩ := _IF_ENQUEUE_counts ifq m h
    obtain ⟨r1, r2, r3, r4⟩ := ih (_IF_ENQUEUE ifq m) (by rw [e1]; exact e2)
    rw [e1] at r1 r2 r3 r4
    simp only [List.length_cons, Nat.cast_add, Nat.cast_one]
    have hk : (0 : Int) ≤ (ms.length : Int) := Int.ofNat_nonneg _
    refine ⟨r1, r2, ?_, ?_⟩
    · rw [r3, e3]
      simp only [min_def]
      split_ifs <;> omega
    · rw [r4, e4, e3]
      simp only [min_def]
      split_ifs <;> omega

theorem ether_input_loop_queue (pkts : List Nat) (ifq : ifqueue) (count : Int) :
    (ether_input_loop ifq count pkts).1 = (ether_input_loop ifq 0 pkts).1 := by
  induction pkts generalizing ifq count with
  | nil => rfl
  | cons m ms ih =>
    simp only [ether_input_loop]
    rw [ih (_IF_ENQUEUE ifq m) (count + 1), ih (_IF_ENQUEUE ifq m) (0 + 1)]

theorem transmit_each_snd (pkts : List Nat) (ifp : ifnet) (m : Nat) :
    (transmit_each ifp (m :: pkts)).if_snd
      = (transmit_each { ifp with if_snd := _IF_ENQUEUE ifp.if_snd m } pkts).if_snd := rfl

theorem transmit_each_queue (pkts : List Nat) (ifp1 ifp2 : ifnet)
    (h : ifp1.if_snd = ifp2.if_snd) :
    (transmit_each ifp1 pkts).if_snd = (transmit_each ifp2 pkts).if_snd := by
  induction pkts generalizing ifp1 ifp2 with
  | nil => exact h
  | cons m ms ih =>
    rw [transmit_each_snd, transmit_each_snd]
    exact ih _ _ (by simp [h])

/-- C18. Drop accounting, with the enqueue of the specification: for every
interface queue with `length ≤ maxlen` and every chain of `k` packets handed to
`ether_input` (receive queue) or, packet by packet, to `if_transmit_default`
(send queue), afterwards `length ≤ maxlen` still holds, the length has grown by
`min(k, maxlen - old length)` and the drop counter by `k` minus that; with
`maxlen = 2`, three packets give length 2 and one drop. -/
theorem C18_drop_accounting (ifp : ifnet) (pkts : List Nat) :
    (ifp.receive_queue.ifq_len ≤ ifp.receive_queue.ifq_maxlen →
      (ether_input ifp pkts).1.receive_queue.ifq_maxlen = ifp.receive_queue.ifq_maxlen ∧
      (ether_input ifp pkts).1.receive_queue.ifq_len ≤ ifp.receive_queue.ifq_maxlen ∧
      (ether_input ifp pkts).1.receive_queue.ifq_len
        = ifp.receive_queue.ifq_len
          + min (pkts.length : Int)
              (ifp.receive_queue.ifq_maxlen - ifp.receive_queue.ifq_len) ∧
      (ether_input ifp pkts).1.receive_queue.ifq_drops
        = ifp.receive_queue.ifq_drops
          + ((pkts.length : Int)
              - min (pkts.length : Int)
                  (ifp.receive_queue.ifq_maxlen - ifp.receive_queue.ifq_len))) ∧
    (ifp.if_snd.ifq_len ≤ ifp.if_snd.ifq_maxlen →
      (transmit_each ifp pkts).if_snd.ifq_maxlen = ifp.if_snd.ifq_maxlen ∧
      (transmit_each ifp pkts).if_snd.ifq_len ≤ ifp.if_snd.ifq_maxlen ∧
      (transmit_each ifp pkts).if_snd.ifq_len
        = ifp.if_snd.ifq_len
          + min (pkts.length : Int) (ifp.if_snd.ifq_maxlen - ifp.if_snd.ifq_len) ∧
      (transmit_each ifp pkts).if_snd.ifq_drops
        = ifp.if_snd.ifq_drops
          + ((pkts.length : Int)
              - min (pkts.length : Int) (ifp.if_snd.ifq_maxlen - ifp.if_snd.ifq_len))) ∧
    ((ether_input { receive_queue := { ifq_maxlen := 2 } } [1, 2, 3]).1.receive_queue.ifq_len = 2 ∧
      (ether_input { receive_queue := { ifq_maxlen := 2 } } [1, 2, 3]).1.receive_queue.ifq_drops
        = 1 ∧
      (transmit_each { if_snd := { ifq_maxlen := 2 } } [1, 2, 3]).if_snd.ifq_len = 2 ∧
      (transmit_each { if_snd := { ifq_maxlen := 2 } } [1, 2, 3]).if_snd.ifq_drops = 1) := by
  refine ⟨?_, ?_, by decide⟩
  · intro h
    have hq : (ether_input ifp pkts).1.receive_queue
        = (ether_input_loop ifp.receive_queue 0 pkts).1 := rfl
    rw [hq]
    exact enqueue_run_counts (fun q l => (ether_input_loop q 0 l).1) (fun _ => rfl)
      (fun q m ms => by
        simp only [ether_input_loop]
        exact ether_input_loop_queue ms (_IF_ENQUEUE q m) (0 + 1)) pkts ifp.receive_queue h
  · intro h
    have hq : (transmit_each ifp pkts).if_snd
        = (transmit_each { if_snd := ifp.if_snd } pkts).if_snd :=
      transmit_each_queue pkts _ _ rfl
    rw [hq]
    exact enqueue_run_counts (fun q l => (transmit_each { if_snd := q } l).if_snd)
      (fun _ => rfl)
      (fun q m ms => by
        show (transmit_each { if_snd := q } (m :: ms)).if_snd = _
        rw [transmit_each_snd]) pkts ifp.if_snd h

/-- Witness of C18: a receive queue at length 1 of 2 takes a chain of three
packets. -/
theorem C18_drop_accounting_witness :
    (ether_input { receive_queue := { ifq_len := 1, ifq_maxlen := 2 } }
        [1, 2, 3]).1.receive_queue.ifq_len ≤ 2 :=
  ((C18_drop_accounting { receive_queue := { ifq_len := 1, ifq_maxlen := 2 } } [1, 2, 3]).1
    (by decide)).2.1

/-! ## Device name list -/

theorem getD_set_name (l : List (Option Nat)) (i j : Nat) (v : Option Nat) :
    (l.set i v).getD j none = if i = j ∧ i < l.length then v else l.getD j none := by
  simp only [List.getD_eq_getElem?_getD, List.getElem?_set]
  by_cases hij : i = j
  · by_cases hl : i < l.length
    · subst hij
      simp [hl]
    · subst hij
      simp [hl, List.getElem?_eq_none (Nat.le_of_not_lt hl)]
  · simp [hij]

theorem getD_name_lt (l : List (Option Nat)) (i : Nat) (h : l.getD i none ≠ none) :
    i < l.length := by
  by_contra hge
  apply h
  simp [List.getD_eq_getElem?_getD, List.getElem?_eq_none (Nat.le_of_not_lt hge)]

theorem mem_name_iff (l : List (Option Nat)) (p : Nat) :
    some p ∈ l ↔ ∃ i, i < l.length ∧ l.getD i none = some p := by
  rw [List.mem_iff_getElem?]
  constructor
  · rintro ⟨i, hi⟩
    refine ⟨i, ?_, by simp [List.getD_eq_getElem?_getD, hi]⟩
    by_contra hge
    rw [List.getElem?_eq_none (Nat.le_of_not_lt hge)] at hi
    cases hi
  · rintro ⟨i, hi, hg⟩
    refine ⟨i, ?_⟩
    rw [List.getD_eq_getElem?_getD] at hg
    cases h : l[i]? with
    | none => rw [h] at hg; cases hg
    | some v => rw [h] at hg; simpa using hg

theorem count_set_add (l : List (Option Nat)) (i : Nat) (h : i < l.length) (a b : Option Nat) :
    (l.set i a).count b + (if l.getD i none = b then 1 else 0)
      = l.count b + (if a = b then 1 else 0) := by
  induction l generalizing i with
  | nil => simp at h
  | cons x xs ih =>
    cases i with
    | zero =>
      simp only [List.set, List.getD_cons_zero, List.count_cons, beq_iff_eq]
      omega
    | succ i =>
      simp only [List.set, List.getD_cons_succ, List.count_cons, beq_iff_eq]
      have := ih i (by simpa using h)
      omega

theorem name_list_last_ge (l : List (Option Nat)) (todo last : Nat) :
    last ≤ name_list_last l todo last := by
  induction todo generalizing last with
  | zero => simp [name_list_last]
  | succ n ih =>
    unfold name_list_last
    split
    · exact Nat.le_refl _
    · exact Nat.le_trans (Nat.le_succ _) (ih (last + 1))

theorem name_list_last_le (l : List (Option Nat)) (todo last : Nat) :
    name_list_last l todo last ≤ last + todo := by
  induction todo generalizing last with
  | zero => simp [name_list_last]
  | succ n ih =>
    unfold name_list_last
    split
    · omega
    · have := ih (last + 1); omega

theorem name_list_last_below (l : List (Option Nat)) (todo last j : Nat)
    (h1 : last ≤ j) (h2 : j < name_list_last l todo last) :
    l.getD j none ≠ none := by
  induction todo generalizing last with
  | zero => simp [name_list_last] at h2; omega
  | succ n ih =>
    unfold name_list_last at h2
    split at h2
    · omega
    · rename_i hne
      rcases Nat.eq_or_lt_of_le h1 with h | h
      · subst h; exact hne
      · exact ih (last + 1) h h2

theorem name_list_last_empty (l : List (Option Nat)) (todo last : Nat)
    (h : name_list_last l todo last < last + todo) :
    l.getD (name_list_last l todo last) none = none := by
  induction todo generalizing last with
  | zero => simp [name_list_last] at h
  | succ n ih =>
    unfold name_list_last at h ⊢
    split
    · assumption
    · rename_i hne
      simp only [hne, if_false] at h
      exact ih (last + 1) (by omega)

/-- The outer loop of `remove_from_device_name_list` changes nothing when no
entry in its range is the name of the interface, and otherwise runs the
removal at the first entry that is. -/
theorem name_list_remove_loop_cases (l : List (Option Nat)) (maxDevices p todo i0 : Nat) :
    ((∀ j, i0 ≤ j → j < i0 + todo → l.getD j none ≠ some p) ∧
      name_list_remove_loop l maxDevices p todo i0 = l) ∨
    (∃ i, i0 ≤ i ∧ i < i0 + todo ∧ l.getD i none = some p ∧
      name_list_remove_loop l maxDevices p todo i0 = name_list_remove_at l maxDevices i) := by
  induction todo generalizing i0 with
  | zero =>
    left
    exact ⟨fun j h1 h2 => by omega, rfl⟩
  | succ n ih =>
    unfold name_list_remove_loop
    by_cases hp : l.getD i0 none = some p
    · right
      exact ⟨i0, Nat.le_refl _, by omega, hp, by rw [if_pos hp]⟩
    · rw [if_neg hp]
      rcases ih (i0 + 1) with ⟨hno, hval⟩ | ⟨i, h1, h2, h3, hval⟩
      · left
        refine ⟨?_, hval⟩
        intro j hj1 hj2
        rcases Nat.eq_or_lt_of_le hj1 with he | hl
        · subst he; exact hp
        · exact hno j hl (by omega)
      · right
        exact ⟨i, by omega, by omega, h3, hval⟩

/-- The removal at index `i`: the entries behind `i` up to `last` are
non-empty, the entry behind `last` is empty or outside the table, and the
table afterwards is the old one with entry `last` moved to index `i`. -/
theorem name_list_remove_at_facts (l : List (Option Nat)) (i : Nat) (hi : i < l.length) :
    ∃ last, i ≤ last ∧ last < l.length ∧
      (∀ j, i < j → j ≤ last → l.getD j none ≠ none) ∧
      (last + 1 < l.length → l.getD (last + 1) none = none) ∧
      name_list_remove_at l l.length i =
        (if i = last then l.set i none else (l.set i (l.getD last none)).set last none) := by
  have hge := name_list_last_ge l (l.length - (i + 1)) (i + 1)
  have hle := name_list_last_le l (l.length - (i + 1)) (i + 1)
  refine ⟨name_list_last l (l.length - (i + 1)) (i + 1) - 1, by omega, by omega, ?_, ?_, rfl⟩
  · intro j h1 h2
    exact name_list_last_below l (l.length - (i + 1)) (i + 1) j (by omega) (by omega)
  · intro h
    have hk : name_list_last l (l.length - (i + 1)) (i + 1) - 1 + 1
        = name_list_last l (l.length - (i + 1)) (i + 1) := by omega
    rw [hk] at h ⊢
    exact name_list_last_empty l (l.length - (i + 1)) (i + 1) (by omega)

/-- Removal takes one occurrence of the name out of the table and keeps the
number of occurrences of every other name. -/
theorem name_list_remove_at_count (l : List (Option Nat)) (i p : Nat) (hi : i < l.length)
    (hp : l.getD i none = some p) (q : Nat) :
    (name_list_remove_at l l.length i).count (some q) + (if q = p then 1 else 0)
      = l.count (some q) := by
  obtain ⟨last, h1, h2, _, _, hval⟩ := name_list_remove_at_facts l i hi
  rw [hval]
  by_cases he : i = last
  · rw [if_pos he]
    have := count_set_add l i hi none (some q)
    rw [hp] at this
    simp only [Option.some.injEq] at this
    have hpq : (p = q) ↔ (q = p) := eq_comm
    simp only [hpq] at this
    simpa using this
  · rw [if_neg he]
    have c1 := count_set_add l i hi (l.getD last none) (some q)
    have c2 := count_set_add (l.set i (l.getD last none)) last (by simpa using h2) none (some q)
    have hg : (l.set i (l.getD last none)).getD last none = l.getD last none := by
      rw [getD_set_name, if_neg (fun h => he h.1)]
    rw [hg] at c2
    rw [hp] at c1
    simp only [Option.some.injEq] at c1
    have hpq : (p = q) ↔ (q = p) := eq_comm
    simp only [hpq] at c1
    have hn : (if (none : Option Nat) = some q then 1 else 0) = 0 := by simp
    rw [hn] at c2
    omega

theorem name_list_remove_at_length (l : List (Option Nat)) (i : Nat) (hi : i < l.length) :
    (name_list_remove_at l l.length i).length = l.length := by
  obtain ⟨last, _, _, _, _, hval⟩ := name_list_remove_at_facts l i hi
  rw [hval]
  split <;> simp

/-- Removal from a contiguous table leaves a contiguous table. -/
theorem name_list_remove_at_contiguous (l : List (Option Nat)) (i p : Nat) (hi : i < l.length)
    (hp : l.getD i none = some p) (hc : contiguous l) :
    contiguous (name_list_remove_at l l.length i) := by
  obtain ⟨last, h1, h2, hsome, hnone, hval⟩ := name_list_remove_at_facts l i hi
  have hne_i : l.getD i none ≠ none := by rw [hp]; intro h; cases h
  have hbelow : ∀ j, j ≤ last → l.getD j none ≠ none := by
    intro j hj
    rcases Nat.lt_or_ge i j with h | h
    · exact hsome j h hj
    · rcases Nat.eq_or_lt_of_le h with he | hl
      · rw [he]; exact hne_i
      · exact hc i hi j hl hne_i
  have habove : ∀ j, last < j → j < l.length → l.getD j none = none := by
    intro j hj hjl
    by_contra hne
    have hk : last + 1 < l.length := by omega
    rcases Nat.eq_or_lt_of_le (Nat.succ_le_of_lt hj) with he | hl
    · rw [← he] at hne; exact hne (hnone hk)
    · exact hc j hjl (last + 1) hl hne (hnone hk)
  have hres : ∀ j, (name_list_remove_at l l.length i).getD j none ≠ none → j < last := by
    intro j hj
    rw [hval] at hj
    by_contra hge
    apply hj
    by_cases he : i = last
    · rw [if_pos he, getD_set_name]
      by_cases hji : i = j
      · rw [if_pos ⟨hji, hi⟩]
      · rw [if_neg (fun h => hji h.1)]
        by_cases hjl : j < l.length
        · exact habove j (by omega) hjl
        · simp [List.getD_eq_getElem?_getD, List.getElem?_eq_none (Nat.le_of_not_lt hjl)]
    · rw [if_neg he, getD_set_name]
      by_cases hjl : last = j
      · rw [if_pos ⟨hjl, by simpa using h2⟩]
      · rw [if_neg (fun h => hjl h.1), getD_set_name, if_neg (fun h => by omega)]
        by_cases hjlen : j < l.length
        · exact habove j (by omega) hjlen
        · simp [List.getD_eq_getElem?_getD, List.getElem?_eq_none (Nat.le_of_not_lt hjlen)]
  intro j _ k hk hj
  have hjlast := hres j hj
  rw [hval]
  by_cases he : i = last
  · rw [if_pos he, getD_set_name, if_neg (fun h => by omega)]
    exact hbelow k (by omega)
  · rw [if_neg he, getD_set_name, if_neg (fun h => by omega), getD_set_name]
    by_cases hki : i = k
    · rw [if_pos ⟨hki, hi⟩]
      exact hbelow last (Nat.le_refl _)
    · rw [if_neg (fun h => hki h.1)]
      exact hbelow k (by omega)

/-- The loop of `insert_into_device_name_list` ends without assignment when
no entry in its range is empty, and otherwise fills the first empty entry. -/
theorem name_list_insert_loop_cases (l : List (Option Nat)) (p todo i0 : Nat) :
    ((∀ j, i0 ≤ j → j < i0 + todo → l.getD j none ≠ none) ∧
      name_list_insert_loop l p todo i0 = none) ∨
    (∃ k, i0 ≤ k ∧ k < i0 + todo ∧ l.getD k none = none ∧
      (∀ j, i0 ≤ j → j < k → l.getD j none ≠ none) ∧
      name_list_insert_loop l p todo i0 = some (l.set k (some p))) := by
  induction todo generalizing i0 with
  | zero =>
    left
    exact ⟨fun j h1 h2 => by omega, rfl⟩
  | succ n ih =>
    unfold name_list_insert_loop
    by_cases hp : l.getD i0 none = none
    · right
      exact ⟨i0, Nat.le_refl _, by omega, hp, fun j h1 h2 => by omega, by rw [if_pos hp]⟩
    · rw [if_neg hp]
      rcases ih (i0 + 1) with ⟨hno, hval⟩ | ⟨k, h1, h2, h3, h4, hval⟩
      · left
        refine ⟨?_, hval⟩
        intro j hj1 hj2
        rcases Nat.eq_or_lt_of_le hj1 with he | hl
        · subst he; exact hp
        · exact hno j hl (by omega)
      · right
        refine ⟨k, by omega, by omega, h3, ?_, hval⟩
        intro j hj1 hj2
        rcases Nat.eq_or_lt_of_le hj1 with he | hl
        · subst he; exact hp
        · exact h4 j hl hj2

/-- The value of `insert_into_device_name_list` on a table with an empty
entry. -/
theorem insert_into_device_name_list_ok (g : Globals) (p : Nat)
    (hfree : ∃ i, i < MAX_DEVICES g ∧ g.gDeviceNameList.getD i none = none) :
    ∃ k, k < MAX_DEVICES g ∧ g.gDeviceNameList.getD k none = none ∧
      (∀ j, j < k → g.gDeviceNameList.getD j none ≠ none) ∧
      insert_into_device_name_list g p =
        { g with gDeviceNameList := g.gDeviceNameList.set k (some p) } := by
  obtain ⟨i, hi, hnone⟩ := hfree
  rcases name_list_insert_loop_cases g.gDeviceNameList p (MAX_DEVICES g) 0 with
    ⟨hno, _⟩ | ⟨k, _, h2, h3, h4, hval⟩
  · exact absurd hnone (hno i (Nat.zero_le _) (by omega))
  · refine ⟨k, by omega, h3, fun j hj => h4 j (Nat.zero_le _) hj, ?_⟩
    simp [insert_into_device_name_list, hval]

/-- The value of `remove_from_device_name_list` on a table that holds the
name: the removal at the first entry that is the name. -/
theorem remove_from_device_name_list_ok (g : Globals) (p : Nat)
    (hlen : g.gDeviceNameList.length = MAX_DEVICES g) (hp : some p ∈ g.gDeviceNameList) :
    ∃ i, i < g.gDeviceNameList.length ∧ g.gDeviceNameList.getD i none = some p ∧
      remove_from_device_name_list g p =
        { g with gDeviceNameList :=
            name_list_remove_at g.gDeviceNameList g.gDeviceNameList.length i } := by
  obtain ⟨i0, hi0, hg0⟩ := (mem_name_iff _ _).mp hp
  rcases name_list_remove_loop_cases g.gDeviceNameList (MAX_DEVICES g) p (MAX_DEVICES g) 0 with
    ⟨hno, _⟩ | ⟨i, _, h2, h3, hval⟩
  · exact absurd hg0 (hno i0 (Nat.zero_le _) (by omega))
  · refine ⟨i, by omega, h3, ?_⟩
    simp only [remove_from_device_name_list, hval, hlen]

theorem name_list_insert_contiguous (l : List (Option Nat)) (k p : Nat)
    (hfirst : ∀ j, j < k → l.getD j none ≠ none) (hc : contiguous l) :
    contiguous (l.set k (some p)) := by
  intro j hj i hij hne
  rw [List.length_set] at hj
  rw [getD_set_name] at hne ⊢
  by_cases hki : k = i
  · by_cases hkl : k < l.length
    · rw [if_pos ⟨hki, hkl⟩]; intro h; cases h
    · rw [if_neg (fun h => hkl h.2)]
      exact absurd (by omega) hkl
  · rw [if_neg (fun h => hki h.1)]
    by_cases hkj : k = j
    · exact hfirst i (by omega)
    · rw [if_neg (fun h => hkj h.1)] at hne
      exact hc j hj i hij hne

/-- C13. Name compaction, for a contiguous `gDeviceNameList` of `MAX_DEVICES`
entries (the full table included). `remove_from_device_name_list` for an
interface whose name is in the table leaves a contiguous table of the same
size that holds one occurrence less of that name and every other name as often
as before. `insert_into_device_name_list` on a table with an empty entry
writes the name into the first empty entry, changes nothing else, and leaves
the table contiguous. -/
theorem C13_name_compaction (g : Globals) (p : Nat)
    (hlen : g.gDeviceNameList.length = MAX_DEVICES g)
    (hc : contiguous g.gDeviceNameList) :
    (some p ∈ g.gDeviceNameList →
      contiguous (remove_from_device_name_list g p).gDeviceNameList ∧
      (remove_from_device_name_list g p).gDeviceNameList.length = MAX_DEVICES g ∧
      (∀ q, (remove_from_device_name_list g p).gDeviceNameList.count (some q)
          + (if q = p then 1 else 0) = g.gDeviceNameList.count (some q)) ∧
      (remove_from_device_name_list g p) =
        { g with gDeviceNameList := (remove_from_device_name_list g p).gDeviceNameList }) ∧
    ((∃ i, i < MAX_DEVICES g ∧ g.gDeviceNameList.getD i none = none) →
      ∃ k, k < MAX_DEVICES g ∧ g.gDeviceNameList.getD k none = none ∧
        (∀ j, j < k → g.gDeviceNameList.getD j none ≠ none) ∧
        insert_into_device_name_list g p =
          { g with gDeviceNameList := g.gDeviceNameList.set k (some p) } ∧
        contiguous (insert_into_device_name_list g p).gDeviceNameList) := by
  constructor
  · intro hp
    obtain ⟨i, hi, hg, hval⟩ := remove_from_device_name_list_ok g p hlen hp
    rw [hval]
    refine ⟨name_list_remove_at_contiguous _ i p hi hg hc, ?_, ?_, rfl⟩
    · show (name_list_remove_at g.gDeviceNameList g.gDeviceNameList.length i).length = _
      rw [name_list_remove_at_length _ i hi]
      exact hlen
    · intro q
      exact name_list_remove_at_count _ i p hi hg q
  · intro hfree
    obtain ⟨k, hk, hnone, hfirst, hval⟩ := insert_into_device_name_list_ok g p hfree
    refine ⟨k, hk, hnone, hfirst, hval, ?_⟩
    rw [hval]
    exact name_list_insert_contiguous _ k p hfirst hc

/-- Witness of C13: the first of three names is removed from a table of four
entries. -/
theorem C13_name_compaction_witness :
    (remove_from_device_name_list
      { gDevices := [ifnet_ptr.obj 1, ifnet_ptr.obj 2, ifnet_ptr.obj 3, ifnet_ptr.NULL],
        gDeviceCount := 3, gDeviceNameList := [some 1, some 2, some 3, none] }
      1).gDeviceNameList = [some 3, some 2, none, none] ∧
    contiguous (remove_from_device_name_list
      { gDevices := [ifnet_ptr.obj 1, ifnet_ptr.obj 2, ifnet_ptr.obj 3, ifnet_ptr.NULL],
        gDeviceCount := 3, gDeviceNameList := [some 1, some 2, some 3, none] }
      1).gDeviceNameList :=
  ⟨by decide,
   ((C13_name_compaction
      { gDevices := [ifnet_ptr.obj 1, ifnet_ptr.obj 2, ifnet_ptr.obj 3, ifnet_ptr.NULL],
        gDeviceCount := 3, gDeviceNameList := [some 1, some 2, some 3, none] }
      1 (by decide) (by unfold contiguous; decide)).1 (by decide)).1⟩

/-! ## Free -/

theorem set_null_self (l : List ifnet_ptr) (i : Nat)
    (h : l.getD i ifnet_ptr.NULL = ifnet_ptr.NULL) : l.set i ifnet_ptr.NULL = l := by
  induction l generalizing i with
  | nil => rfl
  | cons x xs ih =>
    cases i with
    | zero =>
      simp only [List.getD_cons_zero] at h
      subst h
      rfl
    | succ i =>
      simp only [List.getD_cons_succ] at h
      simp only [List.set]
      rw [ih i h]

/-- The value of `if_alloc_inplace` when the semaphore is created and a slot
is empty. -/
theorem if_alloc_inplace_ok (g : Globals) (p : Nat) (ifp : ifnet) (type : Nat) (sem : Int)
    (hs : B_OK ≤ sem)
    (hfree : ∃ i, i < MAX_DEVICES g ∧ g.gDevices.getD i ifnet_ptr.NULL = ifnet_ptr.NULL) :
    ∃ idx, idx < MAX_DEVICES g ∧ g.gDevices.getD idx ifnet_ptr.NULL = ifnet_ptr.NULL ∧
      if_alloc_inplace g p ifp type sem =
        (0,
          { g with gDevices := g.gDevices.set idx (ifnet_ptr.obj p),
                   gDeviceCount := g.gDeviceCount + 1 },
          { ifp with receive_sem := sem, link_state_sem := -1, open_count := 0, flags := 0,
                     if_type := type, receive_queue := ifq_init ifp.receive_queue,
                     scan_done_sem := -1, if_index := idx }) := by
  obtain ⟨i, hi, hnull⟩ := hfree
  have hnf : ¬ sem < B_OK := by omega
  rcases alloc_reserve_cases g with hfull | ⟨idx, hlt, hn, hres⟩
  · exfalso
    have hscan : ifindex_scan g.gDevices (MAX_DEVICES g) 0 = MAX_DEVICES g := by
      by_contra hne
      rw [ifindex_alloc_locked_ok g hne] at hfull
      cases hfull
    exact (ifindex_scan_full_iff g.gDevices).mp hscan i hi hnull
  · refine ⟨idx, hlt, hn, ?_⟩
    simp [if_alloc_inplace, hnf, hres, ifnet_setbyindex, ifnet_setbyindex_locked]

/-- C20. Free, the name table having `MAX_DEVICES` entries. For an interface
whose `if_index` is one of the slots, `if_free_inplace` empties slot
`if_index` of `gDevices`, leaves every other slot unchanged and decrements
`gDeviceCount` by one. For type `IFT_ETHER` the name table afterwards is the
one `remove_from_device_name_list` leaves, which holds one occurrence less of
the name of the interface when it held it; for every other type the name table
is unchanged. For an Ethernet interface, creation (a slot being empty and the
semaphore created), `if_initname` with a non-empty name (an entry of the name
table being empty) and `if_free_inplace` give back the slot table and the
count as they were before the creation, and a name table that holds every
name as often as before. -/
theorem C20_free (g : Globals) (p : Nat)
    (hlen : g.gDeviceNameList.length = MAX_DEVICES g) :
    (∀ ifp : ifnet, ifp.if_index < MAX_DEVICES g →
      (if_free_inplace g p ifp).gDevices = g.gDevices.set ifp.if_index ifnet_ptr.NULL ∧
      (if_free_inplace g p ifp).gDevices.getD ifp.if_index ifnet_ptr.NULL = ifnet_ptr.NULL ∧
      (∀ j, j ≠ ifp.if_index →
        (if_free_inplace g p ifp).gDevices.getD j ifnet_ptr.NULL
          = g.gDevices.getD j ifnet_ptr.NULL) ∧
      (if_free_inplace g p ifp).gDeviceCount = g.gDeviceCount - 1 ∧
      (ifp.if_type = IFT_ETHER →
        (if_free_inplace g p ifp).gDeviceNameList
          = (remove_from_device_name_list g p).gDeviceNameList ∧
        (some p ∈ g.gDeviceNameList →
          ∀ q, (if_free_inplace g p ifp).gDeviceNameList.count (some q)
              + (if q = p then 1 else 0) = g.gDeviceNameList.count (some q))) ∧
      (ifp.if_type ≠ IFT_ETHER →
        (if_free_inplace g p ifp).gDeviceNameList = g.gDeviceNameList)) ∧
    (∀ (ifp : ifnet) (sem : Int) (name : String) (unit : Int) (root : Option Nat)
        (xname_size device_name_size : Nat),
      B_OK ≤ sem → name ≠ "" →
      (∃ i, i < MAX_DEVICES g ∧ g.gDevices.getD i ifnet_ptr.NULL = ifnet_ptr.NULL) →
      (∃ i, i < MAX_DEVICES g ∧ g.gDeviceNameList.getD i none = none) →
      (if_alloc_inplace g p ifp IFT_ETHER sem).1 = 0 ∧
      ∃ named,
        (if_initname (if_alloc_inplace g p ifp IFT_ETHER sem).2.1 p
          (if_alloc_inplace g p ifp IFT_ETHER sem).2.2 (some name) unit root
          xname_size device_name_size).2 = some named ∧
        (if_free_inplace
          (if_initname (if_alloc_inplace g p ifp IFT_ETHER sem).2.1 p
            (if_alloc_inplace g p ifp IFT_ETHER sem).2.2 (some name) unit root
            xname_size device_name_size).1 p named).gDevices = g.gDevices ∧
        (if_free_inplace
          (if_initname (if_alloc_inplace g p ifp IFT_ETHER sem).2.1 p
            (if_alloc_inplace g p ifp IFT_ETHER sem).2.2 (some name) unit root
            xname_size device_name_size).1 p named).gDeviceCount = g.gDeviceCount ∧
        ∀ q, (if_free_inplace
          (if_initname (if_alloc_inplace g p ifp IFT_ETHER sem).2.1 p
            (if_alloc_inplace g p ifp IFT_ETHER sem).2.2 (some name) unit root
            xname_size device_name_size).1 p named).gDeviceNameList.count (some q)
          = g.gDeviceNameList.count (some q)) := by
  constructor
  · intro ifp hidx
    have htab := if_free_inplace_table g p ifp
    refine ⟨htab.1, ?_, ?_, htab.2, ?_, ?_⟩
    · rw [htab.1, getD_set_slot, if_pos ⟨rfl, hidx⟩]
    · intro j hj
      rw [htab.1, getD_set_slot, if_neg (fun h => hj h.1.symm)]
    · intro hty
      have hl : (if_free_inplace g p ifp).gDeviceNameList
          = (remove_from_device_name_list g p).gDeviceNameList := by
        simp [if_free_inplace, hty, ifindex_free_locked]
      refine ⟨hl, ?_⟩
      intro hp q
      rw [hl]
      obtain ⟨i, hi, hg, hval⟩ := remove_from_device_name_list_ok g p hlen hp
      rw [hval]
      exact name_list_remove_at_count _ i p hi hg q
    · intro hty
      simp [if_free_inplace, hty, ifindex_free_locked]
  · intro ifp sem name unit root xname_size device_name_size hs hname hslot hentry
    obtain ⟨idx, hidx, hnull, hcreate⟩ := if_alloc_inplace_ok g p ifp IFT_ETHER sem hs hslot
    obtain ⟨k, hk, hknone, _, hins⟩ :=
      insert_into_device_name_list_ok
        { g with gDevices := g.gDevices.set idx (ifnet_ptr.obj p),
                 gDeviceCount := g.gDeviceCount + 1 } p
        (by simpa [MAX_DEVICES] using hentry)
    have hk' : k < g.gDeviceNameList.length := by
      rw [hlen]; simpa [MAX_DEVICES] using hk
    rw [hcreate]
    refine ⟨rfl, ?_⟩
    have hne : ¬ (some name = none ∨ some name = some "") := by
      intro h
      rcases h with h | h
      · cases h
      · exact hname (Option.some.inj h)
    simp only [if_initname, hne, if_false, hins]
    refine ⟨_, rfl, ?_⟩
    have hmem : some p ∈ g.gDeviceNameList.set k (some p) :=
      (mem_name_iff _ _).mpr ⟨k, by simpa using hk', by
        rw [getD_set_name, if_pos ⟨rfl, hk'⟩]⟩
    obtain ⟨i, hi, hg, hval⟩ :=
      remove_from_device_name_list_ok
        { g with gDevices := g.gDevices.set idx (ifnet_ptr.obj p),
                 gDeviceCount := g.gDeviceCount + 1,
                 gDeviceNameList := g.gDeviceNameList.set k (some p) } p
        (by simp [MAX_DEVICES, hlen]) hmem
    simp only [if_free_inplace, if_true, hval, ifindex_free_locked, List.set_set]
    refine ⟨set_null_self _ _ hnull, by omega, ?_⟩
    intro q
    have c1 := name_list_remove_at_count _ i p hi hg q
    have c2 := count_set_add g.gDeviceNameList k hk' (some p) (some q)
    rw [hknone] at c2
    have hn : (if (none : Option Nat) = some q then 1 else 0) = 0 := by simp
    rw [hn] at c2
    simp only [Option.some.injEq] at c2
    have hpq : (p = q) ↔ (q = p) := eq_comm
    simp only [hpq] at c2
    simp only [List.length_set] at c1 ⊢
    omega

/-! ## The multicast table under call sequences -/

theorem same_lladdr_iff (a b : sockaddr_dl) :
    same_lladdr a b = true ↔ a.lladdr.take ETHER_ADDR_LEN = b.lladdr.take ETHER_ADDR_LEN := by
  simp [same_lladdr, memcmp_eq]

theorem ifma_matches_iff (a : sockaddr_dl) (e : ifmultiaddr) :
    ifma_matches a e = true ↔
      a.lladdr.take ETHER_ADDR_LEN = e.ifma_addr_storage.lladdr.take ETHER_ADDR_LEN := by
  simp [ifma_matches, memcmp_eq]

theorem ifma_matches_congr (a b : sockaddr_dl) (e : ifmultiaddr)
    (h : same_lladdr a b = true) : ifma_matches a e = ifma_matches b e := by
  rw [same_lladdr_iff] at h
  rw [Bool.eq_iff_iff, ifma_matches_iff, ifma_matches_iff, h]

theorem ifma_matches_addr (a : sockaddr_dl) (e1 e2 : ifmultiaddr)
    (h : e1.ifma_addr_storage = e2.ifma_addr_storage) :
    ifma_matches a e1 = ifma_matches a e2 := by
  simp [ifma_matches, h]

/-- Two addresses that match the same entry have the same bytes. -/
theorem same_of_matches (a b : sockaddr_dl) (e : ifmultiaddr)
    (ha : ifma_matches a e = true) (hb : ifma_matches b e = true) :
    same_lladdr a b = true := by
  rw [ifma_matches_iff] at ha hb
  rw [same_lladdr_iff, ha, hb]

theorem refcount_of_congr (a b : sockaddr_dl) (l : List ifmultiaddr)
    (h : same_lladdr a b = true) : refcount_of a l = refcount_of b l := by
  induction l with
  | nil => rfl
  | cons e r ih => simp only [refcount_of, ifma_matches_congr a b e h, ih]

theorem refcount_of_no_match (a : sockaddr_dl) (l : List ifmultiaddr)
    (h : ∀ e, e ∈ l → ifma_matches a e = false) : refcount_of a l = 0 := by
  induction l with
  | nil => rfl
  | cons e r ih =>
    simp only [refcount_of, h e (List.mem_cons_self e r), Bool.false_eq_true, if_false]
    exact ih (fun x hx => h x (List.mem_cons_of_mem e hx))

/-- The refcount looked up for an address is the refcount of the entry that
`if_findmulti` finds. -/
theorem refcount_of_found (a : sockaddr_dl) (l : List ifmultiaddr) (i : Nat) (e : ifmultiaddr)
    (hfind : findmulti a l = some i) (he : l[i]? = some e) :
    refcount_of a l = e.ifma_refcount := by
  induction l generalizing i with
  | nil => simp [findmulti] at hfind
  | cons x xs ih =>
    cases hx : ifma_matches a x with
    | true =>
      rw [findmulti_cons_match a x xs hx, Option.some.injEq] at hfind
      subst hfind
      simp only [List.getElem?_cons_zero, Option.some.injEq] at he
      subst he
      simp [refcount_of, hx]
    | false =>
      rw [findmulti_cons_skip a x xs hx, Option.map_eq_some'] at hfind
      obtain ⟨k, hk, hki⟩ := hfind
      subst hki
      simp only [List.getElem?_cons_succ] at he
      simp only [refcount_of, hx, Bool.false_eq_true, if_false]
      exact ih k hk he

/-- An assignment to the entry found for `b` that keeps its address changes
the refcount looked up for the addresses with the bytes of `b` only. -/
theorem refcount_of_update (f : ifmultiaddr → ifmultiaddr)
    (hf : ∀ e, (f e).ifma_addr_storage = e.ifma_addr_storage)
    (a b : sockaddr_dl) (l : List ifmultiaddr) (i : Nat) (e : ifmultiaddr)
    (hfind : findmulti b l = some i) (he : l[i]? = some e) :
    refcount_of a (ifma_update f l i)
      = if same_lladdr a b = true then (f e).ifma_refcount else refcount_of a l := by
  induction l generalizing i with
  | nil => simp [findmulti] at hfind
  | cons x xs ih =>
    cases hx : ifma_matches b x with
    | true =>
      rw [findmulti_cons_match b x xs hx, Option.some.injEq] at hfind
      subst hfind
      simp only [List.getElem?_cons_zero, Option.some.injEq] at he
      subst he
      simp only [ifma_update, refcount_of, ifma_matches_addr a (f x) x (hf x)]
      by_cases hab : same_lladdr a b = true
      · rw [ifma_matches_congr a b x hab, hx]
        simp [hab]
      · have hax : ifma_matches a x = false := by
          cases h : ifma_matches a x with
          | false => rfl
          | true => exact absurd (same_of_matches a b x h hx) hab
        simp [hax, hab]
    | false =>
      rw [findmulti_cons_skip b x xs hx, Option.map_eq_some'] at hfind
      obtain ⟨k, hk, hki⟩ := hfind
      subst hki
      simp only [List.getElem?_cons_succ] at he
      simp only [ifma_update, refcount_of]
      rw [ih k hk he]
      by_cases hab : same_lladdr a b = true
      · rw [ifma_matches_congr a b x hab, hx]
        simp [hab]
      · simp [hab]

/-- The removal of the entry found for `b` from a list without two entries of
the same address bytes changes the refcount looked up for the addresses with
the bytes of `b` only, to 0. -/
theorem refcount_of_erase (a b : sockaddr_dl) (l : List ifmultiaddr) (i : Nat)
    (hp : l.Pairwise (fun x y => ifma_matches x.ifma_addr_storage y = false))
    (hfind : findmulti b l = some i) :
    refcount_of a (l.eraseIdx i)
      = if same_lladdr a b = true then 0 else refcount_of a l := by
  induction l generalizing i with
  | nil => simp [findmulti] at hfind
  | cons x xs ih =>
    rw [List.pairwise_cons] at hp
    cases hx : ifma_matches b x with
    | true =>
      rw [findmulti_cons_match b x xs hx, Option.some.injEq] at hfind
      subst hfind
      simp only [List.eraseIdx_cons_zero, refcount_of]
      by_cases hab : same_lladdr a b = true
      · rw [if_pos hab]
        apply refcount_of_no_match
        intro y hy
        have hxy := hp.1 y hy
        have hax : ifma_matches a x = true := by rw [ifma_matches_congr a b x hab, hx]
        cases hay : ifma_matches a y with
        | false => rfl
        | true =>
          rw [ifma_matches_iff] at hax hay
          have : ifma_matches x.ifma_addr_storage y = true := by
            rw [ifma_matches_iff, ← hax, hay]
          rw [this] at hxy
          cases hxy
      · have hax : ifma_matches a x = false := by
          cases h : ifma_matches a x with
          | false => rfl
          | true => exact absurd (same_of_matches a b x h hx) hab
        simp [hax, hab]
    | false =>
      rw [findmulti_cons_skip b x xs hx, Option.map_eq_some'] at hfind
      obtain ⟨k, hk, hki⟩ := hfind
      subst hki
      simp only [List.eraseIdx_cons_succ, refcount_of]
      rw [ih k hp.2 hk]
      by_cases hab : same_lladdr a b = true
      · rw [ifma_matches_congr a b x hab, hx]
        simp [hab]
      · simp [hab]

theorem ifma_update_mem (f : ifmultiaddr → ifmultiaddr) (l : List ifmultiaddr) (i : Nat)
    (y : ifmultiaddr) (hy : y ∈ ifma_update f l i) :
    y ∈ l ∨ ∃ x, l[i]? = some x ∧ y = f x := by
  induction l generalizing i with
  | nil => simp [ifma_update] at hy
  | cons x xs ih =>
    cases i with
    | zero =>
      simp only [ifma_update, List.mem_cons] at hy
      rcases hy with h | h
      · exact Or.inr ⟨x, by simp, h⟩
      · exact Or.inl (List.mem_cons_of_mem x h)
    | succ i =>
      simp only [ifma_update, List.mem_cons] at hy
      rcases hy with h | h
      · exact Or.inl (by rw [h]; exact List.mem_cons_self x xs)
      · rcases ih i h with h1 | ⟨z, hz, hyz⟩
        · exact Or.inl (List.mem_cons_of_mem x h1)
        · exact Or.inr ⟨z, by simpa using hz, hyz⟩

theorem ifma_update_mem_addr (f : ifmultiaddr → ifmultiaddr)
    (hf : ∀ e, (f e).ifma_addr_storage = e.ifma_addr_storage)
    (l : List ifmultiaddr) (i : Nat) (y : ifmultiaddr) (hy : y ∈ ifma_update f l i) :
    ∃ x, x ∈ l ∧ y.ifma_addr_storage = x.ifma_addr_storage := by
  rcases ifma_update_mem f l i y hy with h | ⟨x, hx, hyx⟩
  · exact ⟨y, h, rfl⟩
  · exact ⟨x, List.getElem?_mem hx, by rw [hyx, hf]⟩

theorem ifma_update_pairwise (f : ifmultiaddr → ifmultiaddr)
    (hf : ∀ e, (f e).ifma_addr_storage = e.ifma_addr_storage)
    (l : List ifmultiaddr) (i : Nat)
    (hp : l.Pairwise (fun x y => ifma_matches x.ifma_addr_storage y = false)) :
    (ifma_update f l i).Pairwise (fun x y => ifma_matches x.ifma_addr_storage y = false) := by
  induction l generalizing i with
  | nil => simp [ifma_update]
  | cons x xs ih =>
    rw [List.pairwise_cons] at hp
    cases i with
    | zero =>
      simp only [ifma_update, List.pairwise_cons]
      refine ⟨?_, hp.2⟩
      intro y hy
      rw [hf x]
      exact hp.1 y hy
    | succ i =>
      simp only [ifma_update, List.pairwise_cons]
      refine ⟨?_, ih i hp.2⟩
      intro y hy
      obtain ⟨z, hz, hyz⟩ := ifma_update_mem_addr f hf xs i y hy
      rw [ifma_matches_addr _ y z hyz]
      exact hp.1 z hz

theorem ifma_update_const (g : ifmultiaddr → ifmultiaddr) (l : List ifmultiaddr) (i : Nat)
    (e : ifmultiaddr) (he : l[i]? = some e) :
    ifma_update (fun _ => g e) l i = ifma_update g l i := by
  induction l generalizing i with
  | nil => rfl
  | cons x xs ih =>
    cases i with
    | zero =>
      simp only [List.getElem?_cons_zero, Option.some.injEq] at he
      subst he
      rfl
    | succ i =>
      simp only [List.getElem?_cons_succ] at he
      simp only [ifma_update, ih i he]

theorem getElem?_append_cons (pre : List ifmultiaddr) (e : ifmultiaddr) (suf : List ifmultiaddr) :
    (pre ++ e :: suf)[pre.length]? = some e := by
  induction pre with
  | nil => simp
  | cons x xs ih => simpa using ih

theorem ifma_update_append (f : ifmultiaddr → ifmultiaddr) (pre : List ifmultiaddr)
    (e : ifmultiaddr) (suf : List ifmultiaddr) :
    ifma_update f (pre ++ e :: suf) pre.length = pre ++ f e :: suf := by
  induction pre with
  | nil => rfl
  | cons x xs ih =>
    show x :: ifma_update f (xs ++ e :: suf) xs.length = x :: (xs ++ f e :: suf)
    rw [ih]

theorem eraseIdx_append_cons (pre : List ifmultiaddr) (e : ifmultiaddr)
    (suf : List ifmultiaddr) : (pre ++ e :: suf).eraseIdx pre.length = pre ++ suf := by
  induction pre with
  | nil => rfl
  | cons x xs ih => simp only [List.cons_append, List.length_cons, List.eraseIdx_cons_succ, ih]

/-- `if_delallmulti` on entries owned by the interface: every entry loses one
reference, and the entries whose last reference that was are removed. -/
theorem if_delallmulti_loop_owned (ifp0 : ifnet) (suf pre : List ifmultiaddr)
    (hown : ∀ e, e ∈ suf → e.ifma_ifp = ifma_owner.ifp) :
    if_delallmulti_loop suf.length { ifp0 with if_multiaddrs := pre ++ suf } pre.length
      = { ifp0 with if_multiaddrs := pre ++ suf.filterMap drop_reference } := by
  induction suf generalizing pre with
  | nil => simp [if_delallmulti_loop]
  | cons e suf ih =>
    have hloc := if_delmulti_locked_owned { ifp0 with if_multiaddrs := pre ++ e :: suf }
      pre.length e (getElem?_append_cons pre e suf) (hown e (List.mem_cons_self e suf))
    have hown2 : ∀ x, x ∈ suf → x.ifma_ifp = ifma_owner.ifp :=
      fun x hx => hown x (List.mem_cons_of_mem e hx)
    simp only [List.length_cons, if_delallmulti_loop]
    rw [hloc]
    by_cases hgt : e.ifma_refcount - 1 > 0
    · have hdrop : drop_reference e
          = some { e with ifma_refcount := e.ifma_refcount - 1 } := by
        simp [drop_reference, hgt]
      simp only [hgt, if_true, ifma_update_append, List.length_append, List.length_cons,
        Nat.lt_irrefl, if_false, List.filterMap_cons, hdrop]
      have h := ih (pre ++ [{ e with ifma_refcount := e.ifma_refcount - 1 }]) hown2
      simp only [List.append_assoc, List.singleton_append, List.length_append,
        List.length_singleton] at h
      exact h
    · have hdrop : drop_reference e = none := by
        simp [drop_reference, hgt]
      simp only [hgt, if_false, eraseIdx_append_cons, List.length_append, List.length_cons,
        List.filterMap_cons, hdrop]
      have hlt : pre.length + suf.length < pre.length + (suf.length + 1) := by omega
      simp only [hlt, if_true]
      exact ih pre hown2

theorem if_delallmulti_owned (ifp : ifnet)
    (hown : ∀ e, e ∈ ifp.if_multiaddrs → e.ifma_ifp = ifma_owner.ifp) :
    if_delallmulti ifp
      = { ifp with if_multiaddrs := ifp.if_multiaddrs.filterMap drop_reference } := by
  have h := if_delallmulti_loop_owned ifp ifp.if_multiaddrs [] hown
  simpa [if_delallmulti] using h

/-! ### The invariant under each call -/

theorem mcast_inv_update (f : ifmultiaddr → ifmultiaddr)
    (hf : ∀ e, (f e).ifma_addr_storage = e.ifma_addr_storage)
    (l : List ifmultiaddr) (i : Nat)
    (hfe : ∀ e, l[i]? = some e → 1 ≤ (f e).ifma_refcount ∧ (f e).ifma_ifp = ifma_owner.ifp)
    (h : mcast_inv l) : mcast_inv (ifma_update f l i) := by
  refine ⟨?_, ifma_update_pairwise f hf l i h.2⟩
  intro y hy
  rcases ifma_update_mem f l i y hy with hm | ⟨x, hx, hyx⟩
  · exact h.1 y hm
  · rw [hyx]; exact hfe x hx

theorem mcast_inv_eraseIdx (l : List ifmultiaddr) (i : Nat) (h : mcast_inv l) :
    mcast_inv (l.eraseIdx i) :=
  ⟨fun y hy => h.1 y (List.mem_of_mem_eraseIdx hy),
    List.Pairwise.sublist (List.eraseIdx_sublist l i) h.2⟩

theorem mcast_inv_cons_new (b : sockaddr_dl) (l : List ifmultiaddr) (h : mcast_inv l)
    (hnone : findmulti b l = none) :
    mcast_inv ({ ifma_addr_storage := b, ifma_refcount := 1, ifma_ifp := ifma_owner.ifp } :: l) := by
  refine ⟨?_, ?_⟩
  · intro y hy
    rcases List.mem_cons.mp hy with rfl | hm
    · exact ⟨Int.le_refl 1, rfl⟩
    · exact h.1 y hm
  · rw [List.pairwise_cons]
    exact ⟨fun y hy => (findmulti_none_iff b l).mp hnone y hy, h.2⟩

theorem mcast_inv_drop (l : List ifmultiaddr) (h : mcast_inv l) :
    mcast_inv (l.filterMap drop_reference) := by
  refine ⟨?_, ?_⟩
  · intro y hy
    obtain ⟨x, hx, hxy⟩ := List.mem_filterMap.mp hy
    unfold drop_reference at hxy
    split at hxy
    · rename_i hgt
      simp only [Option.some.injEq] at hxy
      subst hxy
      exact ⟨by show 1 ≤ x.ifma_refcount - 1; omega, (h.1 x hx).2⟩
    · cases hxy
  · refine List.Pairwise.filterMap drop_reference ?_ h.2
    intro x y hxy x2 hx2 y2 hy2
    have hx2' : x2.ifma_addr_storage = x.ifma_addr_storage := by
      simp only [Option.mem_def, drop_reference] at hx2
      split at hx2
      · simp only [Option.some.injEq] at hx2; subst hx2; rfl
      · cases hx2
    have hy2' : y2.ifma_addr_storage = y.ifma_addr_storage := by
      simp only [Option.mem_def, drop_reference] at hy2
      split at hy2
      · simp only [Option.some.injEq] at hy2; subst hy2; rfl
      · cases hy2
    rw [hx2', ifma_matches_addr _ y2 y hy2']
    exact hxy

/-- The multicast list after a join. -/
theorem mcast_join_cases (ifp : ifnet) (b : sockaddr_dl) (m : Bool) :
    (∃ i e, findmulti b ifp.if_multiaddrs = some i ∧ ifp.if_multiaddrs[i]? = some e ∧
      (if_addmulti ifp b m).1 = errno.ENOERR ∧
      (mcast_step ifp (McastCall.join b m)).if_multiaddrs
        = ifma_update (fun x => { x with ifma_refcount := x.ifma_refcount + 1 })
            ifp.if_multiaddrs i) ∨
    (findmulti b ifp.if_multiaddrs = none ∧ m = true ∧
      (if_addmulti ifp b m).1 = errno.ENOERR ∧
      (mcast_step ifp (McastCall.join b m)).if_multiaddrs
        = { ifma_addr_storage := b, ifma_refcount := 1, ifma_ifp := ifma_owner.ifp }
            :: ifp.if_multiaddrs) ∨
    (findmulti b ifp.if_multiaddrs = none ∧ m = false ∧
      (if_addmulti ifp b m).1 = errno.ENOBUFS ∧
      (mcast_step ifp (McastCall.join b m)).if_multiaddrs = ifp.if_multiaddrs) := by
  cases hfind : findmulti b ifp.if_multiaddrs with
  | some i =>
    left
    obtain ⟨e, he, _, _⟩ := findmulti_some b ifp.if_multiaddrs i hfind
    have hval := if_addmulti_found ifp b m i e hfind he
    refine ⟨i, e, rfl, he, by rw [hval], ?_⟩
    simp only [mcast_step, hval]
  | none =>
    right
    cases m with
    | true =>
      left
      have hval := if_addmulti_new ifp b hfind
      refine ⟨rfl, rfl, by rw [hval], ?_⟩
      simp only [mcast_step, hval]
    | false =>
      right
      have hf : if_findmulti ifp b = none := hfind
      refine ⟨rfl, rfl, ?_, ?_⟩ <;> simp [mcast_step, if_addmulti, _if_addmulti, hf]

/-- The multicast list after a leave, the entries being owned by the
interface. -/
theorem mcast_leave_cases (ifp : ifnet) (b : sockaddr_dl)
    (hown : ∀ e, e ∈ ifp.if_multiaddrs → e.ifma_ifp = ifma_owner.ifp) :
    (findmulti b ifp.if_multiaddrs = none ∧
      (if_delmulti (some ifp) b).1 = errno.ENOENT ∧
      (mcast_step ifp (McastCall.leave b)).if_multiaddrs = ifp.if_multiaddrs) ∨
    (∃ i e, findmulti b ifp.if_multiaddrs = some i ∧ ifp.if_multiaddrs[i]? = some e ∧
      (if_delmulti (some ifp) b).1 = errno.ENOERR ∧
      (mcast_step ifp (McastCall.leave b)).if_multiaddrs
        = if e.ifma_refcount - 1 > 0 then
            ifma_update (fun x => { x with ifma_refcount := x.ifma_refcount - 1 })
              ifp.if_multiaddrs i
          else ifp.if_multiaddrs.eraseIdx i) := by
  cases hfind : findmulti b ifp.if_multiaddrs with
  | none =>
    left
    have hf : if_findmulti ifp b = none := hfind
    refine ⟨rfl, ?_, ?_⟩ <;> simp [mcast_step, if_delmulti, hf]
  | some i =>
    right
    obtain ⟨e, he, _, _⟩ := findmulti_some b ifp.if_multiaddrs i hfind
    have hf : if_findmulti ifp b = some i := hfind
    have hloc := if_delmulti_locked_owned ifp i e he (hown e (List.getElem?_mem he))
    refine ⟨i, e, rfl, he, ?_, ?_⟩
    · simp [if_delmulti, hf]
    · simp only [mcast_step, if_delmulti, hf, hloc, Option.getD_some]
      by_cases hgt : e.ifma_refcount - 1 > 0
      · simp only [hgt, if_true]
        exact ifma_update_const
          (fun x => { x with ifma_refcount := x.ifma_refcount - 1 }) _ i e he
      · simp only [hgt, if_false]

/-- A join keeps the invariant, and adds one to the refcount looked up for the
addresses with its bytes when it returns 0. -/
theorem mcast_join_step (ifp : ifnet) (b : sockaddr_dl) (m : Bool)
    (h : mcast_inv ifp.if_multiaddrs) :
    mcast_inv (mcast_step ifp (McastCall.join b m)).if_multiaddrs ∧
    ∀ a, refcount_of a (mcast_step ifp (McastCall.join b m)).if_multiaddrs
      = refcount_of a ifp.if_multiaddrs
        + (if same_lladdr a b = true ∧ (if_addmulti ifp b m).1 = errno.ENOERR then 1 else 0) := by
  rcases mcast_join_cases ifp b m with
    ⟨i, e, hfind, he, hrc, hl⟩ | ⟨hfind, _, hrc, hl⟩ | ⟨hfind, _, hrc, hl⟩
  · rw [hl, hrc]
    refine ⟨?_, ?_⟩
    · apply mcast_inv_update
        (fun x => { x with ifma_refcount := x.ifma_refcount + 1 })
        (fun _ => rfl) _ _ _ h
      intro x hx
      have := h.1 x (List.getElem?_mem hx)
      exact ⟨by show 1 ≤ x.ifma_refcount + 1; omega, this.2⟩
    · intro a
      rw [refcount_of_update (fun x => { x with ifma_refcount := x.ifma_refcount + 1 })
        (fun _ => rfl) a b _ i e hfind he]
      by_cases hab : same_lladdr a b = true
      · rw [refcount_of_congr a b _ hab, refcount_of_found b _ i e hfind he]
        simp [hab]
      · simp [hab]
  · rw [hl, hrc]
    refine ⟨mcast_inv_cons_new b _ h hfind, ?_⟩
    intro a
    have hm : ifma_matches a
        { ifma_addr_storage := b, ifma_refcount := 1, ifma_ifp := ifma_owner.ifp }
        = same_lladdr a b := rfl
    simp only [refcount_of, hm]
    by_cases hab : same_lladdr a b = true
    · rw [refcount_of_congr a b _ hab,
        refcount_of_no_match b _ ((findmulti_none_iff b _).mp hfind)]
      simp [hab]
    · simp [hab]
  · rw [hl, hrc]
    refine ⟨h, ?_⟩
    intro a
    simp

/-- A leave keeps the invariant, and takes one from the refcount looked up for
the addresses with its bytes when it returns 0. -/
theorem mcast_leave_step (ifp : ifnet) (b : sockaddr_dl)
    (h : mcast_inv ifp.if_multiaddrs) :
    mcast_inv (mcast_step ifp (McastCall.leave b)).if_multiaddrs ∧
    ∀ a, refcount_of a (mcast_step ifp (McastCall.leave b)).if_multiaddrs
        + (if same_lladdr a b = true ∧ (if_delmulti (some ifp) b).1 = errno.ENOERR
            then 1 else 0)
      = refcount_of a ifp.if_multiaddrs := by
  rcases mcast_leave_cases ifp b (fun e he => (h.1 e he).2) with
    ⟨_, hrc, hl⟩ | ⟨i, e, hfind, he, hrc, hl⟩
  · rw [hl, hrc]
    refine ⟨h, ?_⟩
    intro a
    simp
  · have hpos : 1 ≤ e.ifma_refcount := (h.1 e (List.getElem?_mem he)).1
    rw [hl, hrc]
    by_cases hgt : e.ifma_refcount - 1 > 0
    · rw [if_pos hgt]
      refine ⟨?_, ?_⟩
      · apply mcast_inv_update
          (fun x => { x with ifma_refcount := x.ifma_refcount - 1 })
          (fun _ => rfl) _ _ _ h
        intro x hx
        rw [he] at hx
        cases hx
        exact ⟨by show 1 ≤ e.ifma_refcount - 1; omega, (h.1 e (List.getElem?_mem he)).2⟩
      · intro a
        rw [refcount_of_update (fun x => { x with ifma_refcount := x.ifma_refcount - 1 })
          (fun _ => rfl) a b _ i e hfind he]
        by_cases hab : same_lladdr a b = true
        · rw [refcount_of_congr a b _ hab, refcount_of_found b _ i e hfind he]
          simp [hab]
        · simp [hab]
    · rw [if_neg hgt]
      refine ⟨mcast_inv_eraseIdx _ i h, ?_⟩
      intro a
      rw [refcount_of_erase a b _ i h.2 hfind]
      by_cases hab : same_lladdr a b = true
      · rw [refcount_of_congr a b _ hab, refcount_of_found b _ i e hfind he]
        simp only [hab, if_true, and_self]
        omega
      · simp [hab]

/-- `if_delallmulti` keeps the invariant. -/
theorem mcast_leave_all_step (ifp : ifnet) (h : mcast_inv ifp.if_multiaddrs) :
    mcast_inv (mcast_step ifp McastCall.leave_all).if_multiaddrs := by
  simp only [mcast_step, if_delallmulti_owned ifp (fun e he => (h.1 e he).2)]
  exact mcast_inv_drop _ h

theorem mcast_exec_inv (cs : List McastCall) (ifp : ifnet) (h : mcast_inv ifp.if_multiaddrs) :
    mcast_inv (mcast_exec ifp cs).if_multiaddrs ∧
    (no_leave_all cs = true → ∀ a,
      refcount_of a (mcast_exec ifp cs).if_multiaddrs + (leaves_ok a ifp cs : Int)
        = refcount_of a ifp.if_multiaddrs + (joins_ok a ifp cs : Int)) := by
  induction cs generalizing ifp with
  | nil => exact ⟨h, fun _ a => by simp [mcast_exec, leaves_ok, joins_ok]⟩
  | cons c cs ih =>
    cases c with
    | join b m =>
      obtain ⟨hinv, hbal⟩ := mcast_join_step ifp b m h
      obtain ⟨r1, r2⟩ := ih (mcast_step ifp (McastCall.join b m)) hinv
      refine ⟨by simpa [mcast_exec] using r1, ?_⟩
      intro hno a
      have r := r2 (by simpa [no_leave_all] using hno) a
      rw [hbal a] at r
      simp only [mcast_exec, List.foldl_cons, leaves_ok, joins_ok] at r ⊢
      split_ifs at r ⊢ <;> push_cast <;> omega
    | leave b =>
      obtain ⟨hinv, hbal⟩ := mcast_leave_step ifp b h
      obtain ⟨r1, r2⟩ := ih (mcast_step ifp (McastCall.leave b)) hinv
      refine ⟨by simpa [mcast_exec] using r1, ?_⟩
      intro hno a
      have r := r2 (by simpa [no_leave_all] using hno) a
      have hb := hbal a
      simp only [mcast_exec, List.foldl_cons, leaves_ok, joins_ok] at r ⊢
      split_ifs at hb ⊢ <;> push_cast <;> omega
    | leave_all =>
      have hinv := mcast_leave_all_step ifp h
      obtain ⟨r1, _⟩ := ih (mcast_step ifp McastCall.leave_all) hinv
      refine ⟨by simpa [mcast_exec] using r1, ?_⟩
      intro hno
      simp [no_leave_all] at hno

/-- Under the invariant an address has an entry exactly when the refcount
looked up for it is at least 1. -/
theorem mcast_inv_entry_iff (a : sockaddr_dl) (l : List ifmultiaddr) (h : mcast_inv l) :
    (∃ e, e ∈ l ∧ ifma_matches a e = true) ↔ 1 ≤ refcount_of a l := by
  cases hfind : findmulti a l with
  | none =>
    have hno := (findmulti_none_iff a l).mp hfind
    rw [refcount_of_no_match a l hno]
    constructor
    · rintro ⟨e, he, hm⟩
      rw [hno e he] at hm
      cases hm
    · intro h0; omega
  | some i =>
    obtain ⟨e, he, hm, _⟩ := findmulti_some a l i hfind
    rw [refcount_of_found a l i e hfind he]
    constructor
    · intro _
      exact (h.1 e (List.getElem?_mem he)).1
    · intro _
      exact ⟨e, List.getElem?_mem he, hm⟩

/-- Counterexample to C12: a leave of an address without entry (it returns
`ENOENT`) followed by a join of that address leaves an entry for the address,
although one join does not outnumber one leave; and a join followed by
`if_delallmulti` leaves no entry for the address, although one join outnumbers
no leave. -/
theorem C12_counterexample :
    (mcast_exec {}
      [McastCall.join { lladdr := [170, 187, 204, 221, 238, 255] } true,
       McastCall.leave_all]).if_multiaddrs = [] ∧
    joins_called { lladdr := [170, 187, 204, 221, 238, 255] }
      [McastCall.join { lladdr := [170, 187, 204, 221, 238, 255] } true,
       McastCall.leave_all] = 1 ∧
    leaves_called { lladdr := [170, 187, 204, 221, 238, 255] }
      [McastCall.join { lladdr := [170, 187, 204, 221, 238, 255] } true,
       McastCall.leave_all] = 0 ∧
    (if_delmulti (some {}) { lladdr := [170, 187, 204, 221, 238, 255] }).1 = errno.ENOENT ∧
    (mcast_exec {}
      [McastCall.leave { lladdr := [170, 187, 204, 221, 238, 255] },
       McastCall.join { lladdr := [170, 187, 204, 221, 238, 255] } true]).if_multiaddrs
      = [{ ifma_addr_storage := { lladdr := [170, 187, 204, 221, 238, 255] },
           ifma_refcount := 1 }] ∧
    joins_called { lladdr := [170, 187, 204, 221, 238, 255] }
      [McastCall.leave { lladdr := [170, 187, 204, 221, 238, 255] },
       McastCall.join { lladdr := [170, 187, 204, 221, 238, 255] } true] = 1 ∧
    leaves_called { lladdr := [170, 187, 204, 221, 238, 255] }
      [McastCall.leave { lladdr := [170, 187, 204, 221, 238, 255] },
       McastCall.join { lladdr := [170, 187, 204, 221, 238, 255] } true] = 1 := by
  decide

/-- C12, amended. Starting from an empty multicast table, after every sequence
of `if_addmulti`, `if_delmulti` and `if_delallmulti` calls every entry has a
refcount of at least 1 and no two entries have the same address bytes (as
`if_findmulti` compares them). After every such sequence without
`if_delallmulti`, the refcount of the entry for an address is the number of
its joins that returned 0 minus the number of its leaves that returned 0 (0
standing for no entry), so that the address has an entry if and only if its
joins that returned 0 outnumber its leaves that returned 0. -/
theorem C12_multicast_table_invariant (ifp : ifnet) (cs : List McastCall) :
    (∀ e, e ∈ (mcast_exec { ifp with if_multiaddrs := [] } cs).if_multiaddrs →
      1 ≤ e.ifma_refcount) ∧
    (mcast_exec { ifp with if_multiaddrs := [] } cs).if_multiaddrs.Pairwise
      (fun x y => ifma_matches x.ifma_addr_storage y = false) ∧
    (no_leave_all cs = true → ∀ a,
      refcount_of a (mcast_exec { ifp with if_multiaddrs := [] } cs).if_multiaddrs
        = (joins_ok a { ifp with if_multiaddrs := [] } cs : Int)
          - (leaves_ok a { ifp with if_multiaddrs := [] } cs : Int) ∧
      ((∃ e, e ∈ (mcast_exec { ifp with if_multiaddrs := [] } cs).if_multiaddrs ∧
          ifma_matches a e = true) ↔
        leaves_ok a { ifp with if_multiaddrs := [] } cs
          < joins_ok a { ifp with if_multiaddrs := [] } cs)) := by
  have h0 : mcast_inv ({ ifp with if_multiaddrs := [] } : ifnet).if_multiaddrs :=
    ⟨fun e he => (by cases he), List.Pairwise.nil⟩
  obtain ⟨hinv, hbal⟩ := mcast_exec_inv cs { ifp with if_multiaddrs := [] } h0
  refine ⟨fun e he => (hinv.1 e he).1, hinv.2, ?_⟩
  intro hno a
  have hb := hbal hno a
  simp only [refcount_of, zero_add] at hb
  refine ⟨by omega, ?_⟩
  rw [mcast_inv_entry_iff a _ hinv]
  omega

/-- Witness of C12: two joins and one leave of one address, around a leave of
an address that has no entry. -/
theorem C12_multicast_table_invariant_witness :
    refcount_of { lladdr := [170, 187, 204, 221, 238, 255] }
      (mcast_exec { if_multiaddrs := [] }
        [McastCall.join { lladdr := [170, 187, 204, 221, 238, 255] } true,
         McastCall.leave { lladdr := [1, 0, 94, 0, 0, 1] },
         McastCall.join { lladdr := [170, 187, 204, 221, 238, 255] } true,
         McastCall.leave { lladdr := [170, 187, 204, 221, 238, 255] }]).if_multiaddrs
      = 1 :=
  ((C12_multicast_table_invariant {}
      [McastCall.join { lladdr := [170, 187, 204, 221, 238, 255] } true,
       McastCall.leave { lladdr := [1, 0, 94, 0, 0, 1] },
       McastCall.join { lladdr := [170, 187, 204, 221, 238, 255] } true,
       McastCall.leave { lladdr := [170, 187, 204, 221, 238, 255] }]).2.2
    (by decide) { lladdr := [170, 187, 204, 221, 238, 255] }).1

/-- Witness of C20: an Ethernet interface in slot 0 of a table of two slots is
freed. -/
theorem C20_free_witness :
    (if_free_inplace
      { gDevices := [ifnet_ptr.obj 1, ifnet_ptr.NULL], gDeviceCount := 1,
        gDeviceNameList := [some 1, none] } 1
      { if_index := 0, if_type := 6 }).gDevices = [ifnet_ptr.NULL, ifnet_ptr.NULL] ∧
    (if_free_inplace
      { gDevices := [ifnet_ptr.obj 1, ifnet_ptr.NULL], gDeviceCount := 1,
        gDeviceNameList := [some 1, none] } 1
      { if_index := 0, if_type := 6 }).gDeviceNameList = [none, none] :=
  ⟨((C20_free
      { gDevices := [ifnet_ptr.obj 1, ifnet_ptr.NULL], gDeviceCount := 1,
        gDeviceNameList := [some 1, none] } 1 (by decide)).1
      { if_index := 0, if_type := 6 } (by decide)).1,
   by decide⟩

/-! ## Removal of all memberships: what the code does -/

/-- C11. `if_delallmulti` calls `if_delmulti_locked` once for each entry, which
drops one reference: on entries owned by the interface it leaves every entry
that had more than one reference, with one reference less, and removes the
others. After two joins of the same address and `if_delallmulti`, the entry is
still in the list, with refcount 1; the multicast table is not empty. -/
theorem C11_if_delallmulti_keeps_shared_entry :
    (∀ ifp : ifnet, (∀ e, e ∈ ifp.if_multiaddrs → e.ifma_ifp = ifma_owner.ifp) →
      (if_delallmulti ifp).if_multiaddrs = ifp.if_multiaddrs.filterMap drop_reference) ∧
    (addmulti_times { lladdr := [170, 187, 204, 221, 238, 255] } 2 {}).2.1.if_multiaddrs
      = [{ ifma_addr_storage := { lladdr := [170, 187, 204, 221, 238, 255] },
           ifma_refcount := 2 }] ∧
    (if_delallmulti
      (addmulti_times { lladdr := [170, 187, 204, 221, 238, 255] } 2 {}).2.1).if_multiaddrs
      = [{ ifma_addr_storage := { lladdr := [170, 187, 204, 221, 238, 255] },
           ifma_refcount := 1 }] ∧
    (if_delallmulti
      (addmulti_times { lladdr := [170, 187, 204, 221, 238, 255] } 2 {}).2.1).if_multiaddrs
      ≠ [] := by
  refine ⟨?_, by decide, by decide, by decide⟩
  intro ifp hown
  rw [if_delallmulti_owned ifp hown]

/-! ## Control requests: `ether_ioctl` -/

/-- C22. `ether_ioctl` returns 0 exactly when the command is `SIOCSIFMTU` and
the requested MTU lies in `[ETHERMIN, ETHERMTU]`; in that case `if_mtu` is the
requested value and every other field of the interface is as before. In every
other case (an MTU out of range, or any other command) it returns `EINVAL` and
the interface, `if_mtu` included, is as before. -/
theorem C22_ether_ioctl_validation (ETHERMIN ETHERMTU : Int) (ifp : ifnet) (command : ioctl_cmd)
    (ifr : ifreq) :
    ((ether_ioctl ETHERMIN ETHERMTU ifp command ifr).1 = errno.ENOERR ↔
      (command = ioctl_cmd.SIOCSIFMTU ∧ ETHERMIN ≤ ifr.ifr_mtu ∧ ifr.ifr_mtu ≤ ETHERMTU)) ∧
    ((command = ioctl_cmd.SIOCSIFMTU ∧ ETHERMIN ≤ ifr.ifr_mtu ∧ ifr.ifr_mtu ≤ ETHERMTU) →
      (ether_ioctl ETHERMIN ETHERMTU ifp command ifr).2.if_mtu = ifr.ifr_mtu ∧
      (ether_ioctl ETHERMIN ETHERMTU ifp command ifr).2 = { ifp with if_mtu := ifr.ifr_mtu }) ∧
    (¬ (command = ioctl_cmd.SIOCSIFMTU ∧ ETHERMIN ≤ ifr.ifr_mtu ∧ ifr.ifr_mtu ≤ ETHERMTU) →
      (ether_ioctl ETHERMIN ETHERMTU ifp command ifr).1 = errno.EINVAL ∧
      (ether_ioctl ETHERMIN ETHERMTU ifp command ifr).2 = ifp ∧
      (ether_ioctl ETHERMIN ETHERMTU ifp command ifr).2.if_mtu = ifp.if_mtu) := by
  cases command with
  | SIOCSIFMTU =>
    by_cases h : ifr.ifr_mtu < ETHERMIN ∨ ifr.ifr_mtu > ETHERMTU
    · have hn : ¬ (ETHERMIN ≤ ifr.ifr_mtu ∧ ifr.ifr_mtu ≤ ETHERMTU) := by omega
      simp [ether_ioctl, h, hn]
    · have hp : ETHERMIN ≤ ifr.ifr_mtu ∧ ifr.ifr_mtu ≤ ETHERMTU := by omega
      simp [ether_ioctl, h, hp]
  | SIOCADDMULTI => simp [ether_ioctl]
  | SIOCDELMULTI => simp [ether_ioctl]
  | other n => simp [ether_ioctl]

/-! ## Identity assignment: `if_initname` -/

end NexusOS
